import Mathlib

/-!
# Shell DM (src/dm/impls/shell/dmshell.c)

A shallow embedding of the shell distributed-array manager: the reference
counted objects it hands out, its three template slots, its late-bound
operation table, and the routines of dmshell.c that act on them.

PETSc objects live in a heap indexed by handle.  A C pointer to an object is a
handle; a NULL pointer is `none`.  Every routine returns a `Ret`: the error
status, the value stored through the output pointer, and the DM and heap as
the routine leaves them (a routine that fails half way keeps the effects it
already had, as the C code does).
-/

namespace DMShell

/-! ## Objects and the heap -/

/-- Handle of a PETSc object: its index in the heap. -/
abbrev ObjId := Nat

/-- Class of a PETSc object (the classid field of its header). -/
inductive ClassId where
  | VEC_CLASSID
  | MAT_CLASSID
  deriving DecidableEq, Repr

/-- Header and payload of a Vec or Mat.  `refct` is the header's reference
count (a PetscInt).  `m`, `M` are the local and global row sizes, `n`, `N` the
local and global column sizes (unused for a Vec).  `vals` are the stored
entries; only whether they are zero matters here, so scalars are integers.
`dm` is the DM attached by VecSetDM.  `freed` marks a destroyed header. -/
structure PetscObject where
  classid : ClassId
  refct : Int
  type_name : Option String
  m : Nat
  n : Nat
  M : Nat
  N : Nat
  vals : List Int
  dm : Option Nat
  freed : Bool
  deriving DecidableEq, Repr

/-- The heap: object `i` is the `i`-th entry; allocation appends. -/
abbrev Heap := List PetscObject

/-- Error classes used by the routines below. -/
inductive ErrKind where
  | PETSC_ERR_USER
  | PETSC_ERR_ARG_NOTSAMETYPE
  | PETSC_ERR_ARG_NULL
  | PETSC_ERR_ARG_BADPTR
  | PETSC_ERR_ARG_CORRUPT
  | PETSC_ERR_ARG_WRONG
  | PETSC_ERR_ARG_UNKNOWN_TYPE
  deriving DecidableEq, Repr

/-- Outcome of a routine: `ok` is a zero PetscErrorCode, `error` a nonzero one
raised by SETERRQ (with its message), `fault` an access through a NULL or
dangling pointer, where the C program has no defined result at all. -/
inductive Status where
  | ok
  | error (kind : ErrKind) (msg : String)
  | fault
  deriving DecidableEq, Repr

/-- Apply `f` to object `i` of the heap (nothing happens when `i` is not allocated). -/
def updObj (heap : Heap) (i : ObjId) (f : PetscObject → PetscObject) : Heap :=
  match heap[i]? with
  | some o => heap.set i (f o)
  | none => heap

/-- Allocate a new object: its handle is the next free index. -/
def alloc (heap : Heap) (o : PetscObject) : ObjId × Heap :=
  (heap.length, heap ++ [o])

/-- Modelled from the spec: the header check PetscValidHeaderSpecific of
petscimpl.h (not among the sources).  A handle passes when it designates a
live object of the expected class. -/
def PetscValidHeaderSpecific (heap : Heap) (x : ObjId) (c : ClassId) : Status :=
  match heap[x]? with
  | none => .error .PETSC_ERR_ARG_BADPTR "Invalid Pointer to Object"
  | some o =>
    if o.freed then .error .PETSC_ERR_ARG_CORRUPT "Invalid Pointer to Object"
    else if o.classid = c then .ok
    else .error .PETSC_ERR_ARG_WRONG "Wrong type of object"

/-- Modelled from the spec: the header check PetscValidHeader (any class). -/
def PetscValidHeader (heap : Heap) (x : ObjId) : Status :=
  match heap[x]? with
  | none => .error .PETSC_ERR_ARG_BADPTR "Invalid Pointer to Object"
  | some o =>
    if o.freed then .error .PETSC_ERR_ARG_CORRUPT "Invalid Pointer to Object"
    else .ok

/-- An object with one more reference (refct++). -/
def referenced (o : PetscObject) : PetscObject :=
  { o with refct := o.refct + 1 }

/-- An object with one reference fewer; it is destroyed when the count is no
longer positive (the test `--refct > 0` of the destroy routines). -/
def released (o : PetscObject) : PetscObject :=
  { o with refct := o.refct - 1, freed := decide (o.refct - 1 ≤ 0) }

/-- Modelled from the spec: PetscObjectReference (sys/objects, not among the
sources) adds one to the reference count of a valid object. -/
def PetscObjectReference (heap : Heap) (x : ObjId) : Status × Heap :=
  match PetscValidHeader heap x with
  | .ok => (.ok, updObj heap x referenced)
  | e => (e, heap)

/-- Modelled from the spec: the shared body of VecDestroy and MatDestroy (not
among the sources) applied to the slot `*v`.  A NULL slot is left alone;
otherwise the count is decremented, the object is destroyed when the count is
no longer positive, and the slot is set to NULL.  The returned slot is the
value of `*v` afterwards. -/
def ObjectDestroy (c : ClassId) (heap : Heap) (v : Option ObjId) :
    Status × Heap × Option ObjId :=
  match v with
  | none => (.ok, heap, none)
  | some x =>
    match PetscValidHeaderSpecific heap x c with
    | .ok => (.ok, updObj heap x released, none)
    | e => (e, heap, some x)

/-- VecDestroy(&v). -/
def VecDestroy (heap : Heap) (v : Option ObjId) : Status × Heap × Option ObjId :=
  ObjectDestroy .VEC_CLASSID heap v

/-- MatDestroy(&A). -/
def MatDestroy (heap : Heap) (v : Option ObjId) : Status × Heap × Option ObjId :=
  ObjectDestroy .MAT_CLASSID heap v

/-- Set every stored entry of an object to zero. -/
def zeroVals (o : PetscObject) : PetscObject :=
  { o with vals := List.replicate o.vals.length 0 }

/-- Modelled from the spec: VecZeroEntries (not among the sources) resets the
contents of a valid vector to zero. -/
def VecZeroEntries (heap : Heap) (x : ObjId) : Status × Heap :=
  match PetscValidHeaderSpecific heap x .VEC_CLASSID with
  | .ok => (.ok, updObj heap x zeroVals)
  | e => (e, heap)

/-- Modelled from the spec: MatZeroEntries (not among the sources) resets the
contents of a valid matrix to zero. -/
def MatZeroEntries (heap : Heap) (x : ObjId) : Status × Heap :=
  match PetscValidHeaderSpecific heap x .MAT_CLASSID with
  | .ok => (.ok, updObj heap x zeroVals)
  | e => (e, heap)

/-- A fresh object with the structure (class, type, sizes, number of stored
entries) of `o`, held once, attached to no DM.  The entries are whatever the
allocation holds; the template's values stand for that arbitrary content. -/
def cloneOf (o : PetscObject) : PetscObject :=
  { o with refct := 1, dm := none, freed := false }

/-- Modelled from the spec: VecDuplicate (not among the sources) creates a new
vector with the structure of a valid vector; entries are not copied. -/
def VecDuplicate (heap : Heap) (x : ObjId) : Status × Heap × Option ObjId :=
  match PetscValidHeaderSpecific heap x .VEC_CLASSID with
  | .ok =>
    match heap[x]? with
    | some o => (.ok, (alloc heap (cloneOf o)).2, some (alloc heap (cloneOf o)).1)
    | none => (.fault, heap, none)
  | e => (e, heap, none)

/-- Modelled from the spec: MatDuplicate with MAT_DO_NOT_COPY_VALUES (not among
the sources) creates a new matrix with the structure of a valid matrix. -/
def MatDuplicate (heap : Heap) (x : ObjId) : Status × Heap × Option ObjId :=
  match PetscValidHeaderSpecific heap x .MAT_CLASSID with
  | .ok =>
    match heap[x]? with
    | some o => (.ok, (alloc heap (zeroVals (cloneOf o))).2,
        some (alloc heap (zeroVals (cloneOf o))).1)
    | none => (.fault, heap, none)
  | e => (e, heap, none)

/-- Modelled from the spec: VecSetDM (not among the sources) attaches the DM
to a valid vector. -/
def VecSetDM (heap : Heap) (x : ObjId) (dmid : Nat) : Status × Heap :=
  match PetscValidHeaderSpecific heap x .VEC_CLASSID with
  | .ok => (.ok, updObj heap x (fun o => { o with dm := some dmid }))
  | e => (e, heap)

/-- Modelled from the spec: PetscObjectTypeCompare (not among the sources):
the object's type name equals the given one (two absent names agree). -/
def PetscObjectTypeCompare (type_name : Option String) (t : Option String) : Bool :=
  match type_name, t with
  | none, none => true
  | some a, some b => a == b
  | _, _ => false

/-! ## The DM, its operation table and the shell record -/

/-- Type name of the shell DM (DMSHELL in petscdm.h). -/
def DMSHELL : String := "shell"

/-- Matrix type names (petscmat.h). -/
def MATAIJ : String := "aij"

/-- Sequential AIJ. -/
def MATSEQAIJ : String := "seqaij"

/-- Parallel AIJ. -/
def MATMPIAIJ : String := "mpiaij"

/-- A C function pointer stored in the operation table: one of the routines of
dmshell.c, or a caller-supplied routine identified by its address. -/
inductive FnPtr where
  | DMDestroy_Shell
  | DMCreateGlobalVector_Shell
  | DMCreateLocalVector_Shell
  | DMCreateMatrix_Shell
  | DMView_Shell
  | DMLoad_Shell
  | DMShellDefaultGlobalToLocalBegin
  | DMShellDefaultGlobalToLocalEnd
  | user (addr : Nat)
  deriving DecidableEq, Repr

/-- The fields of dm->ops that dmshell.c reads or writes (NULL is `none`). -/
structure DMOps where
  destroy : Option FnPtr
  createglobalvector : Option FnPtr
  createlocalvector : Option FnPtr
  creatematrix : Option FnPtr
  view : Option FnPtr
  load : Option FnPtr
  globaltolocalbegin : Option FnPtr
  globaltolocalend : Option FnPtr
  localtoglobalbegin : Option FnPtr
  localtoglobalend : Option FnPtr
  deriving DecidableEq, Repr

/-- The record DM_Shell.  `gtol` and `ltog` are pointers to a VecScatter
variable of the caller: outer `none` is a NULL pointer, `some none` a pointer
to a NULL scatter, `some (some k)` a pointer to scatter context `k`. -/
structure DM_Shell where
  Xglobal : Option ObjId
  Xlocal : Option ObjId
  A : Option ObjId
  gtol : Option (Option Nat)
  ltog : Option (Option Nat)
  deriving DecidableEq, Repr

/-- The DM object.  `data` is dm->data viewed as a DM_Shell pointer: `none`
when it does not point to a live DM_Shell record (NULL, or freed). -/
structure DM where
  id : Nat
  type_name : Option String
  ops : DMOps
  data : Option DM_Shell
  deriving DecidableEq, Repr

/-- What a routine leaves behind. -/
structure Ret where
  ierr : Status
  out : Option ObjId
  dm : DM
  heap : Heap
  deriving DecidableEq, Repr

/-- Services of the library that dmshell.c calls and that are not among the
sources: how MatSetType resolves a requested type name (`none`: unknown
type), the type MatSetUp gives a matrix that has none, and the scatter
executor. -/
structure PetscLib where
  MatSetType : String → Option String
  MatSetUpDefault : String
  VecScatterBegin : Nat → ObjId → ObjId → Heap → Status × Heap
  VecScatterEnd : Nat → ObjId → ObjId → Heap → Status × Heap

/-- A one-process library: the generic AIJ type resolves to sequential AIJ,
every other name to itself; scatters copy nothing. -/
def seqLib : PetscLib where
  MatSetType := fun t => if t = MATAIJ then some MATSEQAIJ else some t
  MatSetUpDefault := MATSEQAIJ
  VecScatterBegin := fun _ _ _ h => (.ok, h)
  VecScatterEnd := fun _ _ _ h => (.ok, h)

/-! ## The routines of dmshell.c -/

/-- The matrix that MatCreate and MatSetSizes(A,m,m,M,M) build from the sizes
of the global vector `v`: held once, no type yet, nothing stored. -/
def naiveMat (v : PetscObject) : PetscObject :=
  { classid := .MAT_CLASSID, refct := 1, type_name := none,
    m := v.m, n := v.m, M := v.M, N := v.M, vals := [], dm := none, freed := false }

/-- Lines 24-35 of DMCreateMatrix_Shell: with no matrix template, build one
from the global vector template (sizes m x m local, M x M global), store it in
shell->A, or fail when there is no vector either. -/
def DMCreateMatrix_Shell_provide (lib : PetscLib) (shell : DM_Shell) (heap : Heap)
    (mtype : Option String) : Status × DM_Shell × Heap :=
  match shell.A with
  | some _ => (.ok, shell, heap)
  | none =>
    match shell.Xglobal with
    | none => (.error .PETSC_ERR_USER
        "Must call DMShellSetMatrix(), DMShellSetCreateMatrix(), or provide a vector",
        shell, heap)
    | some xg =>
      -- VecGetSize, VecGetLocalSize
      match PetscValidHeaderSpecific heap xg .VEC_CLASSID with
      | .ok =>
        match heap[xg]? with
        | none => (.fault, shell, heap)
        | some v =>
          -- MatCreate(comm,&shell->A); MatSetSizes(shell->A,m,m,M,M)
          let a : PetscObject := naiveMat v
          let shell1 : DM_Shell := { shell with A := some (alloc heap a).1 }
          let heap1 := (alloc heap a).2
          let aid := (alloc heap a).1
          -- if (mtype) MatSetType(shell->A,mtype)
          match mtype with
          | some t =>
            match lib.MatSetType t with
            | none => (.error .PETSC_ERR_ARG_UNKNOWN_TYPE "Unknown Mat type given", shell1, heap1)
            | some impl =>
              -- MatSetUp
              (.ok, shell1, updObj heap1 aid (fun o => { o with type_name := some impl }))
          | none =>
            -- MatSetUp gives the matrix a type when it has none
            (.ok, shell1, updObj heap1 aid (fun o =>
              { o with type_name := some lib.MatSetUpDefault }))
      | e => (e, shell, heap)

/-- Lines 38-47 of DMCreateMatrix_Shell: the type check, "tacky and
incomplete" as the source says.  `tn` is the type name of the matrix A. -/
def DMCreateMatrix_Shell_typecheck (tn : Option String) (mtype : Option String) : Status :=
  match mtype with
  | none => .ok
  | some t =>
    let flg := PetscObjectTypeCompare tn (some t)
    let seqaij := PetscObjectTypeCompare tn (some MATSEQAIJ)
    let mpiaij := PetscObjectTypeCompare tn (some MATMPIAIJ)
    let aij := t == MATAIJ
    if !flg then
      if !(aij && (seqaij || mpiaij)) then
        .error .PETSC_ERR_ARG_NOTSAMETYPE
          ("Requested matrix of type " ++ t ++ ", but only " ++ tn.getD "" ++ " available")
      else .ok
    else .ok

/-- Lines 36-56 of DMCreateMatrix_Shell: with A = shell->A in hand, check the
requested type, then hand out A itself when it is held exclusively, a zeroed
duplicate otherwise. -/
def DMCreateMatrix_Shell_give (dm : DM) (heap : Heap) (A : ObjId) (mtype : Option String) : Ret :=
  match heap[A]? with
  | none => ⟨.fault, none, dm, heap⟩
  | some o =>
    match DMCreateMatrix_Shell_typecheck o.type_name mtype with
    | .ok =>
      if o.refct < 2 then
        -- we have an exclusive reference so we can give it out
        let r := PetscObjectReference heap A
        match r.1 with
        | .ok =>
          let z := MatZeroEntries r.2 A
          match z.1 with
          | .ok => ⟨.ok, some A, dm, z.2⟩
          | e => ⟨e, none, dm, z.2⟩
        | e => ⟨e, none, dm, r.2⟩
      else
        -- need to create a copy
        let d := MatDuplicate heap A
        match d.1, d.2.2 with
        | .ok, some j =>
          let z := MatZeroEntries d.2.1 j
          ⟨z.1, some j, dm, z.2⟩
        | .ok, none => ⟨.fault, none, dm, d.2.1⟩
        | e, j => ⟨e, j, dm, d.2.1⟩
    | e => ⟨e, none, dm, heap⟩

/-- DMCreateMatrix_Shell(dm,mtype,J), lines 15-57. -/
def DMCreateMatrix_Shell (lib : PetscLib) (dm : DM) (heap : Heap) (mtype : Option String) : Ret :=
  match dm.data with
  | none => ⟨.fault, none, dm, heap⟩
  | some shell0 =>
    let p := DMCreateMatrix_Shell_provide lib shell0 heap mtype
    let dm1 : DM := { dm with data := some p.2.1 }
    match p.1 with
    | .ok =>
      match p.2.1.A with
      | none => ⟨.fault, none, dm1, p.2.2⟩
      | some A => DMCreateMatrix_Shell_give dm1 p.2.2 A mtype
    | e => ⟨e, none, dm1, p.2.2⟩

/-- Lines 73-81 shared word for word by DMCreateGlobalVector_Shell and
DMCreateLocalVector_Shell once X has been read from its slot and found
non-NULL: hand out the template when held exclusively, a zeroed duplicate
otherwise, then attach the DM. -/
def shellVecHandOut (dm : DM) (heap : Heap) (X : ObjId) : Ret :=
  match heap[X]? with
  | none => ⟨.fault, none, dm, heap⟩
  | some o =>
    if o.refct < 2 then
      -- we have an exclusive reference so we can give it out
      let r := PetscObjectReference heap X
      match r.1 with
      | .ok =>
        let z := VecZeroEntries r.2 X
        match z.1 with
        | .ok =>
          let s := VecSetDM z.2 X dm.id
          ⟨s.1, some X, dm, s.2⟩
        | e => ⟨e, none, dm, z.2⟩
      | e => ⟨e, none, dm, r.2⟩
    else
      -- need to create a copy
      let d := VecDuplicate heap X
      match d.1, d.2.2 with
      | .ok, some g =>
        let z := VecZeroEntries d.2.1 g
        match z.1 with
        | .ok =>
          let s := VecSetDM z.2 g dm.id
          ⟨s.1, some g, dm, s.2⟩
        | e => ⟨e, some g, dm, z.2⟩
      | .ok, none => ⟨.fault, none, dm, d.2.1⟩
      | e, g => ⟨e, g, dm, d.2.1⟩

/-- DMCreateGlobalVector_Shell(dm,gvec), lines 61-83. -/
def DMCreateGlobalVector_Shell (dm : DM) (heap : Heap) : Ret :=
  match dm.data with
  | none => ⟨.fault, none, dm, heap⟩
  | some shell =>
    -- *gvec = 0; X = shell->Xglobal
    match shell.Xglobal with
    | none => ⟨.error .PETSC_ERR_USER
        "Must call DMShellSetGlobalVector() or DMShellSetCreateGlobalVector()", none, dm, heap⟩
    | some X => shellVecHandOut dm heap X

/-- DMCreateLocalVector_Shell(dm,gvec), lines 87-109. -/
def DMCreateLocalVector_Shell (dm : DM) (heap : Heap) : Ret :=
  match dm.data with
  | none => ⟨.fault, none, dm, heap⟩
  | some shell =>
    -- *gvec = 0; X = shell->Xlocal
    match shell.Xlocal with
    | none => ⟨.error .PETSC_ERR_USER
        "Must call DMShellSetLocalVector() or DMShellSetCreateLocalVector()", none, dm, heap⟩
    | some X => shellVecHandOut dm heap X

/-- DMShellSetMatrix(dm,J), lines 126-141. -/
def DMShellSetMatrix (dm : DM) (heap : Heap) (J : ObjId) : Ret :=
  match PetscValidHeaderSpecific heap J .MAT_CLASSID with
  | .ok =>
    if PetscObjectTypeCompare dm.type_name (some DMSHELL) = false then ⟨.ok, none, dm, heap⟩
    else
      match dm.data with
      | none => ⟨.fault, none, dm, heap⟩
      | some shell =>
        let r := PetscObjectReference heap J
        match r.1 with
        | .ok =>
          let d := MatDestroy r.2 shell.A
          match d.1 with
          | .ok => ⟨.ok, none, { dm with data := some { shell with A := some J } }, d.2.1⟩
          | e => ⟨e, none, { dm with data := some { shell with A := d.2.2 } }, d.2.1⟩
        | e => ⟨e, none, dm, r.2⟩
  | e => ⟨e, none, dm, heap⟩

/-- DMShellSetCreateMatrix(dm,func), lines 158-165. -/
def DMShellSetCreateMatrix (dm : DM) (func : Option FnPtr) : DM :=
  { dm with ops := { dm.ops with creatematrix := func } }

/-- DMShellSetGlobalVector(dm,X), lines 182-197. -/
def DMShellSetGlobalVector (dm : DM) (heap : Heap) (X : ObjId) : Ret :=
  match PetscValidHeaderSpecific heap X .VEC_CLASSID with
  | .ok =>
    if PetscObjectTypeCompare dm.type_name (some DMSHELL) = false then ⟨.ok, none, dm, heap⟩
    else
      match dm.data with
      | none => ⟨.fault, none, dm, heap⟩
      | some shell =>
        let r := PetscObjectReference heap X
        match r.1 with
        | .ok =>
          let d := VecDestroy r.2 shell.Xglobal
          match d.1 with
          | .ok => ⟨.ok, none, { dm with data := some { shell with Xglobal := some X } }, d.2.1⟩
          | e => ⟨e, none, { dm with data := some { shell with Xglobal := d.2.2 } }, d.2.1⟩
        | e => ⟨e, none, dm, r.2⟩
  | e => ⟨e, none, dm, heap⟩

/-- DMShellSetCreateGlobalVector(dm,func), lines 214-221. -/
def DMShellSetCreateGlobalVector (dm : DM) (func : Option FnPtr) : DM :=
  { dm with ops := { dm.ops with createglobalvector := func } }

/-- DMShellSetLocalVector(dm,X), lines 238-253. -/
def DMShellSetLocalVector (dm : DM) (heap : Heap) (X : ObjId) : Ret :=
  match PetscValidHeaderSpecific heap X .VEC_CLASSID with
  | .ok =>
    if PetscObjectTypeCompare dm.type_name (some DMSHELL) = false then ⟨.ok, none, dm, heap⟩
    else
      match dm.data with
      | none => ⟨.fault, none, dm, heap⟩
      | some shell =>
        let r := PetscObjectReference heap X
        match r.1 with
        | .ok =>
          let d := VecDestroy r.2 shell.Xlocal
          match d.1 with
          | .ok => ⟨.ok, none, { dm with data := some { shell with Xlocal := some X } }, d.2.1⟩
          | e => ⟨e, none, { dm with data := some { shell with Xlocal := d.2.2 } }, d.2.1⟩
        | e => ⟨e, none, dm, r.2⟩
  | e => ⟨e, none, dm, heap⟩

/-- DMShellSetCreateLocalVector(dm,func), lines 270-277. -/
def DMShellSetCreateLocalVector (dm : DM) (func : Option FnPtr) : DM :=
  { dm with ops := { dm.ops with createlocalvector := func } }

/-- DMShellSetGlobalToLocal(dm,begin,end), lines 295-300. -/
def DMShellSetGlobalToLocal (dm : DM) (begin_ end_ : Option FnPtr) : DM :=
  { dm with ops := { dm.ops with globaltolocalbegin := begin_, globaltolocalend := end_ } }

/-- DMShellSetLocalToGlobal(dm,begin,end), lines 318-323. -/
def DMShellSetLocalToGlobal (dm : DM) (begin_ end_ : Option FnPtr) : DM :=
  { dm with ops := { dm.ops with localtoglobalbegin := begin_, localtoglobalend := end_ } }

/-- DMShellSetGlobalToLocalVecScatter(dm,gtol), lines 340-347.  The record is
written through dm->data, so a DM without a live record faults. -/
def DMShellSetGlobalToLocalVecScatter (dm : DM) (gtol : Option (Option Nat)) : Status × DM :=
  match dm.data with
  | none => (.fault, dm)
  | some shell => (.ok, { dm with data := some { shell with gtol := gtol } })

/-- DMDestroy_Shell(dm), lines 351-363.  The three slots are released in the
order A, Xglobal, Xlocal, then the record itself is freed: dm->data is left
pointing at freed memory. -/
def DMDestroy_Shell (dm : DM) (heap : Heap) : Ret :=
  match dm.data with
  | none => ⟨.fault, none, dm, heap⟩
  | some shell =>
    let a := MatDestroy heap shell.A
    let s1 : DM_Shell := { shell with A := a.2.2 }
    match a.1 with
    | .ok =>
      let g := VecDestroy a.2.1 s1.Xglobal
      let s2 : DM_Shell := { s1 with Xglobal := g.2.2 }
      match g.1 with
      | .ok =>
        let l := VecDestroy g.2.1 s2.Xlocal
        let s3 : DM_Shell := { s2 with Xlocal := l.2.2 }
        match l.1 with
        | .ok =>
          -- PetscFree(shell)
          ⟨.ok, none, { dm with data := none }, l.2.1⟩
        | e => ⟨e, none, { dm with data := some s3 }, l.2.1⟩
      | e => ⟨e, none, { dm with data := some s2 }, g.2.1⟩
    | e => ⟨e, none, { dm with data := some s1 }, a.2.1⟩

/-- DMCreate_Shell(dm), lines 392-410: a zeroed record (PetscNewLog), the type
name, and the six operations it installs; the other operations stay as they
were. -/
def DMCreate_Shell (dm : DM) : DM :=
  { dm with
    data := some { Xglobal := none, Xlocal := none, A := none, gtol := none, ltog := none }
    type_name := some DMSHELL
    ops := { dm.ops with
      destroy := some .DMDestroy_Shell
      createglobalvector := some .DMCreateGlobalVector_Shell
      createlocalvector := some .DMCreateLocalVector_Shell
      creatematrix := some .DMCreateMatrix_Shell
      view := some .DMView_Shell
      load := some .DMLoad_Shell } }

/-- A DM as DMCreate leaves it before its type is set: no type, no data, an
empty operation table. -/
def DMCreate (id : Nat) : DM :=
  { id := id, type_name := none, data := none,
    ops := { destroy := none, createglobalvector := none, createlocalvector := none,
             creatematrix := none, view := none, load := none, globaltolocalbegin := none,
             globaltolocalend := none, localtoglobalbegin := none, localtoglobalend := none } }

/-- DMShellCreate(comm,dm), lines 429-438: DMCreate followed by DMSetType
with DMSHELL, which runs DMCreate_Shell. -/
def DMShellCreate (id : Nat) : DM :=
  DMCreate_Shell (DMCreate id)

/-- DMShellDefaultGlobalToLocalBegin(dm,g,mode,l), lines 456-464.  The scatter
context is read as `*(shell->gtol)` with no test of `shell->gtol`. -/
def DMShellDefaultGlobalToLocalBegin (lib : PetscLib) (dm : DM) (heap : Heap) (g l : ObjId) : Ret :=
  match dm.data with
  | none => ⟨.fault, none, dm, heap⟩
  | some shell =>
    match shell.gtol with
    | none => ⟨.fault, none, dm, heap⟩
    | some none => ⟨.error .PETSC_ERR_ARG_NULL "Null Object: Parameter # 1", none, dm, heap⟩
    | some (some ctx) =>
      ⟨(lib.VecScatterBegin ctx g l heap).1, none, dm, (lib.VecScatterBegin ctx g l heap).2⟩

/-- DMShellDefaultGlobalToLocalEnd(dm,g,mode,l), lines 482-490. -/
def DMShellDefaultGlobalToLocalEnd (lib : PetscLib) (dm : DM) (heap : Heap) (g l : ObjId) : Ret :=
  match dm.data with
  | none => ⟨.fault, none, dm, heap⟩
  | some shell =>
    match shell.gtol with
    | none => ⟨.fault, none, dm, heap⟩
    | some none => ⟨.error .PETSC_ERR_ARG_NULL "Null Object: Parameter # 1", none, dm, heap⟩
    | some (some ctx) =>
      ⟨(lib.VecScatterEnd ctx g l heap).1, none, dm, (lib.VecScatterEnd ctx g l heap).2⟩

/-! ## Kinds of template, and the callers of the shell -/

/-- The three kinds of template the shell holds. -/
inductive Kind where
  | GlobalVector
  | LocalVector
  | Matrix
  deriving DecidableEq, Repr

/-- The slot of the record that holds the template of a kind. -/
def slotOf (s : DM_Shell) : Kind → Option ObjId
  | .GlobalVector => s.Xglobal
  | .LocalVector => s.Xlocal
  | .Matrix => s.A

/-- The class of the objects of a kind. -/
def classOf : Kind → ClassId
  | .GlobalVector => .VEC_CLASSID
  | .LocalVector => .VEC_CLASSID
  | .Matrix => .MAT_CLASSID

/-- The default creation routine of each kind (the requested matrix type is
only passed to the matrix routine). -/
def GetOrCreate (lib : PetscLib) (k : Kind) (dm : DM) (heap : Heap) (mtype : Option String) : Ret :=
  match k with
  | .GlobalVector => DMCreateGlobalVector_Shell dm heap
  | .LocalVector => DMCreateLocalVector_Shell dm heap
  | .Matrix => DMCreateMatrix_Shell lib dm heap mtype

/-- The template setter of each kind. -/
def SetTemplate (k : Kind) (dm : DM) (heap : Heap) (X : ObjId) : Ret :=
  match k with
  | .GlobalVector => DMShellSetGlobalVector dm heap X
  | .LocalVector => DMShellSetLocalVector dm heap X
  | .Matrix => DMShellSetMatrix dm heap X

/-- The record with the slot of a kind overwritten. -/
def setSlot (s : DM_Shell) (k : Kind) (v : Option ObjId) : DM_Shell :=
  match k with
  | .GlobalVector => { s with Xglobal := v }
  | .LocalVector => { s with Xlocal := v }
  | .Matrix => { s with A := v }

/-- The requested matrix type is acceptable for a matrix whose type name is
`tn`: none is requested, or the names agree, or generic AIJ is requested and
the matrix is sequential or parallel AIJ. -/
def typeAccepted (tn : Option String) (mtype : Option String) : Prop :=
  ∀ t, mtype = some t →
    tn = some t ∨ (t = MATAIJ ∧ (tn = some MATSEQAIJ ∨ tn = some MATMPIAIJ))

/-- Object `x` is a live object of class `c` in the heap. -/
def Live (heap : Heap) (x : ObjId) (c : ClassId) : Prop :=
  ∃ o, heap[x]? = some o ∧ o.freed = false ∧ o.classid = c

/-- Number of template slots of the record that hold `x`. -/
def slotCount (s : DM_Shell) (x : ObjId) : Nat :=
  (if s.A = some x then 1 else 0) + (if s.Xglobal = some x then 1 else 0)
    + (if s.Xlocal = some x then 1 else 0)

/-- The template as the exclusive branch leaves it: one more reference, every
entry zero, the DM attached (vectors only). -/
def handedOut (dmid : Option Nat) (o : PetscObject) : PetscObject :=
  { o with refct := o.refct + 1, vals := List.replicate o.vals.length 0, dm := dmid }

/-- The clone the shared branch creates: same class, type and sizes, held
once, every entry zero, the DM attached (vectors only). -/
def cloned (dmid : Option Nat) (o : PetscObject) : PetscObject :=
  { o with refct := 1, vals := List.replicate o.vals.length 0, dm := dmid, freed := false }

/-- The message of the error raised when no template can be found (lines 72,
98 and 34 of dmshell.c). -/
def missingMessage : Kind → String
  | .GlobalVector => "Must call DMShellSetGlobalVector() or DMShellSetCreateGlobalVector()"
  | .LocalVector => "Must call DMShellSetLocalVector() or DMShellSetCreateLocalVector()"
  | .Matrix => "Must call DMShellSetMatrix(), DMShellSetCreateMatrix(), or provide a vector"

/-- The heap after the reference held in a slot has been released (nothing
happens for a NULL slot). -/
def releaseSlot (heap : Heap) (v : Option ObjId) : Heap :=
  match v with
  | none => heap
  | some x => updObj heap x released

/-- Modelled from the spec: the DM-level entry points DMCreateGlobalVector,
DMCreateLocalVector and DMCreateMatrix of dm.c (not among the sources) call
whatever routine is installed in the operation table.  `user a` is the
behaviour of the caller-supplied routine at address `a`.  Calling through a
NULL pointer, or through a routine of another signature, faults. -/
def callCreate (lib : PetscLib) (user : Nat → DM → Heap → Option String → Ret)
    (f : Option FnPtr) (dm : DM) (heap : Heap) (mtype : Option String) : Ret :=
  match f with
  | some .DMCreateGlobalVector_Shell => DMCreateGlobalVector_Shell dm heap
  | some .DMCreateLocalVector_Shell => DMCreateLocalVector_Shell dm heap
  | some .DMCreateMatrix_Shell => DMCreateMatrix_Shell lib dm heap mtype
  | some (.user a) => user a dm heap mtype
  | _ => ⟨.fault, none, dm, heap⟩

/-- DMCreateGlobalVector(dm,vec): runs dm->ops->createglobalvector. -/
def DMCreateGlobalVector (lib : PetscLib) (user : Nat → DM → Heap → Option String → Ret)
    (dm : DM) (heap : Heap) : Ret :=
  callCreate lib user dm.ops.createglobalvector dm heap none

/-- DMCreateLocalVector(dm,vec): runs dm->ops->createlocalvector. -/
def DMCreateLocalVector (lib : PetscLib) (user : Nat → DM → Heap → Option String → Ret)
    (dm : DM) (heap : Heap) : Ret :=
  callCreate lib user dm.ops.createlocalvector dm heap none

/-- DMCreateMatrix(dm,mtype,mat): runs dm->ops->creatematrix. -/
def DMCreateMatrix (lib : PetscLib) (user : Nat → DM → Heap → Option String → Ret)
    (dm : DM) (heap : Heap) (mtype : Option String) : Ret :=
  callCreate lib user dm.ops.creatematrix dm heap mtype

/-- A call of one of the setters of dmshell.c that write the operation table
or the scatter pointer. -/
inductive ShellCall where
  | setCreateMatrix (f : Option FnPtr)
  | setCreateGlobalVector (f : Option FnPtr)
  | setCreateLocalVector (f : Option FnPtr)
  | setGlobalToLocal (b e : Option FnPtr)
  | setLocalToGlobal (b e : Option FnPtr)
  | setGlobalToLocalVecScatter (gtol : Option (Option Nat))
  deriving DecidableEq, Repr

/-- The DM after one setter call. -/
def applyCall (dm : DM) : ShellCall → DM
  | .setCreateMatrix f => DMShellSetCreateMatrix dm f
  | .setCreateGlobalVector f => DMShellSetCreateGlobalVector dm f
  | .setCreateLocalVector f => DMShellSetCreateLocalVector dm f
  | .setGlobalToLocal b e => DMShellSetGlobalToLocal dm b e
  | .setLocalToGlobal b e => DMShellSetLocalToGlobal dm b e
  | .setGlobalToLocalVecScatter g => (DMShellSetGlobalToLocalVecScatter dm g).2

/-- The DM after a sequence of setter calls. -/
def runCalls : DM → List ShellCall → DM
  | dm, [] => dm
  | dm, c :: cs => runCalls (applyCall dm c) cs

/-- Scenario D: the DM and heap after DMShellSetGlobalVector(dm,v), the caller
then releasing its own reference to v (when `releaseOwn`) or keeping it. -/
def scenarioD_start (dm : DM) (heap : Heap) (v : ObjId) (releaseOwn : Bool) : DM × Heap :=
  ((DMShellSetGlobalVector dm heap v).dm,
    if releaseOwn then (VecDestroy (DMShellSetGlobalVector dm heap v).heap (some v)).2.1
    else (DMShellSetGlobalVector dm heap v).heap)

/-- Scenario D: the first DMCreateGlobalVector_Shell call. -/
def scenarioD_first (dm : DM) (heap : Heap) (v : ObjId) (releaseOwn : Bool) : Ret :=
  DMCreateGlobalVector_Shell (scenarioD_start dm heap v releaseOwn).1
    (scenarioD_start dm heap v releaseOwn).2

/-- Scenario D: the second call, made while the first result is still held. -/
def scenarioD_second (dm : DM) (heap : Heap) (v : ObjId) (releaseOwn : Bool) : Ret :=
  DMCreateGlobalVector_Shell (scenarioD_first dm heap v releaseOwn).dm
    (scenarioD_first dm heap v releaseOwn).heap

/-! ## The shell and its callers as a state machine -/

/-- The shell DM, the heap, and the references held outside the shell: `ext`
lists one entry per reference a caller holds (a handle returned by a creation
routine or an object the caller created, until the caller releases it). -/
structure World where
  dm : DM
  heap : Heap
  ext : List ObjId
  deriving DecidableEq, Repr

/-- What a caller can do: create an object of its own, set a template, ask the
default creation routine of a kind for an object, release a reference it
holds. -/
inductive Op where
  | create (o : PetscObject)
  | setTemplate (k : Kind) (x : ObjId)
  | getOrCreate (k : Kind) (mtype : Option String)
  | release (x : ObjId)

/-- A caller releases a handle: VecDestroy or MatDestroy according to the
class of the object. -/
def releaseHandle (heap : Heap) (x : ObjId) : Status × Heap × Option ObjId :=
  match heap[x]? with
  | some o => ObjectDestroy o.classid heap (some x)
  | none => (.fault, heap, some x)

/-- One operation.  A new object is held once by its creator.  A handle
returned by a successful creation call is added to the references held
outside.  Releasing is only possible for a reference that is held.  `none`:
the operation is not possible or the program faults. -/
def step (lib : PetscLib) (w : World) : Op → Option World
  | .create o =>
    some ⟨w.dm, (alloc w.heap (cloneOf o)).2, (alloc w.heap (cloneOf o)).1 :: w.ext⟩
  | .setTemplate k x =>
    match (SetTemplate k w.dm w.heap x).ierr with
    | .fault => none
    | _ => some ⟨(SetTemplate k w.dm w.heap x).dm, (SetTemplate k w.dm w.heap x).heap, w.ext⟩
  | .getOrCreate k mtype =>
    match (GetOrCreate lib k w.dm w.heap mtype).ierr, (GetOrCreate lib k w.dm w.heap mtype).out with
    | .ok, some h =>
      some ⟨(GetOrCreate lib k w.dm w.heap mtype).dm, (GetOrCreate lib k w.dm w.heap mtype).heap,
        h :: w.ext⟩
    | .fault, _ => none
    | _, _ =>
      some ⟨(GetOrCreate lib k w.dm w.heap mtype).dm, (GetOrCreate lib k w.dm w.heap mtype).heap,
        w.ext⟩
  | .release x =>
    if x ∈ w.ext then
      match (releaseHandle w.heap x).1 with
      | .ok => some ⟨w.dm, (releaseHandle w.heap x).2.1, w.ext.erase x⟩
      | _ => none
    else none

/-- A sequence of operations. -/
def run (lib : PetscLib) : World → List Op → Option World
  | w, [] => some w
  | w, op :: ops =>
    match step lib w op with
    | some w' => run lib w' ops
    | none => none

/-- A new shell, no object yet. -/
def newWorld (id : Nat) : World :=
  ⟨DMShellCreate id, [], []⟩

/-- The reference counts are exact: the shell has a record; the count of every
object is the number of template slots holding it plus the number of
references held outside; an object is destroyed exactly when nobody holds it;
handles that are not allocated are held by nobody; every slot holds an object
of its class. -/
def Inv (w : World) : Prop :=
  ∃ s, w.dm.data = some s
    ∧ (∀ x o, w.heap[x]? = some o →
        o.refct = ((slotCount s x + w.ext.count x : Nat) : Int)
          ∧ (o.freed = true ↔ slotCount s x + w.ext.count x = 0))
    ∧ (∀ x : ObjId, w.heap[x]? = none → slotCount s x + w.ext.count x = 0)
    ∧ (∀ k x, slotOf s k = some x → ∃ o, w.heap[x]? = some o ∧ o.classid = classOf k)

/-- A creation call of kind `k` made on `dm` and `heap` while the callers hold
`ext` is safe: it does not fault; when it succeeds it returns an object that
none of the callers holds, which is either freshly allocated or the held
template of that kind, and the counts are exact again once the caller holds
the result; when it fails the counts are still exact. -/
def GoodGet (dm : DM) (heap : Heap) (ext : List ObjId) (k : Kind) (r : Ret) : Prop :=
  r.ierr ≠ .fault
    ∧ (r.ierr = .ok → ∃ h, r.out = some h ∧ h ∉ ext ∧ Inv ⟨r.dm, r.heap, h :: ext⟩
        ∧ (heap.length ≤ h ∨ ∃ s, dm.data = some s ∧ slotOf s k = some h))
    ∧ (r.ierr ≠ .ok → Inv ⟨r.dm, r.heap, ext⟩)

/-! ## Concrete objects and shells used as test inputs -/

/-- A vector of local size 2 and global size 4 with entries 5 and 7. -/
def exVec (refct : Int) : PetscObject :=
  { classid := .VEC_CLASSID, refct := refct, type_name := some "seq", m := 2, n := 0, M := 4, N := 0,
    vals := [5, 7], dm := none, freed := false }

/-- A matrix of the given type with two stored entries. -/
def exMat (refct : Int) (t : String) : PetscObject :=
  { classid := .MAT_CLASSID, refct := refct, type_name := some t, m := 2, n := 2, M := 4, N := 4,
    vals := [3, 9], dm := none, freed := false }

/-- A shell DM (identifier 7) whose record holds the given templates. -/
def exDM (xg xl a : Option ObjId) : DM :=
  { DMShellCreate 7 with
    data := some { Xglobal := xg, Xlocal := xl, A := a, gtol := none, ltog := none } }

/-- A run of four operations: a caller creates a vector, sets it as the global
vector template, releases its own reference, and asks for a global vector
(which hands out the template itself). -/
def exOps : List Op :=
  [.create (exVec 1), .setTemplate .GlobalVector 0, .release 0, .getOrCreate .GlobalVector none]

/-- The world after `exOps` on a new shell: the template is object 0, held by
the shell and by one caller, zeroed and attached to the DM. -/
def exWorld : World :=
  ⟨exDM (some 0) none none, [handedOut (some 7) (exVec 1)], [0]⟩

/-! ## Inputs and scenarios for the matrix fallback, the type check and template reuse -/

/-- A library in which MatSetType knows the generic AIJ type (resolved to
sequential AIJ) and three concrete types, and rejects every other name. -/
def strictLib : PetscLib where
  MatSetType := fun t =>
    if t = MATAIJ then some MATSEQAIJ
    else if t = MATSEQAIJ ∨ t = MATMPIAIJ ∨ t = "seqdense" then some t
    else none
  MatSetUpDefault := MATSEQAIJ
  VecScatterBegin := fun _ _ _ h => (.ok, h)
  VecScatterEnd := fun _ _ _ h => (.ok, h)

/-- An operation that is a creation call or the release of a reference. -/
def isGetOrRelease : Op → Bool
  | .getOrCreate _ _ => true
  | .release _ => true
  | _ => false

/-- Template reuse: the heap after a first creation call of kind `k` and the
release, by the caller, of the handle `X`. -/
def reuse_released (lib : PetscLib) (k : Kind) (dm : DM) (heap : Heap) (mtype : Option String)
    (X : ObjId) : Heap :=
  (releaseHandle (GetOrCreate lib k dm heap mtype).heap X).2.1

/-- Template reuse: the second creation call, made after the release. -/
def reuse_second (lib : PetscLib) (k : Kind) (dm : DM) (heap : Heap) (mtype mtype2 : Option String)
    (X : ObjId) : Ret :=
  GetOrCreate lib k (GetOrCreate lib k dm heap mtype).dm (reuse_released lib k dm heap mtype X)
    mtype2

end DMShell

/-!
# Building the doubled matrix (src/mat/examples/tests/ex73.c, lines 102-148)

The block of `main` that preallocates and fills the matrix J, whose rows and
columns are those of the extracted matrix B taken twice.  PetscInt values are
natural numbers here (every index and count of the block is non-negative).
An array is a list; an access outside the array makes the routine return
`none`.
-/

namespace Ex73

/-- `a[i] += v` on an integer array. -/
def addAt (a : List Nat) (i v : Nat) : Option (List Nat) :=
  if i < a.length then some (a.set i (a.getD i 0 + v)) else none

/-- `a[i] = v` on an integer array. -/
def setAt (a : List Nat) (i v : Nat) : Option (List Nat) :=
  if i < a.length then some (a.set i v) else none

/-- `for (i = lo; i < lo + n; i++) body`, the body not touching `i`. -/
def forLoop {σ : Type} (body : Nat → σ → Option σ) : Nat → Nat → σ → Option σ
  | _, 0, s => some s
  | lo, n + 1, s => (body lo s).bind (forLoop body (lo + 1) n)

/-- The variables of the counting loop: the arrays nzd and nzo and nzmax. -/
structure Counts where
  nzd : List Nat
  nzo : List Nat
  nzmax : Nat
  deriving DecidableEq, Repr

/-- Lines 115-118: the loop over the columns `cols[0..nzl)` of local row `i`
of B.  A column inside `[rstart, rstart+n)` adds 2 to nzd[2i] and nzd[2i+1],
any other column adds 2 to nzo[2i] and nzo[2i+1]. -/
def countCols (rstart n i : Nat) : List Nat → Counts → Option Counts
  | [], s => some s
  | c :: cs, s =>
    if rstart ≤ c ∧ c < rstart + n then
      (addAt s.nzd (2 * i) 2).bind fun d1 =>
      (addAt d1 (2 * i + 1) 2).bind fun d2 =>
      countCols rstart n i cs { s with nzd := d2 }
    else
      (addAt s.nzo (2 * i) 2).bind fun o1 =>
      (addAt o1 (2 * i + 1) 2).bind fun o2 =>
      countCols rstart n i cs { s with nzo := o2 }

/-- Lines 113-121: the body of the counting loop for local row `i`.  `B g` is
the list of column indices MatGetRow returns for global row `g`. -/
def countRowBody (B : Nat → List Nat) (rstart n i : Nat) (s : Counts) : Option Counts :=
  (countCols rstart n i (B (i + rstart)) s).bind fun s1 =>
  -- nzmax = PetscMax(nzmax,nzd[2*i]+nzo[2*i])
  (s1.nzd[2 * i]?).bind fun d =>
  (s1.nzo[2 * i]?).bind fun o =>
  some { s1 with nzmax := max s1.nzmax (d + o) }

/-- Lines 107-121: nzd and nzo are allocated with 2m entries and zeroed, nzmax
starts at 0, and the m local rows are counted. -/
def countBlock (B : Nat → List Nat) (m n rstart : Nat) : Option Counts :=
  forLoop (countRowBody B rstart n) 0 m
    { nzd := List.replicate (2 * m) 0, nzo := List.replicate (2 * m) 0, nzmax := 0 }

/-- One call MatSetValues(J,1,&nrow,ncount,ncols,nvals,INSERT_VALUES): the
row, and the ncount columns and values read from the two work arrays. -/
structure SetValuesCall where
  row : Nat
  cols : List Nat
  vals : List Int
  deriving DecidableEq, Repr

/-- The variables of the fill loop: the work array ncols and the calls made. -/
structure Fill where
  ncols : List Nat
  calls : List SetValuesCall
  deriving DecidableEq, Repr

/-- Lines 134-137: the loop `ncols[2j] = 2*cols[j]; ncols[2j+1] = 2*cols[j]+1`,
started at index `j`. -/
def fillCols : List Nat → Nat → List Nat → Option (List Nat)
  | [], _, buf => some buf
  | c :: cs, j, buf =>
    (setAt buf (2 * j) (2 * c)).bind fun b1 =>
    (setAt b1 (2 * j + 1) (2 * c + 1)).bind fun b2 =>
    fillCols cs (j + 1) b2

/-- The first `k` entries of a work array, as MatSetValues reads them. -/
def readFirst {α : Type} (k : Nat) (buf : List α) : Option (List α) :=
  if k ≤ buf.length then some (buf.take k) else none

/-- Lines 133-143: the body of the fill loop for local row `i`: two calls of
MatSetValues, for rows 2(i+rstart) and 2(i+rstart)+1, with the same 2*nzl
columns and values. -/
def fillRowBody (B : Nat → List Nat) (rstart : Nat) (nvals : List Int) (i : Nat) (s : Fill) :
    Option Fill :=
  (fillCols (B (i + rstart)) 0 s.ncols).bind fun b =>
  (readFirst (2 * (B (i + rstart)).length) b).bind fun cs =>
  (readFirst (2 * (B (i + rstart)).length) nvals).bind fun vs =>
  some { ncols := b,
         calls := s.calls ++ [⟨2 * (i + rstart), cs, vs⟩, ⟨2 * (i + rstart) + 1, cs, vs⟩] }

/-- Lines 130-144: ncols and nvals are allocated with nzmax entries, nvals is
zeroed, ncols holds whatever the allocation holds (`junk`), and the m local
rows are filled. -/
def fillBlock (B : Nat → List Nat) (m rstart nzmax : Nat) (junk : Nat → Nat) : Option Fill :=
  forLoop (fillRowBody B rstart (List.replicate nzmax 0)) 0 m
    { ncols := (List.range nzmax).map junk, calls := [] }

/-- Lines 107-144: count, then fill.  The result is the preallocation handed
to MatCreateMPIAIJ and the sequence of MatSetValues calls. -/
def buildJ (B : Nat → List Nat) (m n rstart : Nat) (junk : Nat → Nat) :
    Option (Counts × List SetValuesCall) :=
  (countBlock B m n rstart).bind fun c =>
  (fillBlock B m rstart c.nzmax junk).bind fun f =>
  some (c, f.calls)

/-- The columns `2c, 2c+1` for `c` in `cols`, in the order of the fill loop. -/
def doubled (cols : List Nat) : List Nat :=
  cols.flatMap fun c => [2 * c, 2 * c + 1]

/-- The column `c` lies in the block `[lo, lo + len)`. -/
def within (lo len c : Nat) : Bool :=
  decide (lo ≤ c ∧ c < lo + len)

/-- Number of entries of a column list inside the block `[lo, lo + len)`. -/
def inBlock (lo len : Nat) (cols : List Nat) : Nat :=
  (cols.filter (within lo len)).length

/-- Number of entries of a column list outside the block `[lo, lo + len)`. -/
def outBlock (lo len : Nat) (cols : List Nat) : Nat :=
  (cols.filter fun c => !within lo len c).length

/-- The largest `2 * nzl` over the first `i` local rows. -/
def maxRows (B : Nat → List Nat) (rstart : Nat) : Nat → Nat
  | 0 => 0
  | i + 1 => max (maxRows B rstart i) (2 * (B (i + rstart)).length)

/-- A 3-row extracted matrix whose local rows start at global row 1. -/
def exB : Nat → List Nat
  | 1 => [0, 1, 2]
  | 2 => [2, 5]
  | 3 => [3]
  | _ => []

end Ex73

namespace Ex73

/-- The state of the counting loop before row `i`: rows below `i` counted,
the others still zero. -/
def CountInv (B : Nat → List Nat) (m n rstart i : Nat) (s : Counts) : Prop :=
  s.nzd.length = 2 * m ∧ s.nzo.length = 2 * m ∧ s.nzmax = maxRows B rstart i
    ∧ (∀ r, r < i →
        s.nzd[2 * r]? = some (2 * inBlock rstart n (B (r + rstart)))
          ∧ s.nzd[2 * r + 1]? = some (2 * inBlock rstart n (B (r + rstart)))
          ∧ s.nzo[2 * r]? = some (2 * outBlock rstart n (B (r + rstart)))
          ∧ s.nzo[2 * r + 1]? = some (2 * outBlock rstart n (B (r + rstart))))
    ∧ (∀ r, i ≤ r → r < m →
        s.nzd[2 * r]? = some 0 ∧ s.nzd[2 * r + 1]? = some 0
          ∧ s.nzo[2 * r]? = some 0 ∧ s.nzo[2 * r + 1]? = some 0)

end Ex73

namespace Ex73

/-- The two MatSetValues calls the fill loop makes for local row `i`. -/
def rowCalls (B : Nat → List Nat) (rstart i : Nat) : List SetValuesCall :=
  [⟨2 * (i + rstart), doubled (B (i + rstart)), List.replicate (2 * (B (i + rstart)).length) 0⟩,
   ⟨2 * (i + rstart) + 1, doubled (B (i + rstart)),
     List.replicate (2 * (B (i + rstart)).length) 0⟩]

/-- The calls of the fill loop for the first `i` local rows, in order. -/
def expectedCalls (B : Nat → List Nat) (rstart : Nat) : Nat → List SetValuesCall
  | 0 => []
  | i + 1 => expectedCalls B rstart i ++ rowCalls B rstart i

end Ex73

namespace Ex73

/-! ## Renumbering after the partitioning (ex73.c, lines 71-83)

A partition assignment is distributed over the workers by the old ownership:
`asg[r]` lists, for the vertices owned by worker `r` in increasing old global
index, the worker each vertex is assigned to.  The old global index of the
`p`-th vertex of worker `r` is the position of that entry in `asg.flatten`.
-/

/-- Modelled from the spec: the histogram of `ISPartitioningToNumbering` and
`ISPartitioningCount` (library routines, not under src/): how many vertices
worker `k` will own, summed over the local counts of all workers. -/
def globalCount (asg : List (List Nat)) (k : Nat) : Nat :=
  (asg.map (List.count k)).sum

/-- Modelled from the spec: the exclusive prefix sum over per-worker counts,
giving the first new index of worker `k`. -/
def offset (cnt : Nat → Nat) : Nat → Nat
  | 0 => 0
  | k + 1 => offset cnt k + cnt k

/-- Modelled from the spec: the per-source-worker subtotal exchanged before
assigning, the number of vertices assigned to `k` held by the workers before
`r`. -/
def subtotal (asg : List (List Nat)) (r k : Nat) : Nat :=
  ((asg.take r).map (List.count k)).sum

/-- Modelled from the spec: the assignment pass of `ISPartitioningToNumbering`,
each locally owned vertex takes the current value of the counter of its
destination worker, which is then incremented. -/
def numberLocal (start : Nat → Nat) : List Nat → List Nat
  | [] => []
  | k :: ks => start k :: numberLocal (fun j => if j = k then start j + 1 else start j) ks

/-- Modelled from the spec: `ISPartitioningToNumbering` (not under src/), the
new global number of each old global number, distributed like the assignment.
The counter of destination `k` on worker `r` is seeded at the offset of `k`
plus the subtotal of the workers before `r`. -/
def ISPartitioningToNumbering (asg : List (List Nat)) : List (List Nat) :=
  (List.range asg.length).map fun r =>
    numberLocal (fun k => offset (globalCount asg) k + subtotal asg r k) (asg.getD r [])

/-- Modelled from the spec: `ISPartitioningCount` (not under src/), the number
of new vertices for each of `size` workers. -/
def ISPartitioningCount (asg : List (List Nat)) (size : Nat) : List Nat :=
  (List.range size).map (globalCount asg)

/-- The new indices given to the vertices assigned to worker `k`, in old
global order. -/
def newIndicesOf (asg : List (List Nat)) (k : Nat) : List Nat :=
  ((asg.flatten.zip (ISPartitioningToNumbering asg).flatten).filter fun p => p.1 = k).map Prod.snd

/-- Scenario B: 4 workers, 8 vertices, assignment 0,0,1,1,2,2,3,3. -/
def scenarioB : List (List Nat) := [[0, 0], [1, 1], [2, 2], [3, 3]]

/-- An assignment that moves every vertex: 2 workers, 4 vertices. -/
def exAsg : List (List Nat) := [[1, 0], [1, 0]]

end Ex73

namespace Ex73

/-- Modelled from the spec: the new distribution built from the per-worker
local counts, the first new global index owned by worker `w`. -/
def nstart (nlocal : List Nat) (w : Nat) : Nat :=
  (nlocal.take w).sum

/-- Modelled from the spec: the messages of `InvertPermutation`, one pair
(new index, old index) for every old global index. -/
def messages (isn : List (List Nat)) : List (Nat × Nat) :=
  isn.flatten.enum.map fun p => (p.2, p.1)

/-- Modelled from the spec: a worker whose new range starts at `base` stores
the old index of every message it receives in the slot of its new index. -/
def deliver (base : Nat) : List Nat → List (Nat × Nat) → List Nat
  | buf, [] => buf
  | buf, m :: ms => deliver base (buf.set (m.1 - base) m.2) ms

/-- Modelled from the spec: `ISInvertPermutation(isn, nlocal[rank], &is)` (not
under src/) on every worker: the pairs (new index, old index) are routed to
the worker owning the new index under the new distribution, which ends with
`nlocal[w]` entries, the old global number of each of its new global
numbers. -/
def ISInvertPermutation (isn : List (List Nat)) (nlocal : List Nat) : List (List Nat) :=
  (List.range nlocal.length).map fun w =>
    deliver (nstart nlocal w) (List.replicate (nlocal.getD w 0) 0)
      ((messages isn).filter fun m =>
        nstart nlocal w ≤ m.1 ∧ m.1 < nstart nlocal w + nlocal.getD w 0)

end Ex73

namespace Ex73

/-! ## Moving the vector (ex73.c, lines 85-98) -/

/-- Modelled from the spec: `ISSort` (not under src/), every worker sorts its
local entries. -/
def ISSort (is : List (List Nat)) : List (List Nat) :=
  is.map (List.insertionSort fun a b => a ≤ b)

/-- Modelled from the spec: one worker's part of the exchange of section 4.3
in overwrite mode, as built by `VecScatterCreate(x, PETSC_NULL, y, iy)` (not
under src/): `iy[i]` is the global index of `y` that receives the `i`-th
locally owned element of `x`.  The plan cannot be built when the two local
sizes differ or a destination is out of range. -/
def scatterLocal : List Int → List Nat → List Int → Option (List Int)
  | [], [], y => some y
  | v :: vs, d :: ds, y => if d < y.length then scatterLocal vs ds (y.set d v) else none
  | _, _, _ => none

/-- Modelled from the spec: `VecScatterBegin` and `VecScatterEnd` with
`INSERT_VALUES` and `SCATTER_FORWARD` (not under src/) over all workers. -/
def VecScatter : List (List Int) → List (List Nat) → List Int → Option (List Int)
  | [], [], y => some y
  | x :: xs, d :: ds, y => (scatterLocal x d y).bind (VecScatter xs ds)
  | _, _, _ => none

/-- The index set `is` of ex73.c at line 85: the inverted numbering of the
assignment, sorted on every worker (lines 71-85, with one part per worker). -/
def sortedInverse (asg : List (List Nat)) : List (List Nat) :=
  ISSort (ISInvertPermutation (ISPartitioningToNumbering asg)
    (ISPartitioningCount asg asg.length))

/-- Lines 91-98 of ex73.c: `xout` is created with the local sizes of `B` and
filled by the scatter built from `VecScatterCreate(xin, PETSC_NULL, xout, is)`.
The result is `xout` in new global order. -/
def movedVector (asg : List (List Nat)) (xin : List (List Int)) : Option (List Int) :=
  VecScatter xin (sortedInverse asg)
    (List.replicate ((sortedInverse asg).map List.length).sum 0)

/-- The entries of `xin` in the row order of `B = MatGetSubMatrix(A, is, is)`:
new global row `g` is old global row `is[g]`. -/
def vectorInRowOrder (asg : List (List Nat)) (xin : List (List Int)) : List Int :=
  (sortedInverse asg).flatten.map fun old => xin.flatten.getD old 0

/-- Three workers with one vertex each, sent to workers 1, 2 and 0. -/
def rotAsg : List (List Nat) := [[1], [2], [0]]

/-- The vector held by the three workers of `rotAsg`. -/
def rotX : List (List Int) := [[10], [20], [30]]

end Ex73

/-!
# Matrix preallocation and assembly of the Helmholtz example
(src/contrib/helmholtz_2/ex12.c)

`UserDetermineMatrixNonzeros` (lines 274-400) and `FormSystem1` (lines 425-572)
walk the locally owned grid points in five regions.  C `int` values are
integers (no grid of the example comes near the 32-bit range), arrays are
lists with checked accesses, and an access outside an array or through a null
pointer gives `none`.  The numerical values passed to `MatSetValues` are left
out: only the rows and columns are recorded.
-/

namespace Ex12

/-- The fields of the application context `Atassi` and the answers of the
distributed array that the two routines read: the grid sizes, the local
corners (`DAGetCorners`), the ghosted corners (`DAGetGhostCorners`), the
ghosted local-to-global map (`DAGetGlobalIndices`, `nloc` is its length) and
the ownership range of `user->phi` (`VecGetOwnershipRange`). -/
structure Atassi where
  m_eta : Int
  m_xi : Int
  m_ldim : Int
  problem : Int
  xs : Int
  ys : Int
  xm : Int
  ym : Int
  Xs : Int
  Ys : Int
  Xm : Int
  Ym : Int
  ltog : List Int
  istart : Int
  iend : Int
  deriving DecidableEq, Repr

/-- The matrix types the routine distinguishes. -/
inductive MatType where
  | MATSEQAIJ
  | MATMPIAIJ
  | other
  deriving DecidableEq, Repr

/-- Outcome of a routine: a value, an error raised with `SETERRQ`, or an
invalid memory access. -/
inductive Result (α : Type) where
  | ok (a : α)
  | seterrq (msg : String)
  | fault
  deriving DecidableEq, Repr

/-- Lift a memory-checked computation. -/
def Result.ofOption {α : Type} : Option α → Result α
  | some a => Result.ok a
  | none => Result.fault

/-- The read `ltog[idx]`. -/
def ltogAt (user : Atassi) (idx : Int) : Option Int :=
  if 0 ≤ idx then user.ltog[idx.toNat]? else none

/-- The statement `p[idx]++` for a pointer `p` into the block allocated by
`PetscMalloc`: `base` is the offset of `p` in the block, `none` for a null
pointer. -/
def incr (blk : List Int) (base : Option Int) (idx : Int) : Option (List Int) :=
  match base with
  | none => none
  | some b =>
    if 0 ≤ b + idx ∧ b + idx < blk.length then
      some (blk.set (b + idx).toNat (blk.getD (b + idx).toNat 0 + 1))
    else none

/-- The integers `lo, lo+1, ..., hi-1`. -/
def intRange (lo hi : Int) : List Int :=
  (List.range (hi - lo).toNat).map fun (k : Nat) => lo + (k : Int)

/-- Run `body` for the listed values of the loop variable, stopping at the
first invalid access. -/
def forList {ι σ : Type} (body : ι → σ → Option σ) : List ι → σ → Option σ
  | [], s => some s
  | i :: is, s => (body i s).bind (forList body is)

/-- The loop `for (i=lo; i<hi; i++) body`. -/
def forRange {σ : Type} (lo hi : Int) (body : Int → σ → Option σ) (s : σ) : Option σ :=
  forList body (intRange lo hi) s

/-- Interior bounds: `xsi`, `xei`, `ysi`, `yei` of both routines. -/
def xei (user : Atassi) : Int :=
  if user.xs + user.xm = user.m_eta then user.xs + user.xm - 1 else user.xs + user.xm

/-- See `xei`. -/
def yei (user : Atassi) : Int :=
  if user.ys + user.ym = user.m_xi then user.ys + user.ym - 1 else user.ys + user.ym

/-- See `xei`. -/
def xsi (user : Atassi) : Int :=
  if user.xs = 0 then user.xs + 1 else user.xs

/-- See `xei`. -/
def ysi (user : Atassi) : Int :=
  if user.ys = 0 then user.ys + 1 else user.ys

/-! ## UserDetermineMatrixNonzeros -/

/-- The output of `UserDetermineMatrixNonzeros`: the allocated block and the
offsets of `nnz_d` and `nnz_o` in it (`nnz_o` is null in the sequential
case). -/
structure Nonzeros where
  block : List Int
  nnz_d : Int
  nnz_o : Option Int
  deriving DecidableEq, Repr

/-- The loop over `m`: `if (col[m] >= istart && col[m] < iend) nnz_d[lrow]++;
else nnz_o[lrow]++;`. -/
def countCols (istart iend : Int) (nnz_o : Option Int) (lrow : Int) :
    List Int → List Int → Option (List Int)
  | [], blk => some blk
  | c :: cs, blk =>
    (if istart ≤ c ∧ c < iend then incr blk (some 0) lrow else incr blk nnz_o lrow).bind
      (countCols istart iend nnz_o lrow cs)

/-- Body of the interior loop (lines 325-335). -/
def countInterior (user : Atassi) (istart iend : Int) (nnz_o : Option Int) (j i : Int)
    (blk : List Int) : Option (List Int) :=
  let row := (j - user.Ys) * user.Xm + i - user.Xs
  let lrow := (j - user.ys) * user.xm + i - user.xs
  (ltogAt user (row - user.Xm)).bind fun c0 =>
  (ltogAt user (row - 1)).bind fun c1 =>
  (ltogAt user row).bind fun c2 =>
  (ltogAt user (row + 1)).bind fun c3 =>
  (ltogAt user (row + user.Xm)).bind fun c4 =>
  countCols istart iend nnz_o lrow [c0, c1, c2, c3, c4] blk

/-- Body of the downstream loop (lines 344-351), `te = 0`. -/
def countDownstream (user : Atassi) (istart iend : Int) (nnz_o : Option Int) (j : Int)
    (blk : List Int) : Option (List Int) :=
  let row := (j - user.Ys) * user.Xm - user.Xs
  let lrow := (j - user.ys) * user.xm - user.xs
  (ltogAt user row).bind fun c0 =>
  countCols istart iend nnz_o lrow [c0, 0] blk

/-- Body of the upstream loop (lines 358-362). -/
def countUpstream (user : Atassi) (istart iend : Int) (nnz_o : Option Int) (j : Int)
    (blk : List Int) : Option (List Int) :=
  let row := (j - user.Ys) * user.Xm + (user.xs + user.xm) - 1 - user.Xs
  let lrow := (j - user.ys) * user.xm + (user.xs + user.xm) - 1 - user.xs
  (ltogAt user row).bind fun c0 =>
  countCols istart iend nnz_o lrow [c0] blk

/-- Body of the slit loop (lines 369-376). -/
def countSlit (user : Atassi) (istart iend : Int) (nnz_o : Option Int) (i : Int)
    (blk : List Int) : Option (List Int) :=
  let row := -user.Ys * user.Xm + i - user.Xs
  let lrow := -user.ys * user.xm + i - user.xs
  (ltogAt user row).bind fun c0 =>
  (ltogAt user (row + user.Xm)).bind fun c1 =>
  countCols istart iend nnz_o lrow [c0, c1] blk

/-- Body of the far-field loop (lines 384-392). -/
def countFarfield (user : Atassi) (istart iend : Int) (nnz_o : Option Int) (i : Int)
    (blk : List Int) : Option (List Int) :=
  let row := (user.ys + user.ym - 1 - user.Ys) * user.Xm + i - user.Xs
  let lrow := (user.ys + user.ym - 1 - user.ys) * user.xm + i - user.xs
  (ltogAt user (row - 2 * user.Xm)).bind fun c0 =>
  (ltogAt user (row - user.Xm)).bind fun c1 =>
  (ltogAt user row).bind fun c2 =>
  countCols istart iend nnz_o lrow [c0, c1, c2] blk

/-- The five region loops of `UserDetermineMatrixNonzeros` (lines 321-394). -/
def countRegions (user : Atassi) (istart iend : Int) (nnz_o : Option Int)
    (blk : List Int) : Option (List Int) :=
  (forRange (ysi user) (yei user)
    (fun j => forRange (xsi user) (xei user) (countInterior user istart iend nnz_o j)) blk).bind
  fun b1 =>
  (if user.xs = 0 then
      forRange (ysi user) (user.ys + user.ym) (countDownstream user istart iend nnz_o) b1
    else some b1).bind
  fun b2 =>
  (if user.xs + user.xm = user.m_eta then
      forRange (ysi user) (user.ys + user.ym) (countUpstream user istart iend nnz_o) b2
    else some b2).bind
  fun b3 =>
  (if user.ys = 0 then
      forRange user.xs (user.xs + user.xm) (countSlit user istart iend nnz_o) b3
    else some b3).bind
  fun b4 =>
  if user.ys + user.ym = user.m_xi then
    forRange (xsi user) (xei user) (countFarfield user istart iend nnz_o) b4
  else some b4

/-- The routine `UserDetermineMatrixNonzeros` (lines 274-400). -/
def UserDetermineMatrixNonzeros (user : Atassi) (mtype : MatType) : Result Nonzeros :=
  match mtype with
  | MatType.other =>
    Result.seterrq "UserDetermineMatrixNonzeros: Code not yet written for this type"
  | MatType.MATSEQAIJ =>
    if user.problem = 1 then
      Result.ofOption
        ((countRegions user 0 user.m_ldim none (List.replicate user.m_ldim.toNat 0)).map
          fun b => ⟨b, 0, none⟩)
    else Result.seterrq "UserDetermineMatrixNonzeros: Only problem 1 has been coded so far!"
  | MatType.MATMPIAIJ =>
    if user.problem = 1 then
      Result.ofOption
        ((countRegions user user.istart user.iend (some user.m_ldim)
            (List.replicate (2 * user.m_ldim).toNat 0)).map
          fun b => ⟨b, 0, some user.m_ldim⟩)
    else Result.seterrq "UserDetermineMatrixNonzeros: Only problem 1 has been coded so far!"

/-- The entry `nnz_d[k]` of the output. -/
def Nonzeros.d (nz : Nonzeros) (k : Int) : Option Int :=
  if 0 ≤ nz.nnz_d + k then nz.block[(nz.nnz_d + k).toNat]? else none

/-- The entry `nnz_o[k]` of the output. -/
def Nonzeros.o (nz : Nonzeros) (k : Int) : Option Int :=
  match nz.nnz_o with
  | none => none
  | some b => if 0 ≤ b + k then nz.block[(b + k).toNat]? else none

/-! ## FormSystem1 -/

/-- One call `MatSetValues(A,1,&grow,k,col,v,INSERT_VALUES)`: the row and the
`k` columns. -/
structure MatSetValuesCall where
  grow : Int
  col : List Int
  deriving DecidableEq, Repr

/-- Body of the interior loop (lines 477-491). -/
def fillInterior (user : Atassi) (j i : Int) (calls : List MatSetValuesCall) :
    Option (List MatSetValuesCall) :=
  let row := (j - user.Ys) * user.Xm + i - user.Xs
  (ltogAt user row).bind fun grow =>
  (ltogAt user (row - user.Xm)).bind fun c0 =>
  (ltogAt user (row - 1)).bind fun c1 =>
  (ltogAt user (row + 1)).bind fun c3 =>
  (ltogAt user (row + user.Xm)).bind fun c4 =>
  some (calls ++ [⟨grow, [c0, c1, grow, c3, c4]⟩])

/-- Body of the downstream loop (lines 502-509), `te = 0`. -/
def fillDownstream (user : Atassi) (j : Int) (calls : List MatSetValuesCall) :
    Option (List MatSetValuesCall) :=
  let row := (j - user.Ys) * user.Xm - user.Xs
  (ltogAt user row).bind fun grow =>
  some (calls ++ [⟨grow, [grow, 0]⟩])

/-- Body of the upstream loop (lines 516-520). -/
def fillUpstream (user : Atassi) (j : Int) (calls : List MatSetValuesCall) :
    Option (List MatSetValuesCall) :=
  let row := (j - user.Ys) * user.Xm + (user.xs + user.xm) - 1 - user.Xs
  (ltogAt user row).bind fun grow =>
  some (calls ++ [⟨grow, [grow]⟩])

/-- Body of the slit loop (lines 527-536). -/
def fillSlit (user : Atassi) (i : Int) (calls : List MatSetValuesCall) :
    Option (List MatSetValuesCall) :=
  let row := -user.Ys * user.Xm + i - user.Xs
  (ltogAt user row).bind fun grow =>
  (ltogAt user (row + user.Xm)).bind fun c1 =>
  some (calls ++ [⟨grow, [grow, c1]⟩])

/-- Body of the far-field loop (lines 544-557). -/
def fillFarfield (user : Atassi) (i : Int) (calls : List MatSetValuesCall) :
    Option (List MatSetValuesCall) :=
  let row := (user.ys + user.ym - 1 - user.Ys) * user.Xm + i - user.Xs
  (ltogAt user row).bind fun grow =>
  (ltogAt user (row - 2 * user.Xm)).bind fun c0 =>
  (ltogAt user (row - user.Xm)).bind fun c1 =>
  (ltogAt user row).bind fun c2 =>
  some (calls ++ [⟨grow, [c0, c1, c2]⟩])

/-- The calls of `MatSetValues` made by `FormSystem1` (lines 425-572), in the
order they are made. -/
def FormSystem1 (user : Atassi) : Option (List MatSetValuesCall) :=
  (forRange (ysi user) (yei user)
    (fun j => forRange (xsi user) (xei user) (fillInterior user j)) []).bind
  fun a1 =>
  (if user.xs = 0 then forRange (ysi user) (user.ys + user.ym) (fillDownstream user) a1
    else some a1).bind
  fun a2 =>
  (if user.xs + user.xm = user.m_eta then
      forRange (ysi user) (user.ys + user.ym) (fillUpstream user) a2
    else some a2).bind
  fun a3 =>
  (if user.ys = 0 then forRange user.xs (user.xs + user.xm) (fillSlit user) a3
    else some a3).bind
  fun a4 =>
  if user.ys + user.ym = user.m_xi then
    forRange (xsi user) (xei user) (fillFarfield user) a4
  else some a4

/-- Whether a column lies in the ownership range. -/
def inRange (istart iend c : Int) : Bool := decide (istart ≤ c ∧ c < iend)

/-- Number of columns, counted with repetition, that the calls insert into
row `r` and that lie in `[istart, iend)`. -/
def insertedIn (calls : List MatSetValuesCall) (istart iend r : Int) : Nat :=
  (((calls.filter fun c => c.grow = r).flatMap MatSetValuesCall.col).filter
    (inRange istart iend)).length

/-- Number of columns, counted with repetition, that the calls insert into
row `r` and that lie outside `[istart, iend)`. -/
def insertedOut (calls : List MatSetValuesCall) (istart iend r : Int) : Nat :=
  (((calls.filter fun c => c.grow = r).flatMap MatSetValuesCall.col).filter
    fun c => !inRange istart iend c).length

/-! ## The points visited by the region loops -/

/-- One visit of a grid point by a region loop: the index `row` into the
ghosted map, the local row `lrow` and the column list of the point (`none`
when a read of `ltog` is invalid). -/
structure Visit where
  row : Int
  lrow : Int
  cols : Option (List Int)
  deriving DecidableEq, Repr

/-- The interior point `(i, j)`. -/
def interiorVisit (user : Atassi) (j i : Int) : Visit :=
  let row := (j - user.Ys) * user.Xm + i - user.Xs
  { row := row
    lrow := (j - user.ys) * user.xm + i - user.xs
    cols :=
      (ltogAt user (row - user.Xm)).bind fun c0 =>
      (ltogAt user (row - 1)).bind fun c1 =>
      (ltogAt user row).bind fun c2 =>
      (ltogAt user (row + 1)).bind fun c3 =>
      (ltogAt user (row + user.Xm)).bind fun c4 =>
      some [c0, c1, c2, c3, c4] }

/-- The downstream point `(0, j)`. -/
def downstreamVisit (user : Atassi) (j : Int) : Visit :=
  let row := (j - user.Ys) * user.Xm - user.Xs
  { row := row
    lrow := (j - user.ys) * user.xm - user.xs
    cols := (ltogAt user row).bind fun c0 => some [c0, 0] }

/-- The upstream point `(xe-1, j)`. -/
def upstreamVisit (user : Atassi) (j : Int) : Visit :=
  let row := (j - user.Ys) * user.Xm + (user.xs + user.xm) - 1 - user.Xs
  { row := row
    lrow := (j - user.ys) * user.xm + (user.xs + user.xm) - 1 - user.xs
    cols := (ltogAt user row).bind fun c0 => some [c0] }

/-- The slit point `(i, 0)`. -/
def slitVisit (user : Atassi) (i : Int) : Visit :=
  let row := -user.Ys * user.Xm + i - user.Xs
  { row := row
    lrow := -user.ys * user.xm + i - user.xs
    cols :=
      (ltogAt user row).bind fun c0 =>
      (ltogAt user (row + user.Xm)).bind fun c1 =>
      some [c0, c1] }

/-- The far-field point `(i, ye-1)`. -/
def farfieldVisit (user : Atassi) (i : Int) : Visit :=
  let row := (user.ys + user.ym - 1 - user.Ys) * user.Xm + i - user.Xs
  { row := row
    lrow := (user.ys + user.ym - 1 - user.ys) * user.xm + i - user.xs
    cols :=
      (ltogAt user (row - 2 * user.Xm)).bind fun c0 =>
      (ltogAt user (row - user.Xm)).bind fun c1 =>
      (ltogAt user row).bind fun c2 =>
      some [c0, c1, c2] }

/-- The visits of the five region loops, in the order both routines make
them. -/
def visits (user : Atassi) : List Visit :=
  ((intRange (ysi user) (yei user)).flatMap fun j =>
      (intRange (xsi user) (xei user)).map (interiorVisit user j))
  ++ (if user.xs = 0 then
        (intRange (ysi user) (user.ys + user.ym)).map (downstreamVisit user) else [])
  ++ (if user.xs + user.xm = user.m_eta then
        (intRange (ysi user) (user.ys + user.ym)).map (upstreamVisit user) else [])
  ++ (if user.ys = 0 then
        (intRange user.xs (user.xs + user.xm)).map (slitVisit user) else [])
  ++ (if user.ys + user.ym = user.m_xi then
        (intRange (xsi user) (xei user)).map (farfieldVisit user) else [])

/-- What `UserDetermineMatrixNonzeros` does at one visit. -/
def countVisit (istart iend : Int) (nnz_o : Option Int) (v : Visit) (blk : List Int) :
    Option (List Int) :=
  v.cols.bind fun cols => countCols istart iend nnz_o v.lrow cols blk

/-- The call `FormSystem1` makes at one visit. -/
def callOf (user : Atassi) (v : Visit) : Option MatSetValuesCall :=
  (ltogAt user v.row).bind fun grow => v.cols.bind fun cols => some ⟨grow, cols⟩

/-- What `FormSystem1` does at one visit. -/
def fillVisit (user : Atassi) (v : Visit) (calls : List MatSetValuesCall) :
    Option (List MatSetValuesCall) :=
  (callOf user v).bind fun c => some (calls ++ [c])

/-- Number of columns of the visits of local row `k` inside the range. -/
def visitIn (istart iend : Int) (vs : List Visit) (k : Int) : Nat :=
  (((vs.filter fun v => v.lrow = k).flatMap fun v => v.cols.getD []).filter
    (inRange istart iend)).length

/-- Number of columns of the visits of local row `k` outside the range. -/
def visitOut (istart iend : Int) (vs : List Visit) (k : Int) : Nat :=
  (((vs.filter fun v => v.lrow = k).flatMap fun v => v.cols.getD []).filter
    fun c => !inRange istart iend c).length


/-- The left one of two workers on a 3 by 3 grid: it owns the columns
`i = 0, 1` (6 points, global rows 0..5) and sees the column `i = 2` of its
neighbour (global rows 6, 7, 8) as ghost points. -/
def exUser : Atassi :=
  { m_eta := 3, m_xi := 3, m_ldim := 6, problem := 1,
    xs := 0, ys := 0, xm := 2, ym := 3,
    Xs := 0, Ys := 0, Xm := 3, Ym := 3,
    ltog := [0, 1, 6, 2, 3, 7, 4, 5, 8],
    istart := 0, iend := 6 }

end Ex12

namespace DMShell

/-! ## The statements of a template setter, one heap after the other -/

/-- The heaps a template setter passes through: at entry, after
`PetscObjectReference` of the new object (when that statement is reached) and
after the destroy of the old slot (when that statement is reached). -/
def SetTemplateTrace (k : Kind) (dm : DM) (heap : Heap) (X : ObjId) : List Heap :=
  match PetscValidHeaderSpecific heap X (classOf k) with
  | .ok =>
    if PetscObjectTypeCompare dm.type_name (some DMSHELL) = false then [heap]
    else
      match dm.data with
      | none => [heap]
      | some shell =>
        let r := PetscObjectReference heap X
        match r.1 with
        | .ok => [heap, r.2, (ObjectDestroy (classOf k) r.2 (slotOf shell k)).2.1]
        | _ => [heap, r.2]
  | _ => [heap]

end DMShell

namespace Ex12

/-! ## The processor-grid check of main and the far-field coefficient -/

/-- The far-field coefficient `c2` of `FormSystem1` (line 544) over an exact
field.  The source text is
`rh_xi_sq * cos(pi*i*h_eta) / sqr(pi* sin(pi*i*h_eta) * cosh(pi*j*h_xi))` with
`#define sqr(x) (x)*(x)` (line 94).  The macro is replaced textually, which
gives `rh_xi_sq * cos(..) / (pi* sin(..) * cosh(..))*(pi* sin(..) * cosh(..))`,
and `*` and `/` associate to the left.  The arguments are `rh_xi_sq`, `pi` and
the values of `cos(pi*i*h_eta)`, `sin(pi*i*h_eta)` and `cosh(pi*j*h_xi)`. -/
def farfield_c2 {K : Type} [Field K] (rh_xi_sq pi cosv sinv coshv : K) : K :=
  rh_xi_sq * cosv / (pi * sinv * coshv) * (pi * sinv * coshv)

/-- The same macro in `beta_sq = 1 - sqr(user.mach)` (line 136): the text
becomes `1 - (user.mach)*(user.mach)`. -/
def beta_sq {K : Type} [Field K] (mach : K) : K :=
  1 - (mach) * (mach)

end Ex12

/-!
# The tool factory of the win32 front end (bin/win32fe/petsccreate.cpp)
-/

namespace PETScFE

/-- The tool classes the creators instantiate (`new cl`, `new bcc`, ...). -/
inductive tool where
  | cl
  | bcc
  | cc
  | lib
  | tlib
  | ar
  deriving DecidableEq, Repr

/-- What `tool::Create` leaves behind: `Tool` points to a new tool; or `Tool`
is NULL after "Unknown Tool" was printed; or a null function pointer taken
from the map was called. -/
inductive Outcome where
  | created (t : tool)
  | unknownTool
  | nullCall
  deriving DecidableEq, Repr

/-- Whether `needle` is an initial segment of `hay`. -/
def startsWith : List Char → List Char → Bool
  | _, [] => true
  | [], _ :: _ => false
  | h :: hs, n :: ns => h == n && startsWith hs ns

/-- The call `hay.find(needle)` of `std::string`: the position of the first
occurrence of `needle` in `hay`, `none` for `string::npos`. -/
def find : List Char → List Char → Option Nat
  | [], needle => if startsWith [] needle then some 0 else none
  | h :: hs, needle =>
    if startsWith (h :: hs) needle then some 0 else (find hs needle).map (· + 1)

/-- The string `KnownTools` (line 25). -/
def KnownTools : String := "cl.df.bcc32.cc.lib.tlib.ar"

/-- The map `CreateTool` after the seven assignments (lines 29-35), with the
tool each registered creator instantiates. -/
def CreateTool : List (String × tool) :=
  [("cl", tool.cl), ("df", tool.cl), ("bcc32", tool.bcc), ("cc", tool.cc),
   ("lib", tool.lib), ("tlib", tool.tlib), ("ar", tool.ar)]

/-- The routine `tool::Create(Tool, argv)` (lines 24-43).  `CreateTool[key]`
on a key that was never assigned inserts and returns a null function pointer,
which is then called. -/
def Create (argv : String) : Outcome :=
  if (find KnownTools.toList argv.toList).isSome then
    match CreateTool.lookup argv with
    | some t => Outcome.created t
    | none => Outcome.nullCall
  else Outcome.unknownTool

end PETScFE

namespace Ex12

/-! ## Decompositions with ghost width 1 -/

/-- Modelled from the spec: the answers of the distributed array created by
`DACreate2d(comm,DA_NONPERIODIC,DA_STENCIL_STAR,m_eta,m_xi,N_eta,N_xi,1,1,&da)`
(lines 152-153; the DA library is not among the sources) on the worker that
owns the points `xs ≤ i < xs+xm`, `ys ≤ j < ys+ym`: the ghosted patch reaches
one point beyond the owned patch in each direction, cut off at the boundary of
the grid, and the ghosted map has one entry per point of that patch, row by
row.  `gidx i j` is the global index of grid point `(i, j)`. -/
def ghostWidth1 (m_eta m_xi xs ys xm ym : Int) (gidx : Int → Int → Int)
    (istart iend : Int) : Atassi :=
  { m_eta := m_eta, m_xi := m_xi, m_ldim := xm * ym, problem := 1,
    xs := xs, ys := ys, xm := xm, ym := ym,
    Xs := max (xs - 1) 0, Ys := max (ys - 1) 0,
    Xm := min (xs + xm + 1) m_eta - max (xs - 1) 0,
    Ym := min (ys + ym + 1) m_xi - max (ys - 1) 0,
    ltog := (intRange (max (ys - 1) 0) (min (ys + ym + 1) m_xi)).flatMap fun j =>
      (intRange (max (xs - 1) 0) (min (xs + xm + 1) m_eta)).map fun i => gidx i j,
    istart := istart, iend := iend }

/-- The default 7 by 7 grid on 7 workers with `-N_eta 1 -N_xi 7`: every worker
owns one grid row; this is the worker that owns the far-field row `j = 6`
(global rows 42..48). -/
def topUser : Atassi :=
  ghostWidth1 7 7 0 6 7 1 (fun i j => j * 7 + i) 42 49

/-- A 7 by 2 grid (`-m_xi 2`) on one worker. -/
def thinUser : Atassi :=
  ghostWidth1 7 2 0 0 7 2 (fun i j => j * 7 + i) 0 14

/-- The default 7 by 7 grid on one worker. -/
def wholeUser : Atassi :=
  ghostWidth1 7 7 0 0 7 7 (fun i j => j * 7 + i) 0 49

end Ex12

namespace Ex12

/-! ## The regions of the grid -/

/-- The five regions the loops of both routines distinguish. -/
inductive Region where
  | interior
  | downstream
  | upstream
  | slit
  | farfield
  deriving DecidableEq, Repr

/-- Number of columns of the stencil of a region. -/
def stencilSize : Region → Nat
  | Region.interior => 5
  | Region.downstream => 2
  | Region.upstream => 1
  | Region.slit => 2
  | Region.farfield => 3

/-- The region of grid point `(i, j)` by its position in the grid: the slit
row `j = 0`, then the downstream column `i = 0`, the upstream column
`i = m_eta-1`, the far-field row `j = m_xi-1`, and the interior. -/
def regionOf (user : Atassi) (i j : Int) : Region :=
  if j = 0 then Region.slit
  else if i = 0 then Region.downstream
  else if i = user.m_eta - 1 then Region.upstream
  else if j = user.m_xi - 1 then Region.farfield
  else Region.interior

/-- The visit the loop of a region makes at grid point `(i, j)`. -/
def regionVisit (user : Atassi) (p : Region × Int × Int) : Visit :=
  match p.1 with
  | Region.interior => interiorVisit user p.2.2 p.2.1
  | Region.downstream => downstreamVisit user p.2.2
  | Region.upstream => upstreamVisit user p.2.2
  | Region.slit => slitVisit user p.2.1
  | Region.farfield => farfieldVisit user p.2.1

/-- The grid points `(i, j)` the five region loops visit, each with the region
of the loop, in the order of the loops. -/
def visitedPoints (user : Atassi) : List (Region × Int × Int) :=
  ((intRange (ysi user) (yei user)).flatMap fun j =>
      (intRange (xsi user) (xei user)).map fun i => (Region.interior, i, j))
  ++ (if user.xs = 0 then
        (intRange (ysi user) (user.ys + user.ym)).map fun j => (Region.downstream, 0, j)
      else [])
  ++ (if user.xs + user.xm = user.m_eta then
        (intRange (ysi user) (user.ys + user.ym)).map fun j =>
          (Region.upstream, user.xs + user.xm - 1, j)
      else [])
  ++ (if user.ys = 0 then
        (intRange user.xs (user.xs + user.xm)).map fun i => (Region.slit, i, 0)
      else [])
  ++ (if user.ys + user.ym = user.m_xi then
        (intRange (xsi user) (xei user)).map fun i =>
          (Region.farfield, i, user.ys + user.ym - 1)
      else [])

/-- The local row of grid point `(i, j)`. -/
def lrowOf (user : Atassi) (i j : Int) : Int :=
  (j - user.ys) * user.xm + i - user.xs

/-- The point `(i, j)` is owned by this worker. -/
def owned (user : Atassi) (i j : Int) : Prop :=
  user.xs ≤ i ∧ i < user.xs + user.xm ∧ user.ys ≤ j ∧ j < user.ys + user.ym

instance (user : Atassi) (i j : Int) : Decidable (owned user i j) := by
  unfold owned; exact inferInstance

/-- The worker owns a non-empty rectangle of a grid with at least two points
in each direction. -/
def validDecomposition (user : Atassi) : Prop :=
  2 ≤ user.m_eta ∧ 2 ≤ user.m_xi
    ∧ 0 ≤ user.xs ∧ 1 ≤ user.xm ∧ user.xs + user.xm ≤ user.m_eta
    ∧ 0 ≤ user.ys ∧ 1 ≤ user.ym ∧ user.ys + user.ym ≤ user.m_xi

instance (user : Atassi) : Decidable (validDecomposition user) := by
  unfold validDecomposition; exact inferInstance

end Ex12

/-!
# Reading the connectivity file of the mesh example
(src/dm/mesh/examples/tutorials/ex1.c, `ReadConnectivity`, lines 95-133)

A file is the list of its characters.  The C library routines the reader
uses (`fgets`, `strtok`, `atoi`) are modelled by their standard behaviour;
`int` values are integers.  Passing a null pointer to `atoi` and a write
outside the allocated array are invalid accesses.
-/

namespace Ex1

end Ex1

namespace Ex1

end Ex1

namespace DMShell

/-! ## Heap lemmas -/

theorem getElem?_updObj (h : Heap) (i j : ObjId) (f : PetscObject → PetscObject) :
    (updObj h i f)[j]? = if j = i then (h[i]?).map f else h[j]? := by
  unfold updObj
  cases hi : h[i]? with
  | none => by_cases hj : j = i <;> simp [hj, hi]
  | some o =>
    have hlt : i < h.length := by
      rcases List.getElem?_eq_some_iff.1 hi with ⟨hl, _⟩
      exact hl
    by_cases hj : j = i
    · subst hj; simp [hlt]
    · have : i ≠ j := fun e => hj e.symm
      simp [hj, List.getElem?_set, this]

theorem length_updObj (h : Heap) (i : ObjId) (f : PetscObject → PetscObject) :
    (updObj h i f).length = h.length := by
  unfold updObj
  cases h[i]? <;> simp

theorem alloc_fst (h : Heap) (o : PetscObject) : (alloc h o).1 = h.length := rfl

theorem alloc_snd (h : Heap) (o : PetscObject) : (alloc h o).2 = h ++ [o] := rfl

theorem getElem?_snoc (h : Heap) (o : PetscObject) (j : ObjId) :
    (h ++ [o])[j]? = if j = h.length then some o else h[j]? := by
  by_cases hj : j = h.length
  · subst hj; simp
  · rcases Nat.lt_or_gt_of_ne hj with h1 | h1
    · simp [hj, List.getElem?_append_left h1]
    · have h2 : h.length ≤ j := Nat.le_of_lt h1
      have h3 : (h ++ [o]).length ≤ j := by simp; omega
      simp [hj, List.getElem?_eq_none h3, List.getElem?_eq_none h2]

theorem updObj_snoc (h : Heap) (o : PetscObject) (f : PetscObject → PetscObject) :
    updObj (h ++ [o]) h.length f = h ++ [f o] := by
  apply List.ext_getElem?
  intro j
  simp only [getElem?_updObj, getElem?_snoc]
  by_cases hj : j = h.length <;> simp [hj]

theorem lt_length_of_get {h : Heap} {x : ObjId} {o : PetscObject} (hx : h[x]? = some o) :
    x < h.length := (List.getElem?_eq_some_iff.1 hx).1

theorem get_length_none (h : Heap) : h[h.length]? = none :=
  List.getElem?_eq_none (Nat.le_refl _)

/-- Two heaps with the same entries are equal. -/
theorem heap_ext {h1 h2 : Heap} (h : ∀ j : Nat, h1[j]? = h2[j]?) : h1 = h2 :=
  List.ext_getElem? h

/-! ## The type check -/

theorem typecheck_ok_iff (tn mtype : Option String) :
    DMCreateMatrix_Shell_typecheck tn mtype = .ok ↔ typeAccepted tn mtype := by
  unfold DMCreateMatrix_Shell_typecheck typeAccepted
  cases mtype with
  | none => simp
  | some t =>
    cases tn with
    | none => simp [PetscObjectTypeCompare]
    | some a =>
      simp only [PetscObjectTypeCompare, beq_iff_eq, Option.some.injEq, forall_eq']
      by_cases h1 : a = t
      · simp [h1]
      · by_cases h2 : t = MATAIJ
        · by_cases h3 : a = MATSEQAIJ
          · simp [h1, h2, h3]
          · by_cases h4 : a = MATMPIAIJ
            · simp [h1, h2, h4]
            · simp [h1, h2, h3, h4]
        · simp [h1, h2]

/-! ## The two hand-out branches -/

theorem vec_exclusive (dm : DM) (heap : Heap) (X : ObjId) (o : PetscObject)
    (hX : heap[X]? = some o) (hf : o.freed = false) (hc : o.classid = .VEC_CLASSID)
    (hr : o.refct < 2) :
    shellVecHandOut dm heap X =
      ⟨.ok, some X, dm, updObj heap X (handedOut (some dm.id))⟩ := by
  simp [shellVecHandOut, hX, hr, PetscObjectReference, PetscValidHeader, hf, VecZeroEntries,
    PetscValidHeaderSpecific, getElem?_updObj, hc, VecSetDM, zeroVals, referenced]
  apply heap_ext
  intro j
  simp [getElem?_updObj]
  by_cases hj : j = X
  · simp [hj, hX, zeroVals, handedOut, referenced]
  · simp [hj]

theorem vec_shared (dm : DM) (heap : Heap) (X : ObjId) (o : PetscObject)
    (hX : heap[X]? = some o) (hf : o.freed = false) (hc : o.classid = .VEC_CLASSID)
    (hr : 2 ≤ o.refct) :
    shellVecHandOut dm heap X =
      ⟨.ok, some heap.length, dm, heap ++ [cloned (some dm.id) o]⟩ := by
  have hr' : ¬ o.refct < 2 := by omega
  have hn := get_length_none heap
  simp [shellVecHandOut, hX, hr', VecDuplicate, PetscValidHeaderSpecific, hf, hc, VecZeroEntries,
    alloc_fst, alloc_snd, getElem?_snoc, updObj_snoc, cloneOf, VecSetDM, zeroVals, cloned]

theorem provide_held (lib : PetscLib) (shell : DM_Shell) (heap : Heap) (mtype : Option String)
    (A : ObjId) (hA : shell.A = some A) :
    DMCreateMatrix_Shell_provide lib shell heap mtype = (.ok, shell, heap) := by
  simp [DMCreateMatrix_Shell_provide, hA]

theorem mat_exclusive (lib : PetscLib) (dm : DM) (shell : DM_Shell) (heap : Heap)
    (mtype : Option String) (A : ObjId) (o : PetscObject)
    (hd : dm.data = some shell) (hA : shell.A = some A)
    (hX : heap[A]? = some o) (hf : o.freed = false) (hc : o.classid = .MAT_CLASSID)
    (ht : typeAccepted o.type_name mtype) (hr : o.refct < 2) :
    DMCreateMatrix_Shell lib dm heap mtype =
      ⟨.ok, some A, dm, updObj heap A (handedOut o.dm)⟩ := by
  have ht' := (typecheck_ok_iff _ _).2 ht
  have hdm : ({ dm with data := some shell } : DM) = dm := by cases dm; simp_all
  simp [DMCreateMatrix_Shell, DMCreateMatrix_Shell_give, hd, provide_held lib shell heap mtype A hA, hA, hX, ht', hr,
    PetscObjectReference, PetscValidHeader, hf, MatZeroEntries, PetscValidHeaderSpecific,
    getElem?_updObj, hc, hdm, referenced]
  apply heap_ext
  intro j
  simp [getElem?_updObj]
  by_cases hj : j = A
  · simp [hj, hX, zeroVals, handedOut, referenced]
  · simp [hj]

theorem mat_shared (lib : PetscLib) (dm : DM) (shell : DM_Shell) (heap : Heap)
    (mtype : Option String) (A : ObjId) (o : PetscObject)
    (hd : dm.data = some shell) (hA : shell.A = some A)
    (hX : heap[A]? = some o) (hf : o.freed = false) (hc : o.classid = .MAT_CLASSID)
    (ht : typeAccepted o.type_name mtype) (hr : 2 ≤ o.refct) :
    DMCreateMatrix_Shell lib dm heap mtype =
      ⟨.ok, some heap.length, dm, heap ++ [cloned none o]⟩ := by
  have ht' := (typecheck_ok_iff _ _).2 ht
  have hr' : ¬ o.refct < 2 := by omega
  have hdm : ({ dm with data := some shell } : DM) = dm := by cases dm; simp_all
  have hn := get_length_none heap
  simp [DMCreateMatrix_Shell, DMCreateMatrix_Shell_give, hd, provide_held lib shell heap mtype A hA, hA, hX, ht', hr',
    MatDuplicate, MatZeroEntries, PetscValidHeaderSpecific, hf, hc, hdm, alloc_fst, alloc_snd,
    getElem?_snoc, updObj_snoc, cloneOf, zeroVals, cloned]

/-! ## The template setters -/

theorem setTemplate_eq (k : Kind) (dm : DM) (heap : Heap) (X : ObjId) (shell : DM_Shell)
    (o : PetscObject)
    (hsh : dm.type_name = some DMSHELL) (hd : dm.data = some shell)
    (hX : heap[X]? = some o) (hf : o.freed = false) (hc : o.classid = classOf k)
    (hp : ∀ p, slotOf shell k = some p → Live heap p (classOf k)) :
    SetTemplate k dm heap X =
      ⟨.ok, none, { dm with data := some (setSlot shell k (some X)) },
        match slotOf shell k with
        | none => updObj heap X referenced
        | some p => updObj (updObj heap X referenced) p released⟩ := by
  cases hs : slotOf shell k with
  | none =>
    cases k <;> simp only [slotOf] at hs <;> simp only [classOf] at hc <;>
      simp [SetTemplate, DMShellSetGlobalVector, DMShellSetLocalVector, DMShellSetMatrix,
        PetscValidHeaderSpecific, hX, hf, hc, PetscObjectTypeCompare, hsh, hd,
        PetscObjectReference, PetscValidHeader, VecDestroy, MatDestroy, ObjectDestroy, hs, setSlot]
  | some p =>
    obtain ⟨op, hp1, hp2, hp3⟩ := hp p hs
    have hv : ∃ q, (updObj heap X referenced)[p]? = some q ∧ q.freed = false
        ∧ q.classid = classOf k := by
      by_cases hpx : p = X
      · subst hpx
        refine ⟨referenced o, by simp [getElem?_updObj, hX], hf, hc⟩
      · exact ⟨op, by simp [getElem?_updObj, hpx, hp1], hp2, hp3⟩
    obtain ⟨q, hq1, hq2, hq3⟩ := hv
    cases k <;> simp only [slotOf] at hs <;> simp only [classOf] at hc hq3 <;>
      simp [SetTemplate, DMShellSetGlobalVector, DMShellSetLocalVector, DMShellSetMatrix,
        PetscValidHeaderSpecific, hX, hf, hc, PetscObjectTypeCompare, hsh, hd,
        PetscObjectReference, PetscValidHeader, VecDestroy, MatDestroy, ObjectDestroy, hs, setSlot,
        hq1, hq2, hq3]

/-! ## Releasing slots -/

theorem getElem?_releaseSlot (h : Heap) (v : Option ObjId) (j : ObjId) :
    (releaseSlot h v)[j]? = if v = some j then (h[j]?).map released else h[j]? := by
  cases v with
  | none => simp [releaseSlot]
  | some x =>
    by_cases hj : j = x
    · subst hj; simp [releaseSlot, getElem?_updObj]
    · have : ¬ x = j := fun e => hj e.symm
      simp [releaseSlot, getElem?_updObj, hj, this]

theorem objectDestroy_eq (c : ClassId) (h : Heap) (v : Option ObjId)
    (hv : ∀ x, v = some x → Live h x c) :
    ObjectDestroy c h v = (.ok, releaseSlot h v, none) := by
  cases v with
  | none => simp [ObjectDestroy, releaseSlot]
  | some x =>
    obtain ⟨o, h1, h2, h3⟩ := hv x rfl
    simp [ObjectDestroy, PetscValidHeaderSpecific, h1, h2, h3, releaseSlot]

theorem destroy_shell_eq (dm : DM) (heap : Heap) (shell : DM_Shell)
    (hd : dm.data = some shell)
    (hA : ∀ x, shell.A = some x → Live heap x .MAT_CLASSID)
    (hG : ∀ x, shell.Xglobal = some x → Live heap x .VEC_CLASSID)
    (hL : ∀ x, shell.Xlocal = some x → Live heap x .VEC_CLASSID)
    (hn : ∀ x o, heap[x]? = some o → (slotCount shell x : Int) ≤ o.refct) :
    DMDestroy_Shell dm heap =
      ⟨.ok, none, { dm with data := none },
        releaseSlot (releaseSlot (releaseSlot heap shell.A) shell.Xglobal) shell.Xlocal⟩ := by
  have e1 := objectDestroy_eq .MAT_CLASSID heap shell.A hA
  have hG' : ∀ x, shell.Xglobal = some x → Live (releaseSlot heap shell.A) x .VEC_CLASSID := by
    intro x hx
    obtain ⟨o, h1, h2, h3⟩ := hG x hx
    have hne : shell.A ≠ some x := by
      intro ha
      obtain ⟨o', h1', _, h3'⟩ := hA x ha
      rw [h1] at h1'
      cases h1'
      rw [h3] at h3'
      cases h3'
    exact ⟨o, by simp [getElem?_releaseSlot, hne, h1], h2, h3⟩
  have e2 := objectDestroy_eq .VEC_CLASSID (releaseSlot heap shell.A) shell.Xglobal hG'
  have hL' : ∀ x, shell.Xlocal = some x →
      Live (releaseSlot (releaseSlot heap shell.A) shell.Xglobal) x .VEC_CLASSID := by
    intro x hx
    obtain ⟨o, h1, h2, h3⟩ := hL x hx
    have hne : shell.A ≠ some x := by
      intro ha
      obtain ⟨o', h1', _, h3'⟩ := hA x ha
      rw [h1] at h1'
      cases h1'
      rw [h3] at h3'
      cases h3'
    by_cases hg : shell.Xglobal = some x
    · refine ⟨released o, by simp [getElem?_releaseSlot, hne, hg, h1], ?_, h3⟩
      have := hn x o h1
      simp only [slotCount, hne, hg, hx, if_true, if_false] at this
      simp only [released, decide_eq_false_iff_not]
      omega
    · exact ⟨o, by simp [getElem?_releaseSlot, hne, hg, h1], h2, h3⟩
  have e3 := objectDestroy_eq .VEC_CLASSID
    (releaseSlot (releaseSlot heap shell.A) shell.Xglobal) shell.Xlocal hL'
  simp [DMDestroy_Shell, hd, MatDestroy, VecDestroy, e1, e2, e3]

/-! ## The reference counts stay exact -/

theorem slotCount_pos_of_slot {s : DM_Shell} {k : Kind} {x : ObjId}
    (h : slotOf s k = some x) : 1 ≤ slotCount s x := by
  cases k <;> simp only [slotOf] at h <;> simp only [slotCount, h, if_true] <;> omega

theorem slotCount_setSlot (s : DM_Shell) (k : Kind) (v : Option ObjId) (x : ObjId) :
    (slotCount (setSlot s k v) x : Int)
      = slotCount s x - (if slotOf s k = some x then 1 else 0) + (if v = some x then 1 else 0) := by
  cases k <;> simp only [slotCount, setSlot, slotOf] <;>
    by_cases h1 : s.A = some x <;> by_cases h2 : s.Xglobal = some x <;>
    by_cases h3 : s.Xlocal = some x <;> by_cases h4 : v = some x <;>
    simp [h1, h2, h3, h4]

theorem slotOf_setSlot (s : DM_Shell) (k k' : Kind) (v : Option ObjId) :
    slotOf (setSlot s k v) k' = if k' = k then v else slotOf s k' := by
  cases k <;> cases k' <;> simp [slotOf, setSlot]

/-- An object held by someone is live. -/
theorem inv_live {w : World} {s : DM_Shell} (hI : Inv w) (hd : w.dm.data = some s)
    {x : ObjId} (hx : 1 ≤ slotCount s x + w.ext.count x) :
    ∃ o, w.heap[x]? = some o ∧ o.freed = false
      ∧ o.refct = ((slotCount s x + w.ext.count x : Nat) : Int) := by
  obtain ⟨s', hd', h1, h2, _⟩ := hI
  rw [hd] at hd'
  cases hd'
  cases ho : w.heap[x]? with
  | none =>
    have := h2 x ho
    omega
  | some o =>
    obtain ⟨a, b⟩ := h1 x o ho
    refine ⟨o, rfl, ?_, a⟩
    cases hf : o.freed with
    | false => rfl
    | true =>
      have := b.1 hf
      omega

/-- A caller gains a reference to a live object whose count the heap update
raises by one. -/
theorem inv_ref_ext {dm : DM} {heap : Heap} {ext : List ObjId} {X : ObjId} {o : PetscObject}
    (f : PetscObject → PetscObject) (hI : Inv ⟨dm, heap, ext⟩)
    (hX : heap[X]? = some o) (hf : o.freed = false)
    (f1 : (f o).refct = o.refct + 1) (f2 : (f o).freed = o.freed)
    (f3 : (f o).classid = o.classid) :
    Inv ⟨dm, updObj heap X f, X :: ext⟩ := by
  obtain ⟨s, hd, h1, h2, h3⟩ := hI
  dsimp only at hd h1 h2 h3
  refine ⟨s, hd, ?_, ?_, ?_⟩
  · intro x o' hx
    simp only [getElem?_updObj] at hx
    by_cases hxX : x = X
    · subst hxX
      simp only [if_true, hX, Option.map_some', Option.some.injEq] at hx
      subst hx
      obtain ⟨a, b⟩ := h1 x o hX
      simp only [List.count_cons_self]
      refine ⟨?_, ?_⟩
      · rw [f1, a]; push_cast; omega
      · rw [f2, hf]; simp
    · simp only [hxX, if_false] at hx
      have hne : x ≠ X := hxX
      simp only [List.count_cons_of_ne hne]
      exact h1 x o' hx
  · intro x hx
    simp only [getElem?_updObj] at hx
    by_cases hxX : x = X
    · subst hxX
      simp [hX] at hx
    · simp only [hxX, if_false] at hx
      have hne : x ≠ X := hxX
      simp only [List.count_cons_of_ne hne]
      exact h2 x hx
  · intro k x hk
    obtain ⟨o2, a, b⟩ := h3 k x hk
    by_cases hxX : x = X
    · subst hxX
      have a' : heap[x]? = some o2 := a
      rw [hX] at a'
      cases a'
      exact ⟨f o, by simp [getElem?_updObj, hX], by rw [f3]; exact b⟩
    · exact ⟨o2, by simp [getElem?_updObj, hxX, a], b⟩

/-- A caller gains a new object that it alone holds. -/
theorem inv_alloc_ext {dm : DM} {heap : Heap} {ext : List ObjId} (c : PetscObject)
    (hI : Inv ⟨dm, heap, ext⟩) (c1 : c.refct = 1) (c2 : c.freed = false) :
    Inv ⟨dm, heap ++ [c], heap.length :: ext⟩ := by
  obtain ⟨s, hd, h1, h2, h3⟩ := hI
  dsimp only at hd h1 h2 h3
  have h0 := h2 heap.length (get_length_none heap)
  refine ⟨s, hd, ?_, ?_, ?_⟩
  · intro x o' hx
    simp only [getElem?_snoc] at hx
    by_cases hxl : x = heap.length
    · subst hxl
      simp only [if_true, Option.some.injEq] at hx
      subst hx
      simp only [List.count_cons_self]
      refine ⟨?_, ?_⟩
      · rw [c1]
        omega
      · rw [c2]; simp
    · simp only [hxl, if_false] at hx
      have hne : x ≠ heap.length := hxl
      simp only [List.count_cons_of_ne hne]
      exact h1 x o' hx
  · intro x hx
    simp only [getElem?_snoc] at hx
    by_cases hxl : x = heap.length
    · subst hxl
      simp at hx
    · simp only [hxl, if_false] at hx
      have hne : x ≠ heap.length := hxl
      simp only [List.count_cons_of_ne hne]
      exact h2 x hx
  · intro k x hk
    obtain ⟨o2, a, b⟩ := h3 k x hk
    have hlt := lt_length_of_get a
    exact ⟨o2, by simp [getElem?_snoc, Nat.ne_of_lt hlt, a], b⟩

/-- A heap update that keeps count, liveness and class keeps the invariant. -/
theorem inv_upd_neutral {dm : DM} {heap : Heap} {ext : List ObjId} (X : ObjId)
    (f : PetscObject → PetscObject) (hI : Inv ⟨dm, heap, ext⟩)
    (f1 : ∀ o, (f o).refct = o.refct) (f2 : ∀ o, (f o).freed = o.freed)
    (f3 : ∀ o, (f o).classid = o.classid) :
    Inv ⟨dm, updObj heap X f, ext⟩ := by
  obtain ⟨s, hd, h1, h2, h3⟩ := hI
  dsimp only at hd h1 h2 h3
  refine ⟨s, hd, ?_, ?_, ?_⟩
  · intro x o' hx
    simp only [getElem?_updObj] at hx
    by_cases hxX : x = X
    · subst hxX
      cases ho : heap[x]? with
      | none => simp [ho] at hx
      | some o =>
        simp only [if_true, ho, Option.map_some', Option.some.injEq] at hx
        subst hx
        rw [f1, f2]
        exact h1 x o ho
    · simp only [hxX, if_false] at hx
      exact h1 x o' hx
  · intro x hx
    simp only [getElem?_updObj] at hx
    by_cases hxX : x = X
    · subst hxX
      cases ho : heap[x]? with
      | none => exact h2 x ho
      | some o => simp [ho] at hx
    · simp only [hxX, if_false] at hx
      exact h2 x hx
  · intro k x hk
    obtain ⟨o2, a, b⟩ := h3 k x hk
    by_cases hxX : x = X
    · subst hxX
      exact ⟨f o2, by simp [getElem?_updObj, a], by rw [f3]; exact b⟩
    · exact ⟨o2, by simp [getElem?_updObj, hxX, a], b⟩

/-- The shell gains a new matrix in its empty matrix slot. -/
theorem inv_alloc_slotA {dm : DM} {heap : Heap} {ext : List ObjId} {s : DM_Shell}
    (a : PetscObject) (hI : Inv ⟨dm, heap, ext⟩) (hd : dm.data = some s) (hA : s.A = none)
    (a1 : a.refct = 1) (a2 : a.freed = false) (a3 : a.classid = .MAT_CLASSID) :
    Inv ⟨{ dm with data := some { s with A := some heap.length } }, heap ++ [a], ext⟩ := by
  obtain ⟨s', hd', h1, h2, h3⟩ := hI
  dsimp only at hd' h1 h2 h3
  rw [hd] at hd'
  cases hd'
  have h0 := h2 heap.length (get_length_none heap)
  have hsc : ∀ x, slotCount { s with A := some heap.length } x
      = slotCount s x + (if x = heap.length then 1 else 0) := by
    intro x
    simp only [slotCount, hA]
    by_cases hx : x = heap.length
    · simp [hx]; omega
    · have : ¬ heap.length = x := fun e => hx e.symm
      simp [hx, this]
  refine ⟨_, rfl, ?_, ?_, ?_⟩
  · intro x o' hx
    dsimp only at hx ⊢
    simp only [getElem?_snoc] at hx
    rw [hsc]
    by_cases hxl : x = heap.length
    · subst hxl
      simp only [if_true, Option.some.injEq] at hx
      subst hx
      simp only [if_true]
      refine ⟨?_, ?_⟩
      · rw [a1]; omega
      · rw [a2]; simp
    · simp only [hxl, if_false] at hx
      simp only [hxl, if_false, Nat.add_zero]
      exact h1 x o' hx
  · intro x hx
    dsimp only at hx ⊢
    simp only [getElem?_snoc] at hx
    rw [hsc]
    by_cases hxl : x = heap.length
    · subst hxl
      simp at hx
    · simp only [hxl, if_false] at hx
      simp only [hxl, if_false, Nat.add_zero]
      exact h2 x hx
  · intro k x hk
    dsimp only
    cases k with
    | Matrix =>
      simp only [slotOf, Option.some.injEq] at hk
      subst hk
      exact ⟨a, by simp [getElem?_snoc], a3⟩
    | GlobalVector =>
      obtain ⟨o2, p, q⟩ := h3 .GlobalVector x hk
      have hlt := lt_length_of_get p
      exact ⟨o2, by simp [getElem?_snoc, Nat.ne_of_lt hlt, p], q⟩
    | LocalVector =>
      obtain ⟨o2, p, q⟩ := h3 .LocalVector x hk
      have hlt := lt_length_of_get p
      exact ⟨o2, by simp [getElem?_snoc, Nat.ne_of_lt hlt, p], q⟩

/-- A caller releases a reference it holds. -/
theorem inv_release {dm : DM} {heap : Heap} {ext : List ObjId} (x : ObjId)
    (hI : Inv ⟨dm, heap, ext⟩) (hx : x ∈ ext) :
    ∃ o, heap[x]? = some o ∧ o.freed = false
      ∧ Inv ⟨dm, updObj heap x released, ext.erase x⟩ := by
  have hc : 1 ≤ ext.count x := List.one_le_count_iff.2 hx
  have hI' := hI
  obtain ⟨s, hd, h1, h2, h3⟩ := hI
  dsimp only at hd h1 h2 h3
  obtain ⟨o, ho, hf, hr⟩ := inv_live (w := ⟨dm, heap, ext⟩) hI' hd (x := x)
    (Nat.le_trans hc (Nat.le_add_left _ _))
  dsimp only at ho hr
  refine ⟨o, ho, hf, s, hd, ?_, ?_, ?_⟩
  · intro y o' hy
    dsimp only at hy ⊢
    simp only [getElem?_updObj] at hy
    by_cases hyx : y = x
    · subst hyx
      simp only [if_true, ho, Option.map_some', Option.some.injEq] at hy
      subst hy
      simp only [List.count_erase_self, released, decide_eq_true_eq]
      refine ⟨?_, ?_⟩
      · rw [hr]; omega
      · rw [hr]; omega
    · simp only [hyx, if_false] at hy
      have hne : y ≠ x := hyx
      simp only [List.count_erase_of_ne hne]
      exact h1 y o' hy
  · intro y hy
    dsimp only at hy ⊢
    simp only [getElem?_updObj] at hy
    by_cases hyx : y = x
    · subst hyx
      simp [ho] at hy
    · simp only [hyx, if_false] at hy
      have hne : y ≠ x := hyx
      simp only [List.count_erase_of_ne hne]
      exact h2 y hy
  · intro k y hk
    obtain ⟨o2, a, b⟩ := h3 k y hk
    by_cases hyx : y = x
    · subst hyx
      exact ⟨released o2, by simp [getElem?_updObj, a], b⟩
    · exact ⟨o2, by simp [getElem?_updObj, hyx, a], b⟩

/-- The heap after a setter: the new template referenced, the old slot released. -/
theorem getElem?_setHeap (heap : Heap) (X : ObjId) (v : Option ObjId) (x : ObjId) :
    (match v with
      | none => updObj heap X referenced
      | some p => updObj (updObj heap X referenced) p released)[x]?
      = (if v = some x then Option.map released else id)
          ((if x = X then Option.map referenced else id) heap[x]?) := by
  cases v with
  | none => by_cases hx : x = X <;> simp [getElem?_updObj, hx]
  | some p =>
    by_cases hp : x = p
    · subst hp
      by_cases hx : x = X <;> simp [getElem?_updObj, hx]
    · have hp' : ¬ p = x := fun e => hp e.symm
      by_cases hx : x = X
      · subst hx
        simp [getElem?_updObj, hp, hp']
      · simp [getElem?_updObj, hx, hp, hp']

/-- A live object of the right class becomes the template of a kind. -/
theorem inv_set {dm : DM} {heap : Heap} {ext : List ObjId} {s : DM_Shell}
    (k : Kind) (X : ObjId) (o : PetscObject)
    (hI : Inv ⟨dm, heap, ext⟩) (hd : dm.data = some s)
    (hX : heap[X]? = some o) (hf : o.freed = false) (hc : o.classid = classOf k) :
    Inv ⟨{ dm with data := some (setSlot s k (some X)) },
      (match slotOf s k with
        | none => updObj heap X referenced
        | some p => updObj (updObj heap X referenced) p released), ext⟩ := by
  obtain ⟨s', hd', h1, h2, h3⟩ := hI
  dsimp only at hd' h1 h2 h3
  rw [hd] at hd'
  cases hd'
  refine ⟨_, rfl, ?_, ?_, ?_⟩
  · intro x o' hx
    dsimp only at hx ⊢
    rw [getElem?_setHeap] at hx
    have hsc := slotCount_setSlot s k (some X) x
    cases ho : heap[x]? with
    | none =>
      by_cases b : x = X
      · subst b
        rw [hX] at ho
        cases ho
      · by_cases a : slotOf s k = some x <;> simp [ho, a, b] at hx
    | some ox =>
      obtain ⟨r1, r2⟩ := h1 x ox ho
      by_cases a : slotOf s k = some x
      · have hpos := slotCount_pos_of_slot a
        by_cases b : x = X
        · subst b
          simp only [a, if_true, ho, Option.map_some', Option.some.injEq] at hx
          subst hx
          simp only [a, if_true] at hsc
          simp only [released, referenced, decide_eq_true_eq]
          constructor <;> omega
        · have b' : ¬ (some X = some x) := fun e => b (Option.some.inj e).symm
          simp only [a, b, if_true, if_false, ho, Option.map_some', id, Option.some.injEq] at hx
          subst hx
          simp only [a, b', if_true, if_false] at hsc
          simp only [released, decide_eq_true_eq]
          constructor <;> omega
      · by_cases b : x = X
        · subst b
          simp only [a, if_true, if_false, ho, Option.map_some', id, Option.some.injEq] at hx
          subst hx
          simp only [a, if_true, if_false] at hsc
          rw [hX] at ho
          cases ho
          simp only [referenced, hf]
          constructor
          · omega
          · simp; omega
        · have b' : ¬ (some X = some x) := fun e => b (Option.some.inj e).symm
          simp only [a, b, if_false, ho, id, Option.some.injEq] at hx
          subst hx
          simp only [a, b', if_false] at hsc
          constructor
          · omega
          · rw [r2]; omega
  · intro x hx
    dsimp only at hx ⊢
    rw [getElem?_setHeap] at hx
    have hsc := slotCount_setSlot s k (some X) x
    cases ho : heap[x]? with
    | some ox =>
      by_cases b : x = X
      · subst b
        by_cases a : slotOf s k = some x <;> simp [hX, a] at hx
      · by_cases a : slotOf s k = some x <;> simp [ho, a, b] at hx
    | none =>
      have r := h2 x ho
      have a : ¬ slotOf s k = some x := by
        intro a
        have := slotCount_pos_of_slot a
        omega
      have b : ¬ (some X = some x) := by
        intro e
        have e' := Option.some.inj e
        subst e'
        rw [hX] at ho
        cases ho
      simp only [a, b, if_false] at hsc
      omega
  · intro k' x hk
    dsimp only at hk ⊢
    rw [slotOf_setSlot] at hk
    have hcls : ∀ (y : ObjId) (oy : PetscObject) (c : ClassId), heap[y]? = some oy →
        oy.classid = c →
        ∃ o', (match slotOf s k with
          | none => updObj heap X referenced
          | some p => updObj (updObj heap X referenced) p released)[y]? = some o'
          ∧ o'.classid = c := by
      intro y oy c hy hcy
      rw [getElem?_setHeap, hy]
      by_cases b : y = X
      · subst b
        by_cases a : slotOf s k = some y <;> simp [a, released, referenced, hcy]
      · by_cases a : slotOf s k = some y <;> simp [a, b, released, referenced, hcy]
    by_cases hkk : k' = k
    · simp only [hkk, if_true, Option.some.injEq] at hk
      subst hk
      subst hkk
      exact hcls X o _ hX hc
    · simp only [hkk, if_false] at hk
      obtain ⟨o2, p, q⟩ := h3 k' x hk
      exact hcls x o2 _ p q

/-! ## Every creation call is safe for the callers -/

theorem give_exclusive (dm : DM) (heap : Heap) (mtype : Option String) (A : ObjId)
    (o : PetscObject) (hX : heap[A]? = some o) (hf : o.freed = false)
    (hc : o.classid = .MAT_CLASSID)
    (ht : DMCreateMatrix_Shell_typecheck o.type_name mtype = .ok) (hr : o.refct < 2) :
    DMCreateMatrix_Shell_give dm heap A mtype
      = ⟨.ok, some A, dm, updObj heap A (handedOut o.dm)⟩ := by
  simp [DMCreateMatrix_Shell_give, hX, ht, hr, PetscObjectReference, PetscValidHeader, hf,
    MatZeroEntries, PetscValidHeaderSpecific, getElem?_updObj, hc, referenced]
  apply heap_ext
  intro j
  by_cases hj : j = A
  · simp [getElem?_updObj, hj, hX, zeroVals, handedOut, referenced]
  · simp [getElem?_updObj, hj]

theorem give_shared (dm : DM) (heap : Heap) (mtype : Option String) (A : ObjId)
    (o : PetscObject) (hX : heap[A]? = some o) (hf : o.freed = false)
    (hc : o.classid = .MAT_CLASSID)
    (ht : DMCreateMatrix_Shell_typecheck o.type_name mtype = .ok) (hr : 2 ≤ o.refct) :
    DMCreateMatrix_Shell_give dm heap A mtype
      = ⟨.ok, some heap.length, dm, heap ++ [cloned none o]⟩ := by
  have hr' : ¬ o.refct < 2 := by omega
  simp [DMCreateMatrix_Shell_give, hX, ht, hr', MatDuplicate, MatZeroEntries,
    PetscValidHeaderSpecific, hf, hc, alloc_fst, alloc_snd, getElem?_snoc, updObj_snoc, cloneOf,
    zeroVals, cloned]

theorem give_reject (dm : DM) (heap : Heap) (mtype : Option String) (A : ObjId)
    (o : PetscObject) (hX : heap[A]? = some o)
    (ht : DMCreateMatrix_Shell_typecheck o.type_name mtype ≠ .ok) :
    DMCreateMatrix_Shell_give dm heap A mtype
      = ⟨DMCreateMatrix_Shell_typecheck o.type_name mtype, none, dm, heap⟩ := by
  simp only [DMCreateMatrix_Shell_give, hX]

theorem typecheck_ne_fault (tn mtype : Option String) :
    DMCreateMatrix_Shell_typecheck tn mtype ≠ .fault := by
  unfold DMCreateMatrix_Shell_typecheck
  cases mtype with
  | none => simp
  | some t =>
    simp only
    split
    · split
      · simp
      · simp
    · simp

/-- Hand-out of a held template of any kind, in a world with exact counts. -/
theorem handout_good {dm : DM} {heap : Heap} {ext : List ObjId} {s : DM_Shell}
    (k : Kind) (X : ObjId) (r : Ret) (hI : Inv ⟨dm, heap, ext⟩) (hd : dm.data = some s)
    (hs : slotOf s k = some X)
    (hex : ∀ o, heap[X]? = some o → o.freed = false → o.classid = classOf k → o.refct < 2 →
      ∃ d, r = ⟨.ok, some X, dm, updObj heap X (handedOut d)⟩)
    (hsh : ∀ o, heap[X]? = some o → o.freed = false → o.classid = classOf k → 2 ≤ o.refct →
      ∃ d, r = ⟨.ok, some heap.length, dm, heap ++ [cloned d o]⟩) :
    GoodGet dm heap ext k r := by
  have hpos := slotCount_pos_of_slot hs
  obtain ⟨o, ho, hf, hr⟩ := inv_live (w := ⟨dm, heap, ext⟩) hI hd (x := X)
    (Nat.le_trans hpos (Nat.le_add_right _ _))
  dsimp only at ho hr
  have hcl : o.classid = classOf k := by
    obtain ⟨s', hd', _, _, h3⟩ := hI
    dsimp only at hd' h3
    rw [hd] at hd'
    cases hd'
    obtain ⟨o2, a, b⟩ := h3 k X hs
    rw [ho] at a
    cases a
    exact b
  by_cases hlt : o.refct < 2
  · obtain ⟨d, hr'⟩ := hex o ho hf hcl hlt
    subst hr'
    refine ⟨by simp, fun _ => ⟨X, rfl, ?_, ?_, Or.inr ⟨s, hd, hs⟩⟩, fun h => absurd rfl h⟩
    · have : List.count X ext = 0 := by omega
      exact List.count_eq_zero.1 this
    · exact inv_ref_ext (handedOut d) hI ho hf rfl rfl rfl
  · obtain ⟨d, hr'⟩ := hsh o ho hf hcl (by omega)
    subst hr'
    refine ⟨by simp, fun _ => ⟨heap.length, rfl, ?_, ?_, Or.inl (Nat.le_refl _)⟩,
      fun h => absurd rfl h⟩
    · obtain ⟨s', hd', _, h2, _⟩ := hI
      dsimp only at hd' h2
      have := h2 heap.length (get_length_none heap)
      have hz : List.count heap.length ext = 0 := by omega
      exact List.count_eq_zero.1 hz
    · exact inv_alloc_ext (cloned d o) hI rfl rfl

theorem vec_good {dm : DM} {heap : Heap} {ext : List ObjId} {s : DM_Shell}
    (k : Kind) (X : ObjId) (hI : Inv ⟨dm, heap, ext⟩) (hd : dm.data = some s)
    (hs : slotOf s k = some X) (hk : classOf k = .VEC_CLASSID) :
    GoodGet dm heap ext k (shellVecHandOut dm heap X) :=
  handout_good k X _ hI hd hs
    (fun o ho hf hc hr => ⟨some dm.id, vec_exclusive dm heap X o ho hf (hc.trans hk) hr⟩)
    (fun o ho hf hc hr => ⟨some dm.id, vec_shared dm heap X o ho hf (hc.trans hk) hr⟩)

theorem give_good {dm : DM} {heap : Heap} {ext : List ObjId} {s : DM_Shell}
    (A : ObjId) (mtype : Option String) (hI : Inv ⟨dm, heap, ext⟩) (hd : dm.data = some s)
    (hs : s.A = some A) :
    GoodGet dm heap ext .Matrix (DMCreateMatrix_Shell_give dm heap A mtype) := by
  have hs' : slotOf s .Matrix = some A := hs
  have hpos := slotCount_pos_of_slot hs'
  obtain ⟨o, ho, hf, hr⟩ := inv_live (w := ⟨dm, heap, ext⟩) hI hd (x := A)
    (Nat.le_trans hpos (Nat.le_add_right _ _))
  dsimp only at ho
  by_cases ht : DMCreateMatrix_Shell_typecheck o.type_name mtype = .ok
  · refine handout_good .Matrix A _ hI hd hs' ?_ ?_
    · intro o' ho' hf' hc' hr'
      rw [ho] at ho'
      cases ho'
      exact ⟨o.dm, give_exclusive dm heap mtype A o ho hf hc' ht hr'⟩
    · intro o' ho' hf' hc' hr'
      rw [ho] at ho'
      cases ho'
      exact ⟨none, give_shared dm heap mtype A o ho hf hc' ht hr'⟩
  · rw [give_reject dm heap mtype A o ho ht]
    exact ⟨typecheck_ne_fault _ _, fun h => absurd h ht, fun _ => hI⟩

theorem dm_data_eq {dm : DM} {s : DM_Shell} (hd : dm.data = some s) :
    ({ dm with data := some s } : DM) = dm := by
  cases dm
  simp_all

theorem provide_good {dm : DM} {heap : Heap} {ext : List ObjId} {s : DM_Shell}
    (lib : PetscLib) (mtype : Option String) (hI : Inv ⟨dm, heap, ext⟩)
    (hd : dm.data = some s) :
    (DMCreateMatrix_Shell_provide lib s heap mtype).1 ≠ .fault
      ∧ Inv ⟨{ dm with data := some (DMCreateMatrix_Shell_provide lib s heap mtype).2.1 },
          (DMCreateMatrix_Shell_provide lib s heap mtype).2.2, ext⟩
      ∧ ((DMCreateMatrix_Shell_provide lib s heap mtype).1 = .ok →
          ∃ A, (DMCreateMatrix_Shell_provide lib s heap mtype).2.1.A = some A)
      ∧ heap.length ≤ (DMCreateMatrix_Shell_provide lib s heap mtype).2.2.length
      ∧ ((DMCreateMatrix_Shell_provide lib s heap mtype).2.1 = s
          ∨ (DMCreateMatrix_Shell_provide lib s heap mtype).2.1.A = some heap.length) := by
  cases hA : s.A with
  | some A =>
    rw [provide_held lib s heap mtype A hA]
    refine ⟨by simp, ?_, fun _ => ⟨A, hA⟩, Nat.le_refl _, Or.inl rfl⟩
    rw [dm_data_eq hd]
    exact hI
  | none =>
    cases hG : s.Xglobal with
    | none =>
      have e : DMCreateMatrix_Shell_provide lib s heap mtype
          = (.error .PETSC_ERR_USER
              "Must call DMShellSetMatrix(), DMShellSetCreateMatrix(), or provide a vector",
              s, heap) := by
        simp [DMCreateMatrix_Shell_provide, hA, hG]
      rw [e]
      refine ⟨by simp, ?_, fun h => Status.noConfusion h, Nat.le_refl _, Or.inl rfl⟩
      rw [dm_data_eq hd]
      exact hI
    | some xg =>
      have hs : slotOf s .GlobalVector = some xg := hG
      have hpos := slotCount_pos_of_slot hs
      obtain ⟨v, hv, hf, _⟩ := inv_live (w := ⟨dm, heap, ext⟩) hI hd (x := xg)
        (Nat.le_trans hpos (Nat.le_add_right _ _))
      dsimp only at hv
      have hcl : v.classid = .VEC_CLASSID := by
        obtain ⟨s', hd', _, _, h3⟩ := hI
        dsimp only at hd' h3
        rw [hd] at hd'
        cases hd'
        obtain ⟨o2, a, b⟩ := h3 .GlobalVector xg hs
        rw [hv] at a
        cases a
        exact b
      have base := @inv_alloc_slotA dm heap ext s
        (naiveMat v)
        hI hd hA rfl rfl rfl
      cases mtype with
      | none =>
        have e : DMCreateMatrix_Shell_provide lib s heap none
            = (.ok, { s with A := some heap.length },
                updObj (heap ++ [naiveMat v]) heap.length
                  (fun o => { o with type_name := some lib.MatSetUpDefault })) := by
          simp [DMCreateMatrix_Shell_provide, hA, hG, PetscValidHeaderSpecific, hv, hf, hcl,
            alloc_fst, alloc_snd, naiveMat]
        rw [e]
        refine ⟨by simp, ?_, fun _ => ⟨heap.length, rfl⟩, by simp [length_updObj], Or.inr rfl⟩
        exact inv_upd_neutral _ _ base (fun _ => rfl) (fun _ => rfl) (fun _ => rfl)
      | some t =>
        cases hT : lib.MatSetType t with
        | none =>
          have e : DMCreateMatrix_Shell_provide lib s heap (some t)
              = (.error .PETSC_ERR_ARG_UNKNOWN_TYPE "Unknown Mat type given",
                  { s with A := some heap.length },
                  heap ++ [naiveMat v]) := by
            simp [DMCreateMatrix_Shell_provide, hA, hG, PetscValidHeaderSpecific, hv, hf, hcl,
              alloc_fst, alloc_snd, hT, naiveMat]
          rw [e]
          exact ⟨by simp, base, fun h => Status.noConfusion h, by simp, Or.inr rfl⟩
        | some impl =>
          have e : DMCreateMatrix_Shell_provide lib s heap (some t)
              = (.ok, { s with A := some heap.length },
                  updObj (heap ++ [naiveMat v]) heap.length
                    (fun o => { o with type_name := some impl })) := by
            simp [DMCreateMatrix_Shell_provide, hA, hG, PetscValidHeaderSpecific, hv, hf, hcl,
              alloc_fst, alloc_snd, hT, naiveMat]
          rw [e]
          refine ⟨by simp, ?_, fun _ => ⟨heap.length, rfl⟩, by simp [length_updObj], Or.inr rfl⟩
          exact inv_upd_neutral _ _ base (fun _ => rfl) (fun _ => rfl) (fun _ => rfl)

theorem mat_good {dm : DM} {heap : Heap} {ext : List ObjId}
    (lib : PetscLib) (mtype : Option String) (hI : Inv ⟨dm, heap, ext⟩) :
    GoodGet dm heap ext .Matrix (DMCreateMatrix_Shell lib dm heap mtype) := by
  obtain ⟨s, hd, _⟩ := id hI
  dsimp only at hd
  obtain ⟨p1, p2, p3, p4, p5⟩ := provide_good lib mtype hI hd
  cases hp : (DMCreateMatrix_Shell_provide lib s heap mtype).1 with
  | ok =>
    obtain ⟨A, hA⟩ := p3 hp
    have e : DMCreateMatrix_Shell lib dm heap mtype
        = DMCreateMatrix_Shell_give
            { dm with data := some (DMCreateMatrix_Shell_provide lib s heap mtype).2.1 }
            (DMCreateMatrix_Shell_provide lib s heap mtype).2.2 A mtype := by
      simp [DMCreateMatrix_Shell, hd, hp, hA]
    rw [e]
    obtain ⟨g1, g2, g3⟩ := give_good A mtype p2 rfl hA
    refine ⟨g1, fun hok => ?_, g3⟩
    obtain ⟨h, a1, a2, a3, a4⟩ := g2 hok
    refine ⟨h, a1, a2, a3, ?_⟩
    rcases a4 with a4 | ⟨s1, b1, b2⟩
    · exact Or.inl (Nat.le_trans p4 a4)
    · dsimp only at b1
      cases b1
      rcases p5 with p5 | p5
      · rw [p5] at b2
        exact Or.inr ⟨s, hd, b2⟩
      · have b2' : (DMCreateMatrix_Shell_provide lib s heap mtype).2.1.A = some h := b2
        rw [p5] at b2'
        cases b2'
        exact Or.inl (Nat.le_refl _)
  | fault => exact absurd hp p1
  | error kind msg =>
    have e : DMCreateMatrix_Shell lib dm heap mtype
        = ⟨.error kind msg, none,
            { dm with data := some (DMCreateMatrix_Shell_provide lib s heap mtype).2.1 },
            (DMCreateMatrix_Shell_provide lib s heap mtype).2.2⟩ := by
      simp [DMCreateMatrix_Shell, hd, hp]
    rw [e]
    exact ⟨by simp, fun h => Status.noConfusion h, fun _ => p2⟩

/-- Every default creation routine is safe in a world with exact counts. -/
theorem get_good (lib : PetscLib) (k : Kind) (mtype : Option String) (w : World) (hI : Inv w) :
    GoodGet w.dm w.heap w.ext k (GetOrCreate lib k w.dm w.heap mtype) := by
  obtain ⟨s, hd, _⟩ := id hI
  cases k with
  | Matrix => exact mat_good lib mtype hI
  | GlobalVector =>
    cases hs : s.Xglobal with
    | none =>
      have e : GetOrCreate lib .GlobalVector w.dm w.heap mtype
          = ⟨.error .PETSC_ERR_USER (missingMessage .GlobalVector), none, w.dm, w.heap⟩ := by
        simp [GetOrCreate, DMCreateGlobalVector_Shell, hd, hs, missingMessage]
      rw [e]
      exact ⟨by simp, fun h => Status.noConfusion h, fun _ => hI⟩
    | some X =>
      have e : GetOrCreate lib .GlobalVector w.dm w.heap mtype = shellVecHandOut w.dm w.heap X := by
        simp [GetOrCreate, DMCreateGlobalVector_Shell, hd, hs]
      rw [e]
      exact vec_good .GlobalVector X hI hd hs rfl
  | LocalVector =>
    cases hs : s.Xlocal with
    | none =>
      have e : GetOrCreate lib .LocalVector w.dm w.heap mtype
          = ⟨.error .PETSC_ERR_USER (missingMessage .LocalVector), none, w.dm, w.heap⟩ := by
        simp [GetOrCreate, DMCreateLocalVector_Shell, hd, hs, missingMessage]
      rw [e]
      exact ⟨by simp, fun h => Status.noConfusion h, fun _ => hI⟩
    | some X =>
      have e : GetOrCreate lib .LocalVector w.dm w.heap mtype = shellVecHandOut w.dm w.heap X := by
        simp [GetOrCreate, DMCreateLocalVector_Shell, hd, hs]
      rw [e]
      exact vec_good .LocalVector X hI hd hs rfl

theorem typeCompare_shell {tn : Option String}
    (h : ¬ PetscObjectTypeCompare tn (some DMSHELL) = false) : tn = some DMSHELL := by
  cases tn with
  | none => simp [PetscObjectTypeCompare] at h
  | some a =>
    simp only [PetscObjectTypeCompare, Bool.not_eq_false, beq_iff_eq] at h
    rw [h]

/-- A setter call keeps the counts exact, whether it succeeds or not. -/
theorem set_good {dm : DM} {heap : Heap} {ext : List ObjId} (k : Kind) (X : ObjId)
    (hI : Inv ⟨dm, heap, ext⟩) :
    (SetTemplate k dm heap X).ierr ≠ .fault
      ∧ Inv ⟨(SetTemplate k dm heap X).dm, (SetTemplate k dm heap X).heap, ext⟩ := by
  obtain ⟨s, hd, _, _, h3⟩ := id hI
  dsimp only at hd h3
  by_cases hv : PetscValidHeaderSpecific heap X (classOf k) = .ok
  · -- X is a live object of the class
    have hlive : ∃ o, heap[X]? = some o ∧ o.freed = false ∧ o.classid = classOf k := by
      unfold PetscValidHeaderSpecific at hv
      cases ho : heap[X]? with
      | none => simp [ho] at hv
      | some o =>
        simp only [ho] at hv
        by_cases hf : o.freed = true
        · simp [hf] at hv
        · by_cases hc : o.classid = classOf k
          · exact ⟨o, rfl, by simpa using hf, hc⟩
          · simp [hf, hc] at hv
    obtain ⟨o, ho, hf, hc⟩ := hlive
    by_cases hsh : PetscObjectTypeCompare dm.type_name (some DMSHELL) = false
    · have e : SetTemplate k dm heap X = ⟨.ok, none, dm, heap⟩ := by
        cases k <;> simp only [classOf] at hv <;>
          simp [SetTemplate, DMShellSetGlobalVector, DMShellSetLocalVector, DMShellSetMatrix,
            hv, hsh]
      rw [e]
      exact ⟨by simp, hI⟩
    · have hp : ∀ p, slotOf s k = some p → Live heap p (classOf k) := by
        intro p hp
        have hpos := slotCount_pos_of_slot hp
        obtain ⟨q, hq, hqf, _⟩ := inv_live (w := ⟨dm, heap, ext⟩) hI hd (x := p)
          (Nat.le_trans hpos (Nat.le_add_right _ _))
        obtain ⟨q2, a, b⟩ := h3 k p hp
        dsimp only at hq
        rw [hq] at a
        cases a
        exact ⟨q, hq, hqf, b⟩
      rw [setTemplate_eq k dm heap X s o (typeCompare_shell hsh) hd ho hf hc hp]
      exact ⟨by simp, inv_set k X o hI hd ho hf hc⟩
  · have e : SetTemplate k dm heap X
        = ⟨PetscValidHeaderSpecific heap X (classOf k), none, dm, heap⟩ := by
      cases k <;> simp only [classOf] at hv ⊢ <;>
        simp only [SetTemplate, DMShellSetGlobalVector, DMShellSetLocalVector, DMShellSetMatrix]
    rw [e]
    refine ⟨?_, hI⟩
    dsimp only
    unfold PetscValidHeaderSpecific
    cases heap[X]? with
    | none => simp
    | some o =>
      dsimp only
      split
      · simp
      · split <;> simp

/-- Every possible operation keeps the counts exact. -/
theorem step_inv (lib : PetscLib) (w w' : World) (op : Op) (hI : Inv w)
    (hs : step lib w op = some w') : Inv w' := by
  cases op with
  | create o =>
    simp only [step, Option.some.injEq] at hs
    subst hs
    exact inv_alloc_ext (cloneOf o) hI rfl rfl
  | setTemplate k x =>
    obtain ⟨g1, g2⟩ := set_good k x hI
    simp only [step] at hs
    simp only [Option.some.injEq] at hs
    subst hs
    exact g2
  | getOrCreate k mtype =>
    obtain ⟨g1, g2, g3⟩ := get_good lib k mtype w hI
    simp only [step] at hs
    split at hs
    · next h hok hout =>
      simp only [Option.some.injEq] at hs
      subst hs
      obtain ⟨h', a1, a2, a3, _⟩ := g2 hok
      rw [hout] at a1
      cases a1
      exact a3
    · cases hs
    · next hno =>
      simp only [Option.some.injEq] at hs
      subst hs
      by_cases hok : (GetOrCreate lib k w.dm w.heap mtype).ierr = .ok
      · obtain ⟨h', a1, _⟩ := g2 hok
        exact absurd a1 (by
          intro a1
          exact hno h' hok a1)
      · exact g3 hok
  | release x =>
    simp only [step] at hs
    split at hs
    · next hx =>
      obtain ⟨o, ho, hf, hinv⟩ := inv_release x hI hx
      have e : releaseHandle w.heap x = (.ok, updObj w.heap x released, none) := by
        simp [releaseHandle, ho, ObjectDestroy, PetscValidHeaderSpecific, hf]
      rw [e] at hs
      simp only [Option.some.injEq] at hs
      subst hs
      exact hinv
    · cases hs

theorem inv_newWorld (id : Nat) : Inv (newWorld id) := by
  refine ⟨_, rfl, ?_, ?_, ?_⟩
  · intro x o hx
    simp [newWorld] at hx
  · intro x _
    simp [newWorld, slotCount]
  · intro k x hk
    cases k <;> simp [slotOf] at hk

theorem run_inv (lib : PetscLib) (ops : List Op) (w w' : World) (hI : Inv w)
    (hr : run lib w ops = some w') : Inv w' := by
  induction ops generalizing w with
  | nil =>
    simp only [run, Option.some.injEq] at hr
    subst hr
    exact hI
  | cons op ops ih =>
    simp only [run] at hr
    cases hs : step lib w op with
    | none => simp [hs] at hr
    | some w1 =>
      simp only [hs] at hr
      exact ih w1 (step_inv lib w w1 op hI hs) hr

/-! ## Claims about the creation routines -/

/-- C2, counterexample: a dense matrix template is held by the shell alone
(reference count 1), yet the matrix routine asked for type aij fails with the
not-same-type error instead of handing the template out. -/
theorem C2_counterexample :
    (exDM none none (some 0)).data
        = some { Xglobal := none, Xlocal := none, A := some 0, gtol := none, ltog := none }
      ∧ [exMat 1 "seqdense"][0]? = some (exMat 1 "seqdense")
      ∧ (exMat 1 "seqdense").refct < 2
      ∧ (GetOrCreate seqLib .Matrix (exDM none none (some 0)) [exMat 1 "seqdense"]
          (some MATAIJ)).ierr
        = .error .PETSC_ERR_ARG_NOTSAMETYPE
            "Requested matrix of type aij, but only seqdense available" := by
  decide

/-- C2, amended: for every kind, if a live template is held, its reference
count is below 2 and (matrix kind) the requested type is acceptable for it,
the default creation routine succeeds, returns that very template, raises its
reference count by exactly one, leaves all its entries zero, and touches no
other object and not the DM. -/
theorem C2_exclusive_hand_out (lib : PetscLib) (k : Kind) (dm : DM) (heap : Heap)
    (mtype : Option String) (shell : DM_Shell) (X : ObjId) (o : PetscObject)
    (hd : dm.data = some shell) (hs : slotOf shell k = some X)
    (hX : heap[X]? = some o) (hf : o.freed = false) (hc : o.classid = classOf k)
    (hr : o.refct < 2) (ht : k = .Matrix → typeAccepted o.type_name mtype) :
    (GetOrCreate lib k dm heap mtype).ierr = .ok
      ∧ (GetOrCreate lib k dm heap mtype).out = some X
      ∧ (GetOrCreate lib k dm heap mtype).dm = dm
      ∧ (∃ o', (GetOrCreate lib k dm heap mtype).heap[X]? = some o'
            ∧ o'.refct = o.refct + 1
            ∧ o'.vals.length = o.vals.length ∧ (∀ v ∈ o'.vals, v = 0)
            ∧ o'.freed = false ∧ o'.classid = o.classid)
      ∧ (∀ j : ObjId, j ≠ X → (GetOrCreate lib k dm heap mtype).heap[j]? = heap[j]?) := by
  have key : ∃ d, GetOrCreate lib k dm heap mtype = ⟨.ok, some X, dm, updObj heap X (handedOut d)⟩ := by
    cases k with
    | GlobalVector =>
      refine ⟨some dm.id, ?_⟩
      simp only [slotOf] at hs
      simp [GetOrCreate, DMCreateGlobalVector_Shell, hd, hs, vec_exclusive dm heap X o hX hf hc hr]
    | LocalVector =>
      refine ⟨some dm.id, ?_⟩
      simp only [slotOf] at hs
      simp [GetOrCreate, DMCreateLocalVector_Shell, hd, hs, vec_exclusive dm heap X o hX hf hc hr]
    | Matrix =>
      exact ⟨o.dm, mat_exclusive lib dm shell heap mtype X o hd hs hX hf hc (ht rfl) hr⟩
  obtain ⟨d, hk⟩ := key
  rw [hk]
  refine ⟨rfl, rfl, rfl, ⟨handedOut d o, ?_, rfl, ?_, ?_, hf, rfl⟩, ?_⟩
  · simp [getElem?_updObj, hX]
  · simp [handedOut]
  · intro v hv
    simp only [handedOut] at hv
    exact List.eq_of_mem_replicate hv
  · intro j hj
    simp [getElem?_updObj, hj]

/-- C2, witness: a sequential AIJ matrix held by the shell alone, requested
as generic aij. -/
theorem C2_exclusive_hand_out_witness :
    (GetOrCreate seqLib .Matrix (exDM none none (some 0)) [exMat 1 "seqaij"] (some "aij")).ierr = .ok
      ∧ (GetOrCreate seqLib .Matrix (exDM none none (some 0)) [exMat 1 "seqaij"] (some "aij")).out
          = some 0 :=
  have h := C2_exclusive_hand_out seqLib .Matrix (exDM none none (some 0)) [exMat 1 "seqaij"]
    (some "aij") { Xglobal := none, Xlocal := none, A := some 0, gtol := none, ltog := none }
    0 (exMat 1 "seqaij") rfl rfl rfl rfl rfl (by decide)
    (fun _ t ht => Or.inr (by
      have : t = "aij" := by simpa using ht.symm
      subst this
      exact ⟨rfl, Or.inl rfl⟩))
  ⟨h.1, h.2.1⟩

/-- C3, counterexample: a dense matrix template is also held by a caller
(reference count 2), yet the matrix routine asked for type aij fails with the
not-same-type error instead of returning a clone. -/
theorem C3_counterexample :
    (exDM none none (some 0)).data
        = some { Xglobal := none, Xlocal := none, A := some 0, gtol := none, ltog := none }
      ∧ [exMat 2 "seqdense"][0]? = some (exMat 2 "seqdense")
      ∧ 2 ≤ (exMat 2 "seqdense").refct
      ∧ (GetOrCreate seqLib .Matrix (exDM none none (some 0)) [exMat 2 "seqdense"]
          (some MATAIJ)).ierr
        = .error .PETSC_ERR_ARG_NOTSAMETYPE
            "Requested matrix of type aij, but only seqdense available"
      ∧ (GetOrCreate seqLib .Matrix (exDM none none (some 0)) [exMat 2 "seqdense"]
          (some MATAIJ)).out = none := by
  decide

/-- C3, amended: for every kind, if a live template is held, its reference
count is 2 or more and (matrix kind) the requested type is acceptable for it,
the default creation routine succeeds and returns a freshly allocated object,
distinct from the template and from every object of the heap, with the
class, type name and sizes of the template, as many entries as the template,
all of them zero, held exactly once; the template and all other objects are
unchanged. -/
theorem C3_shared_hand_out (lib : PetscLib) (k : Kind) (dm : DM) (heap : Heap)
    (mtype : Option String) (shell : DM_Shell) (X : ObjId) (o : PetscObject)
    (hd : dm.data = some shell) (hs : slotOf shell k = some X)
    (hX : heap[X]? = some o) (hf : o.freed = false) (hc : o.classid = classOf k)
    (hr : 2 ≤ o.refct) (ht : k = .Matrix → typeAccepted o.type_name mtype) :
    (GetOrCreate lib k dm heap mtype).ierr = .ok
      ∧ (GetOrCreate lib k dm heap mtype).out = some heap.length
      ∧ heap.length ≠ X ∧ heap[heap.length]? = none
      ∧ (GetOrCreate lib k dm heap mtype).dm = dm
      ∧ (∃ c, (GetOrCreate lib k dm heap mtype).heap[heap.length]? = some c
            ∧ c.classid = o.classid ∧ c.type_name = o.type_name
            ∧ c.m = o.m ∧ c.n = o.n ∧ c.M = o.M ∧ c.N = o.N
            ∧ c.vals.length = o.vals.length ∧ (∀ v ∈ c.vals, v = 0)
            ∧ c.refct = 1 ∧ c.freed = false)
      ∧ (∀ j : ObjId, j ≠ heap.length →
            (GetOrCreate lib k dm heap mtype).heap[j]? = heap[j]?) := by
  have key : ∃ d, GetOrCreate lib k dm heap mtype
      = ⟨.ok, some heap.length, dm, heap ++ [cloned d o]⟩ := by
    cases k with
    | GlobalVector =>
      refine ⟨some dm.id, ?_⟩
      simp only [slotOf] at hs
      simp [GetOrCreate, DMCreateGlobalVector_Shell, hd, hs, vec_shared dm heap X o hX hf hc hr]
    | LocalVector =>
      refine ⟨some dm.id, ?_⟩
      simp only [slotOf] at hs
      simp [GetOrCreate, DMCreateLocalVector_Shell, hd, hs, vec_shared dm heap X o hX hf hc hr]
    | Matrix =>
      exact ⟨none, mat_shared lib dm shell heap mtype X o hd hs hX hf hc (ht rfl) hr⟩
  obtain ⟨d, hk⟩ := key
  rw [hk]
  have hlt := lt_length_of_get hX
  refine ⟨rfl, rfl, Nat.ne_of_gt hlt, get_length_none heap, rfl,
    ⟨cloned d o, ?_, rfl, rfl, rfl, rfl, rfl, rfl, ?_, ?_, rfl, rfl⟩, ?_⟩
  · simp [getElem?_snoc]
  · simp [cloned]
  · intro v hv
    simp only [cloned] at hv
    exact List.eq_of_mem_replicate hv
  · intro j hj
    simp [getElem?_snoc, hj]

/-- C3, witness: a global vector template that a caller still holds
(reference count 2); the clone is object 1. -/
theorem C3_shared_hand_out_witness :
    (GetOrCreate seqLib .GlobalVector (exDM (some 0) none none) [exVec 2] none).ierr = .ok
      ∧ (GetOrCreate seqLib .GlobalVector (exDM (some 0) none none) [exVec 2] none).out
          = some 1 :=
  have h := C3_shared_hand_out seqLib .GlobalVector (exDM (some 0) none none) [exVec 2]
    none { Xglobal := some 0, Xlocal := none, A := none, gtol := none, ltog := none }
    0 (exVec 2) rfl rfl rfl rfl rfl (by decide) (fun hk => by cases hk)
  ⟨h.1, h.2.1⟩

/-- C5, counterexample: no matrix template is held, but a global vector
template is; the matrix routine does not fail: it builds a matrix from the
vector (object 1) and returns it. -/
theorem C5_counterexample :
    slotOf { Xglobal := some 0, Xlocal := none, A := none, gtol := none, ltog := none } .Matrix
        = none
      ∧ (GetOrCreate seqLib .Matrix (exDM (some 0) none none) [exVec 1] none).ierr = .ok
      ∧ (GetOrCreate seqLib .Matrix (exDM (some 0) none none) [exVec 1] none).out = some 1 := by
  decide

/-- C5, amended: for the two vector kinds, calling the default creation
routine while no template of that kind is held, and for the matrix kind while
neither a matrix template nor a global vector template is held, fails with a
user error whose message names the setters of that kind, returns no object
and changes nothing. -/
theorem C5_template_missing (lib : PetscLib) (k : Kind) (dm : DM) (heap : Heap)
    (mtype : Option String) (shell : DM_Shell)
    (hd : dm.data = some shell) (hs : slotOf shell k = none)
    (hm : k = .Matrix → shell.Xglobal = none) :
    GetOrCreate lib k dm heap mtype
      = ⟨.error .PETSC_ERR_USER (missingMessage k), none, dm, heap⟩ := by
  cases k with
  | GlobalVector =>
    simp only [slotOf] at hs
    simp [GetOrCreate, DMCreateGlobalVector_Shell, hd, hs, missingMessage]
  | LocalVector =>
    simp only [slotOf] at hs
    simp [GetOrCreate, DMCreateLocalVector_Shell, hd, hs, missingMessage]
  | Matrix =>
    simp only [slotOf] at hs
    have hdm : ({ dm with data := some shell } : DM) = dm := by cases dm; simp_all
    simp [GetOrCreate, DMCreateMatrix_Shell, DMCreateMatrix_Shell_provide, hd, hs, hm rfl,
      missingMessage, hdm]

/-- C5, witness: a freshly created shell asked for a matrix. -/
theorem C5_template_missing_witness :
    GetOrCreate seqLib .Matrix (DMShellCreate 7) [] (some "aij")
      = ⟨.error .PETSC_ERR_USER
          "Must call DMShellSetMatrix(), DMShellSetCreateMatrix(), or provide a vector",
          none, DMShellCreate 7, []⟩ :=
  C5_template_missing seqLib .Matrix (DMShellCreate 7) [] (some "aij")
    { Xglobal := none, Xlocal := none, A := none, gtol := none, ltog := none }
    rfl rfl (fun _ => rfl)

/-! ## Claims about the setters and the teardown -/

/-- C6, counterexample: the vector (reference count 2) is already the held
global vector template; after DMShellSetGlobalVector with that same vector its
reference count is still 2, not 3. -/
theorem C6_counterexample :
    (exDM (some 0) none none).data
        = some { Xglobal := some 0, Xlocal := none, A := none, gtol := none, ltog := none }
      ∧ [exVec 2][0]? = some (exVec 2)
      ∧ (exVec 2).refct = 2
      ∧ (SetTemplate .GlobalVector (exDM (some 0) none none) [exVec 2] 0).ierr = .ok
      ∧ Option.map PetscObject.refct
          (SetTemplate .GlobalVector (exDM (some 0) none none) [exVec 2] 0).heap[0]? = some 2 := by
  decide

/-- C6, amended: on a shell DM, for every kind and every live object X of that
kind's class, the setter succeeds and makes X the held template of that kind;
X's reference count is increased by exactly one, unless X already was the
held template of that kind, in which case it is unchanged; a previously held
template different from X has its reference count decreased by exactly one;
the templates of the other two kinds, the scatter pointers, the operation
table and every other object are unchanged. -/
theorem C6_set_template (k : Kind) (dm : DM) (heap : Heap) (X : ObjId) (shell : DM_Shell)
    (o : PetscObject)
    (hsh : dm.type_name = some DMSHELL) (hd : dm.data = some shell)
    (hX : heap[X]? = some o) (hf : o.freed = false) (hc : o.classid = classOf k)
    (hp : ∀ p, slotOf shell k = some p → Live heap p (classOf k)) :
    (SetTemplate k dm heap X).ierr = .ok
      ∧ (∃ s', (SetTemplate k dm heap X).dm.data = some s'
            ∧ slotOf s' k = some X
            ∧ (∀ k', k' ≠ k → slotOf s' k' = slotOf shell k')
            ∧ s'.gtol = shell.gtol ∧ s'.ltog = shell.ltog)
      ∧ (SetTemplate k dm heap X).dm.ops = dm.ops
      ∧ (∃ o', (SetTemplate k dm heap X).heap[X]? = some o'
            ∧ o'.refct = (if slotOf shell k = some X then o.refct else o.refct + 1)
            ∧ (1 ≤ o.refct → o'.freed = false))
      ∧ (∀ p op, slotOf shell k = some p → p ≠ X → heap[p]? = some op →
            ∃ op', (SetTemplate k dm heap X).heap[p]? = some op'
              ∧ op'.refct = op.refct - 1)
      ∧ (∀ j : ObjId, j ≠ X → slotOf shell k ≠ some j →
            (SetTemplate k dm heap X).heap[j]? = heap[j]?) := by
  rw [setTemplate_eq k dm heap X shell o hsh hd hX hf hc hp]
  refine ⟨rfl, ⟨setSlot shell k (some X), rfl, ?_, ?_, ?_, ?_⟩, rfl, ?_, ?_, ?_⟩
  · cases k <;> rfl
  · intro k' hk
    cases k <;> cases k' <;> first | rfl | exact absurd rfl hk
  · cases k <;> rfl
  · cases k <;> rfl
  · cases hs : slotOf shell k with
    | none =>
      exact ⟨referenced o, by simp [getElem?_updObj, hX], by simp [referenced], fun _ => hf⟩
    | some p =>
      by_cases hpx : p = X
      · subst hpx
        refine ⟨released (referenced o), by simp [getElem?_updObj, hX], ?_, ?_⟩
        · simp [released, referenced]
        · intro h1
          simp only [released, referenced, decide_eq_false_iff_not]
          omega
      · have hne : ¬ (some p = some X) := fun e => hpx (Option.some.inj e)
        refine ⟨referenced o, ?_, by simp [referenced, hne], fun _ => hf⟩
        have hxp : ¬ X = p := fun e => hpx e.symm
        simp [getElem?_updObj, hX, hxp]
  · intro p op hs hpx hop
    refine ⟨released op, ?_, rfl⟩
    simp [hs, getElem?_updObj, hpx, hop]
  · intro j hj hs
    cases hs' : slotOf shell k with
    | none => simp [getElem?_updObj, hj]
    | some p =>
      have hjp : ¬ j = p := fun e => hs (by rw [hs', e])
      simp [getElem?_updObj, hj, hjp]

/-- C6, witness: a second vector replaces the held global vector template of
a shell that also holds a matrix template. -/
theorem C6_set_template_witness :
    (SetTemplate .GlobalVector (exDM (some 0) none (some 2)) [exVec 1, exVec 1, exMat 1 "seqaij"] 1).ierr
        = .ok
      ∧ (SetTemplate .GlobalVector (exDM (some 0) none (some 2))
          [exVec 1, exVec 1, exMat 1 "seqaij"] 1).dm.ops = (exDM (some 0) none (some 2)).ops :=
  have h := C6_set_template .GlobalVector (exDM (some 0) none (some 2))
    [exVec 1, exVec 1, exMat 1 "seqaij"] 1
    { Xglobal := some 0, Xlocal := none, A := some 2, gtol := none, ltog := none }
    (exVec 1) rfl rfl rfl rfl rfl
    (fun p hp => ⟨exVec 1, by
      have : p = 0 := by simpa [slotOf] using hp.symm
      subst this
      exact ⟨rfl, rfl, rfl⟩⟩)
  ⟨h.1, h.2.2.1⟩

/-- C7, counterexample: a shell holding one global vector template is torn
down (successfully, the record is freed); a second DMDestroy_Shell on the
torn-down DM does not succeed: it reads the freed record. -/
theorem C7_counterexample :
    (DMDestroy_Shell (exDM (some 0) none none) [exVec 1]).ierr = .ok
      ∧ (DMDestroy_Shell (DMDestroy_Shell (exDM (some 0) none none) [exVec 1]).dm
          (DMDestroy_Shell (exDM (some 0) none none) [exVec 1]).heap).ierr = .fault := by
  decide

/-- C7, amended: on a shell whose held templates are live objects carrying at
least the references the slots hold, DMDestroy_Shell succeeds, decrements the
reference count of every object once for each slot (matrix, global vector,
local vector) that holds it, leaves every other object untouched, and frees
the record, so that no slot is left to be released again; it is not
idempotent: a second DMDestroy_Shell on the torn-down DM does not succeed. -/
theorem C7_teardown (dm : DM) (heap : Heap) (shell : DM_Shell)
    (hd : dm.data = some shell)
    (hA : ∀ x, shell.A = some x → Live heap x .MAT_CLASSID)
    (hG : ∀ x, shell.Xglobal = some x → Live heap x .VEC_CLASSID)
    (hL : ∀ x, shell.Xlocal = some x → Live heap x .VEC_CLASSID)
    (hn : ∀ x o, heap[x]? = some o → (slotCount shell x : Int) ≤ o.refct) :
    (DMDestroy_Shell dm heap).ierr = .ok
      ∧ (DMDestroy_Shell dm heap).dm.data = none
      ∧ (DMDestroy_Shell dm heap).dm.ops = dm.ops
      ∧ (∀ x o, heap[x]? = some o →
            ∃ o', (DMDestroy_Shell dm heap).heap[x]? = some o'
              ∧ o'.refct = o.refct - (slotCount shell x : Int)
              ∧ (slotCount shell x = 0 → o' = o))
      ∧ (DMDestroy_Shell dm heap).heap.length = heap.length
      ∧ (DMDestroy_Shell (DMDestroy_Shell dm heap).dm (DMDestroy_Shell dm heap).heap).ierr
          = .fault := by
  rw [destroy_shell_eq dm heap shell hd hA hG hL hn]
  refine ⟨rfl, rfl, rfl, ?_, ?_, ?_⟩
  · intro x o hx
    simp only [getElem?_releaseSlot, hx, slotCount]
    by_cases h1 : shell.A = some x <;> by_cases h2 : shell.Xglobal = some x <;>
      by_cases h3 : shell.Xlocal = some x <;>
      simp [h1, h2, h3, released] <;> omega
  · cases hA' : shell.A <;> cases hG' : shell.Xglobal <;> cases hL' : shell.Xlocal <;>
      simp [releaseSlot, length_updObj]
  · simp [DMDestroy_Shell]

/-- C7, witness: a shell holding a matrix and one vector in both vector slots. -/
theorem C7_teardown_witness :
    (DMDestroy_Shell (exDM (some 0) (some 0) (some 1)) [exVec 3, exMat 1 "seqaij"]).ierr = .ok
      ∧ (DMDestroy_Shell (exDM (some 0) (some 0) (some 1)) [exVec 3, exMat 1 "seqaij"]).dm.data
          = none :=
  have h := C7_teardown (exDM (some 0) (some 0) (some 1)) [exVec 3, exMat 1 "seqaij"]
    { Xglobal := some 0, Xlocal := some 0, A := some 1, gtol := none, ltog := none } rfl
    (fun x hx => by
      have : x = 1 := by simpa using hx.symm
      subst this
      exact ⟨exMat 1 "seqaij", rfl, rfl, rfl⟩)
    (fun x hx => by
      have : x = 0 := by simpa using hx.symm
      subst this
      exact ⟨exVec 3, rfl, rfl, rfl⟩)
    (fun x hx => by
      have : x = 0 := by simpa using hx.symm
      subst this
      exact ⟨exVec 3, rfl, rfl, rfl⟩)
    (fun x o hx => by
      match x, hx with
      | 0, hx =>
        have : o = exVec 3 := by simpa using hx.symm
        subst this
        decide
      | 1, hx =>
        have : o = exMat 1 "seqaij" := by simpa using hx.symm
        subst this
        decide
      | n + 2, hx => simp at hx)
  ⟨h.1, h.2.1⟩

/-! ## Claims about the exchange entry points and the operation table -/

/-- C8, the code at the failing input: on a shell as DMShellCreate leaves it
(no exchange callbacks, NULL scatter pointer), with any library, heap and
vectors, DMShellDefaultGlobalToLocalBegin and DMShellDefaultGlobalToLocalEnd
do not return an error code: they read through the NULL pointer
`shell->gtol`, which is a fault. -/
theorem C8_default_exchange_faults (lib : PetscLib) (id : Nat) (heap : Heap) (g l : ObjId) :
    (DMShellCreate id).ops.globaltolocalbegin = none
      ∧ (DMShellCreate id).ops.globaltolocalend = none
      ∧ Option.map DM_Shell.gtol (DMShellCreate id).data = some none
      ∧ (DMShellDefaultGlobalToLocalBegin lib (DMShellCreate id) heap g l).ierr = .fault
      ∧ (DMShellDefaultGlobalToLocalEnd lib (DMShellCreate id) heap g l).ierr = .fault
      ∧ (∀ kind msg,
          (DMShellDefaultGlobalToLocalBegin lib (DMShellCreate id) heap g l).ierr
            ≠ .error kind msg) := by
  refine ⟨rfl, rfl, rfl, rfl, rfl, ?_⟩
  intro kind msg h
  have h' : Status.fault = Status.error kind msg := h
  cases h'

/-- C9: each of DMShellSetCreateGlobalVector, DMShellSetCreateLocalVector and
DMShellSetCreateMatrix makes the creation operation of its kind exactly the
given callback and leaves the creation operations of the other kinds, the
exchange operations, the other operations, the type and the record (so all
held templates) unchanged; and the DM-level creation entry point then runs
the installed callback whatever templates are held. -/
theorem C9_set_creation_policy (lib : PetscLib)
    (user : Nat → DM → Heap → Option String → Ret) (dm : DM) (f : Option FnPtr)
    (a : Nat) (heap : Heap) (mtype : Option String) :
    ((DMShellSetCreateGlobalVector dm f).ops.createglobalvector = f
        ∧ (DMShellSetCreateGlobalVector dm f).ops.createlocalvector = dm.ops.createlocalvector
        ∧ (DMShellSetCreateGlobalVector dm f).ops.creatematrix = dm.ops.creatematrix
        ∧ (DMShellSetCreateGlobalVector dm f).data = dm.data
        ∧ (DMShellSetCreateGlobalVector dm f)
            = { dm with ops := { dm.ops with createglobalvector := f } })
      ∧ ((DMShellSetCreateLocalVector dm f).ops.createlocalvector = f
        ∧ (DMShellSetCreateLocalVector dm f).ops.createglobalvector = dm.ops.createglobalvector
        ∧ (DMShellSetCreateLocalVector dm f).ops.creatematrix = dm.ops.creatematrix
        ∧ (DMShellSetCreateLocalVector dm f).data = dm.data
        ∧ (DMShellSetCreateLocalVector dm f)
            = { dm with ops := { dm.ops with createlocalvector := f } })
      ∧ ((DMShellSetCreateMatrix dm f).ops.creatematrix = f
        ∧ (DMShellSetCreateMatrix dm f).ops.createglobalvector = dm.ops.createglobalvector
        ∧ (DMShellSetCreateMatrix dm f).ops.createlocalvector = dm.ops.createlocalvector
        ∧ (DMShellSetCreateMatrix dm f).data = dm.data
        ∧ (DMShellSetCreateMatrix dm f)
            = { dm with ops := { dm.ops with creatematrix := f } })
      ∧ DMCreateGlobalVector lib user (DMShellSetCreateGlobalVector dm (some (.user a))) heap
          = user a (DMShellSetCreateGlobalVector dm (some (.user a))) heap none
      ∧ DMCreateLocalVector lib user (DMShellSetCreateLocalVector dm (some (.user a))) heap
          = user a (DMShellSetCreateLocalVector dm (some (.user a))) heap none
      ∧ DMCreateMatrix lib user (DMShellSetCreateMatrix dm (some (.user a))) heap mtype
          = user a (DMShellSetCreateMatrix dm (some (.user a))) heap mtype :=
  ⟨⟨rfl, rfl, rfl, rfl, rfl⟩, ⟨rfl, rfl, rfl, rfl, rfl⟩, ⟨rfl, rfl, rfl, rfl, rfl⟩, rfl, rfl, rfl⟩

theorem runCalls_g2l (cs : List ShellCall) (dm : DM) :
    ((runCalls dm cs).ops.globaltolocalbegin = dm.ops.globaltolocalbegin
        ∧ (runCalls dm cs).ops.globaltolocalend = dm.ops.globaltolocalend)
      ∨ ∃ b e, ShellCall.setGlobalToLocal b e ∈ cs
          ∧ (runCalls dm cs).ops.globaltolocalbegin = b
          ∧ (runCalls dm cs).ops.globaltolocalend = e := by
  induction cs generalizing dm with
  | nil => exact Or.inl ⟨rfl, rfl⟩
  | cons c cs ih =>
    rcases ih (applyCall dm c) with ⟨h1, h2⟩ | ⟨b, e, hm, h1, h2⟩
    · cases c with
      | setGlobalToLocal b e =>
        exact Or.inr ⟨b, e, List.mem_cons_self _ _, h1, h2⟩
      | setGlobalToLocalVecScatter g =>
        refine Or.inl ⟨h1.trans ?_, h2.trans ?_⟩ <;>
          (simp only [applyCall, DMShellSetGlobalToLocalVecScatter]; cases dm.data <;> rfl)
      | _ => exact Or.inl ⟨h1, h2⟩
    · exact Or.inr ⟨b, e, List.mem_cons_of_mem _ hm, h1, h2⟩

theorem runCalls_l2g (cs : List ShellCall) (dm : DM) :
    ((runCalls dm cs).ops.localtoglobalbegin = dm.ops.localtoglobalbegin
        ∧ (runCalls dm cs).ops.localtoglobalend = dm.ops.localtoglobalend)
      ∨ ∃ b e, ShellCall.setLocalToGlobal b e ∈ cs
          ∧ (runCalls dm cs).ops.localtoglobalbegin = b
          ∧ (runCalls dm cs).ops.localtoglobalend = e := by
  induction cs generalizing dm with
  | nil => exact Or.inl ⟨rfl, rfl⟩
  | cons c cs ih =>
    rcases ih (applyCall dm c) with ⟨h1, h2⟩ | ⟨b, e, hm, h1, h2⟩
    · cases c with
      | setLocalToGlobal b e =>
        exact Or.inr ⟨b, e, List.mem_cons_self _ _, h1, h2⟩
      | setGlobalToLocalVecScatter g =>
        refine Or.inl ⟨h1.trans ?_, h2.trans ?_⟩ <;>
          (simp only [applyCall, DMShellSetGlobalToLocalVecScatter]; cases dm.data <;> rfl)
      | _ => exact Or.inl ⟨h1, h2⟩
    · exact Or.inr ⟨b, e, List.mem_cons_of_mem _ hm, h1, h2⟩

/-- C10: DMShellSetGlobalToLocal sets the global-to-local begin and end
operations to the two callbacks given and leaves the local-to-global pair,
the creation operations, the other operations and the record (the templates)
unchanged; DMShellSetLocalToGlobal does the same for the local-to-global pair
only.  After any sequence of setter calls on a new shell, the begin and end
operations of each direction are either both still unset or are the two
callbacks of one and the same call. -/
theorem C10_set_exchange_policy (dm : DM) (b e : Option FnPtr) (id : Nat)
    (cs : List ShellCall) :
    ((DMShellSetGlobalToLocal dm b e).ops.globaltolocalbegin = b
        ∧ (DMShellSetGlobalToLocal dm b e).ops.globaltolocalend = e
        ∧ (DMShellSetGlobalToLocal dm b e).ops.localtoglobalbegin = dm.ops.localtoglobalbegin
        ∧ (DMShellSetGlobalToLocal dm b e).ops.localtoglobalend = dm.ops.localtoglobalend
        ∧ (DMShellSetGlobalToLocal dm b e).data = dm.data
        ∧ (DMShellSetGlobalToLocal dm b e)
            = { dm with ops := { dm.ops with globaltolocalbegin := b, globaltolocalend := e } })
      ∧ ((DMShellSetLocalToGlobal dm b e).ops.localtoglobalbegin = b
        ∧ (DMShellSetLocalToGlobal dm b e).ops.localtoglobalend = e
        ∧ (DMShellSetLocalToGlobal dm b e).ops.globaltolocalbegin = dm.ops.globaltolocalbegin
        ∧ (DMShellSetLocalToGlobal dm b e).ops.globaltolocalend = dm.ops.globaltolocalend
        ∧ (DMShellSetLocalToGlobal dm b e).data = dm.data
        ∧ (DMShellSetLocalToGlobal dm b e)
            = { dm with ops := { dm.ops with localtoglobalbegin := b, localtoglobalend := e } })
      ∧ (((runCalls (DMShellCreate id) cs).ops.globaltolocalbegin = none
            ∧ (runCalls (DMShellCreate id) cs).ops.globaltolocalend = none)
          ∨ ∃ b' e', ShellCall.setGlobalToLocal b' e' ∈ cs
              ∧ (runCalls (DMShellCreate id) cs).ops.globaltolocalbegin = b'
              ∧ (runCalls (DMShellCreate id) cs).ops.globaltolocalend = e')
      ∧ (((runCalls (DMShellCreate id) cs).ops.localtoglobalbegin = none
            ∧ (runCalls (DMShellCreate id) cs).ops.localtoglobalend = none)
          ∨ ∃ b' e', ShellCall.setLocalToGlobal b' e' ∈ cs
              ∧ (runCalls (DMShellCreate id) cs).ops.localtoglobalbegin = b'
              ∧ (runCalls (DMShellCreate id) cs).ops.localtoglobalend = e') :=
  ⟨⟨rfl, rfl, rfl, rfl, rfl, rfl⟩, ⟨rfl, rfl, rfl, rfl, rfl, rfl⟩,
    runCalls_g2l cs (DMShellCreate id), runCalls_l2g cs (DMShellCreate id)⟩

/-! ## Scenario D -/

/-- Two consecutive calls of DMCreateGlobalVector_Shell on a live template
with at least one reference: both succeed and the second returns a fresh
object, different from the first result and from the template. -/
theorem two_gets (dm : DM) (heap : Heap) (shell : DM_Shell) (v : ObjId) (o : PetscObject)
    (hd : dm.data = some shell) (hs : shell.Xglobal = some v)
    (hX : heap[v]? = some o) (hf : o.freed = false) (hc : o.classid = .VEC_CLASSID)
    (h1 : 1 ≤ o.refct) :
    (DMCreateGlobalVector_Shell dm heap).ierr = .ok
      ∧ (DMCreateGlobalVector_Shell (DMCreateGlobalVector_Shell dm heap).dm
          (DMCreateGlobalVector_Shell dm heap).heap).ierr = .ok
      ∧ ∃ a b, (DMCreateGlobalVector_Shell dm heap).out = some a
          ∧ (DMCreateGlobalVector_Shell (DMCreateGlobalVector_Shell dm heap).dm
              (DMCreateGlobalVector_Shell dm heap).heap).out = some b
          ∧ a ≠ b ∧ b ≠ v
          ∧ b = (DMCreateGlobalVector_Shell dm heap).heap.length := by
  have hlt := lt_length_of_get hX
  have hget : ∀ (hp : Heap), DMCreateGlobalVector_Shell dm hp = shellVecHandOut dm hp v := by
    intro hp
    simp [DMCreateGlobalVector_Shell, hd, hs]
  by_cases hr : o.refct < 2
  · -- the first call hands out the template itself
    have e1 : DMCreateGlobalVector_Shell dm heap
        = ⟨.ok, some v, dm, updObj heap v (handedOut (some dm.id))⟩ := by
      rw [hget, vec_exclusive dm heap v o hX hf hc hr]
    have hX2 : (updObj heap v (handedOut (some dm.id)))[v]? = some (handedOut (some dm.id) o) := by
      simp [getElem?_updObj, hX]
    have hr2 : 2 ≤ (handedOut (some dm.id) o).refct := by
      simp only [handedOut]; omega
    have e2 : DMCreateGlobalVector_Shell (DMCreateGlobalVector_Shell dm heap).dm
        (DMCreateGlobalVector_Shell dm heap).heap
        = ⟨.ok, some (updObj heap v (handedOut (some dm.id))).length, dm,
            updObj heap v (handedOut (some dm.id)) ++ [cloned (some dm.id) (handedOut (some dm.id) o)]⟩ := by
      rw [e1]
      exact (hget _).trans (vec_shared dm _ v _ hX2 hf hc hr2)
    rw [e2, e1]
    refine ⟨rfl, rfl, v, _, rfl, rfl, ?_, ?_, rfl⟩
    · rw [length_updObj]; exact Nat.ne_of_lt hlt
    · rw [length_updObj]; exact Nat.ne_of_gt hlt
  · -- the first call already returns a clone
    have hr1 : 2 ≤ o.refct := by omega
    have e1 : DMCreateGlobalVector_Shell dm heap
        = ⟨.ok, some heap.length, dm, heap ++ [cloned (some dm.id) o]⟩ := by
      rw [hget, vec_shared dm heap v o hX hf hc hr1]
    have hX2 : (heap ++ [cloned (some dm.id) o])[v]? = some o := by
      rw [getElem?_snoc]
      simp [Nat.ne_of_lt hlt, hX]
    have e2 : DMCreateGlobalVector_Shell (DMCreateGlobalVector_Shell dm heap).dm
        (DMCreateGlobalVector_Shell dm heap).heap
        = ⟨.ok, some (heap ++ [cloned (some dm.id) o]).length, dm,
            (heap ++ [cloned (some dm.id) o]) ++ [cloned (some dm.id) o]⟩ := by
      rw [e1]
      exact (hget _).trans (vec_shared dm _ v _ hX2 hf hc hr1)
    rw [e2, e1]
    refine ⟨rfl, rfl, heap.length, _, rfl, rfl, ?_, ?_, rfl⟩
    · simp
    · simp only [List.length_append, List.length_singleton]
      exact Nat.ne_of_gt (Nat.lt_succ_of_lt hlt)

/-- C4 (scenario D): on a shell DM, let the caller hold a reference to a live
vector v, call DMShellSetGlobalVector(dm, v), then either release its own
reference to v (VecDestroy) or keep it, then call DMCreateGlobalVector_Shell
twice without releasing the first result.  Every step succeeds and the second
call returns a clone: a freshly allocated object, different from the first
result and from v. -/
theorem C4_scenario_D (dm : DM) (heap : Heap) (v : ObjId) (shell : DM_Shell) (o : PetscObject)
    (releaseOwn : Bool)
    (hsh : dm.type_name = some DMSHELL) (hd : dm.data = some shell)
    (hX : heap[v]? = some o) (hf : o.freed = false) (hc : o.classid = .VEC_CLASSID)
    (hp : ∀ p, shell.Xglobal = some p → Live heap p .VEC_CLASSID)
    (href : (if shell.Xglobal = some v then 2 else 1) ≤ o.refct) :
    (DMShellSetGlobalVector dm heap v).ierr = .ok
      ∧ (VecDestroy (DMShellSetGlobalVector dm heap v).heap (some v)).1 = .ok
      ∧ (scenarioD_first dm heap v releaseOwn).ierr = .ok
      ∧ (scenarioD_second dm heap v releaseOwn).ierr = .ok
      ∧ ∃ a b,
          (scenarioD_first dm heap v releaseOwn).out = some a
          ∧ (scenarioD_second dm heap v releaseOwn).out = some b
          ∧ a ≠ b ∧ b ≠ v
          ∧ b = (scenarioD_first dm heap v releaseOwn).heap.length
          ∧ (scenarioD_first dm heap v releaseOwn).heap[b]? = none := by
  have hset := setTemplate_eq .GlobalVector dm heap v shell o hsh hd hX hf hc hp
  simp only [SetTemplate, slotOf] at hset
  -- the template after the setter
  have hv : ∃ q, (DMShellSetGlobalVector dm heap v).heap[v]? = some q ∧ q.freed = false
      ∧ q.classid = .VEC_CLASSID ∧ 2 ≤ q.refct := by
    rw [hset]
    cases hs : shell.Xglobal with
    | none =>
      simp only [hs] at href
      refine ⟨referenced o, by simp [getElem?_updObj, hX], hf, hc, ?_⟩
      simp only [referenced]
      have : (1 : Int) ≤ o.refct := by simpa using href
      omega
    | some p =>
      by_cases hpv : p = v
      · subst hpv
        simp only [hs, if_true] at href
        refine ⟨released (referenced o), by simp [getElem?_updObj, hX], ?_, hc, ?_⟩
        · simp only [released, referenced, decide_eq_false_iff_not]; omega
        · simp only [released, referenced]; omega
      · have hne : ¬ (some p = some v) := fun e => hpv (Option.some.inj e)
        have hvp : ¬ v = p := fun e => hpv e.symm
        simp only [hs, hne, if_false] at href
        refine ⟨referenced o, by simp [getElem?_updObj, hX, hvp], hf, hc, ?_⟩
        simp only [referenced]
        omega
  obtain ⟨q, hq1, hq2, hq3, hq4⟩ := hv
  have hdm : (DMShellSetGlobalVector dm heap v).dm.data
      = some (setSlot shell .GlobalVector (some v)) := by rw [hset]
  have hvd : VecDestroy (DMShellSetGlobalVector dm heap v).heap (some v)
      = (.ok, updObj (DMShellSetGlobalVector dm heap v).heap v released, none) := by
    simp [VecDestroy, ObjectDestroy, PetscValidHeaderSpecific, hq1, hq2, hq3]
  refine ⟨by rw [hset], by rw [hvd], ?_⟩
  have main : ∀ h1 : Heap, (∃ q1, h1[v]? = some q1 ∧ q1.freed = false
        ∧ q1.classid = .VEC_CLASSID ∧ 1 ≤ q1.refct) →
      (DMCreateGlobalVector_Shell (DMShellSetGlobalVector dm heap v).dm h1).ierr = .ok
      ∧ (DMCreateGlobalVector_Shell
            (DMCreateGlobalVector_Shell (DMShellSetGlobalVector dm heap v).dm h1).dm
            (DMCreateGlobalVector_Shell (DMShellSetGlobalVector dm heap v).dm h1).heap).ierr = .ok
      ∧ ∃ a b,
          (DMCreateGlobalVector_Shell (DMShellSetGlobalVector dm heap v).dm h1).out = some a
          ∧ (DMCreateGlobalVector_Shell
              (DMCreateGlobalVector_Shell (DMShellSetGlobalVector dm heap v).dm h1).dm
              (DMCreateGlobalVector_Shell (DMShellSetGlobalVector dm heap v).dm h1).heap).out
            = some b
          ∧ a ≠ b ∧ b ≠ v
          ∧ b = (DMCreateGlobalVector_Shell (DMShellSetGlobalVector dm heap v).dm h1).heap.length
          ∧ (DMCreateGlobalVector_Shell (DMShellSetGlobalVector dm heap v).dm h1).heap[b]?
              = none := by
    intro h1 ⟨q1, a1, a2, a3, a4⟩
    obtain ⟨t1, t2, a, b, t3, t4, t5, t6, t7⟩ := two_gets _ h1 _ v q1 hdm rfl a1 a2 a3 a4
    exact ⟨t1, t2, a, b, t3, t4, t5, t6, t7, by rw [t7]; exact get_length_none _⟩
  cases releaseOwn with
  | false =>
    simp only [scenarioD_first, scenarioD_second, scenarioD_start, Bool.false_eq_true, if_false]
    exact main _ ⟨q, hq1, hq2, hq3, by omega⟩
  | true =>
    simp only [scenarioD_first, scenarioD_second, scenarioD_start, if_true, hvd]
    refine main _ ⟨released q, by simp [getElem?_updObj, hq1], ?_, hq3, ?_⟩
    · simp only [released, decide_eq_false_iff_not]; omega
    · simp only [released]; omega

/-- C4, witness: a new shell, a vector held once by the caller, who releases
its reference after setting it as the template. -/
theorem C4_scenario_D_witness :
    (scenarioD_first (DMShellCreate 7) [exVec 1] 0 true).out = some 0
      ∧ (scenarioD_second (DMShellCreate 7) [exVec 1] 0 true).out = some 1
      ∧ (scenarioD_second (DMShellCreate 7) [exVec 1] 0 true).ierr = .ok :=
  have h := C4_scenario_D (DMShellCreate 7) [exVec 1] 0
    { Xglobal := none, Xlocal := none, A := none, gtol := none, ltog := none } (exVec 1) true
    rfl rfl rfl rfl rfl (fun p hp => by cases hp) (by decide)
  ⟨by decide, by decide, h.2.2.2.1⟩

/-! ## Aliasing safety -/

/-- C1: start from a new shell and let the callers perform any finite
sequence of operations (creating objects of their own, SetTemplate of any
kind, GetOrCreate of any kind, releasing references they hold).  In the world
reached, where `ext` lists every reference still held outside the shell (so
in particular every handle returned by an earlier GetOrCreate and not yet
released), a further successful GetOrCreate of any kind returns an object
that is none of the externally held instances; it is either freshly
allocated or the template held for that kind, to which no external handle
refers. -/
theorem C1_aliasing_safety (lib : PetscLib) (id : Nat) (ops : List Op) (w : World)
    (k : Kind) (mtype : Option String)
    (hrun : run lib (newWorld id) ops = some w)
    (hok : (GetOrCreate lib k w.dm w.heap mtype).ierr = .ok) :
    ∃ h, (GetOrCreate lib k w.dm w.heap mtype).out = some h
      ∧ h ∉ w.ext
      ∧ (w.heap.length ≤ h ∨ ∃ s, w.dm.data = some s ∧ slotOf s k = some h) := by
  have hI := run_inv lib ops (newWorld id) w (inv_newWorld id) hrun
  obtain ⟨_, g2, _⟩ := get_good lib k mtype w hI
  obtain ⟨h, a1, a2, _, a4⟩ := g2 hok
  exact ⟨h, a1, a2, a4⟩

/-- C1, witness: after `exOps` a caller holds the template (object 0); the
next request for a global vector returns object 1, a fresh clone. -/
theorem C1_aliasing_safety_witness :
    run seqLib (newWorld 7) exOps = some exWorld
      ∧ ∃ h, (GetOrCreate seqLib .GlobalVector exWorld.dm exWorld.heap none).out = some h
          ∧ h ∉ exWorld.ext
          ∧ (exWorld.heap.length ≤ h
              ∨ ∃ s, exWorld.dm.data = some s ∧ slotOf s .GlobalVector = some h) :=
  ⟨by decide, C1_aliasing_safety seqLib 7 exOps exWorld .GlobalVector none (by decide) (by decide)⟩

/-! ## The type check of the matrix routine -/

theorem status_helper_ref (heap : Heap) (x : ObjId) (msg : String) :
    (PetscObjectReference heap x).1 ≠ .error .PETSC_ERR_ARG_NOTSAMETYPE msg := by
  unfold PetscObjectReference PetscValidHeader
  cases heap[x]? with
  | none => simp
  | some o => by_cases h : o.freed = true <;> simp [h]

theorem status_helper_valid (heap : Heap) (x : ObjId) (c : ClassId) (msg : String) :
    PetscValidHeaderSpecific heap x c ≠ .error .PETSC_ERR_ARG_NOTSAMETYPE msg := by
  unfold PetscValidHeaderSpecific
  cases heap[x]? with
  | none => simp
  | some o =>
    by_cases h : o.freed = true
    · simp [h]
    · by_cases h2 : o.classid = c <;> simp [h, h2]

theorem status_helper_zero (heap : Heap) (x : ObjId) (msg : String) :
    (MatZeroEntries heap x).1 ≠ .error .PETSC_ERR_ARG_NOTSAMETYPE msg := by
  have := status_helper_valid heap x .MAT_CLASSID msg
  unfold MatZeroEntries
  cases h : PetscValidHeaderSpecific heap x .MAT_CLASSID <;> simp_all

theorem status_helper_dup (heap : Heap) (x : ObjId) (msg : String) :
    (MatDuplicate heap x).1 ≠ .error .PETSC_ERR_ARG_NOTSAMETYPE msg := by
  have := status_helper_valid heap x .MAT_CLASSID msg
  unfold MatDuplicate
  cases h : PetscValidHeaderSpecific heap x .MAT_CLASSID with
  | ok => cases heap[x]? <;> simp
  | fault => simp
  | error k m => simp_all

/-- Once the type check has passed, the hand-out never reports a type error. -/
theorem give_no_type_error (dm : DM) (heap : Heap) (A : ObjId) (mtype : Option String)
    (o : PetscObject) (hX : heap[A]? = some o)
    (ht : DMCreateMatrix_Shell_typecheck o.type_name mtype = .ok) (msg : String) :
    (DMCreateMatrix_Shell_give dm heap A mtype).ierr ≠ .error .PETSC_ERR_ARG_NOTSAMETYPE msg := by
  simp only [DMCreateMatrix_Shell_give, hX, ht]
  by_cases hr : o.refct < 2
  · simp only [hr, if_true]
    have h1 := status_helper_ref heap A msg
    cases hs : (PetscObjectReference heap A).1 with
    | ok =>
      simp only
      have h2 := status_helper_zero (PetscObjectReference heap A).2 A msg
      cases hz : (MatZeroEntries (PetscObjectReference heap A).2 A).1 with
      | ok => simp
      | fault => simp
      | error k m =>
        simp only
        intro h
        rw [hz] at h2
        exact h2 h
    | fault => simp
    | error k m =>
      simp only
      intro h
      rw [hs] at h1
      exact h1 h
  · simp only [hr, if_false]
    have h1 := status_helper_dup heap A msg
    cases hs : (MatDuplicate heap A).1 with
    | ok =>
      cases hj : (MatDuplicate heap A).2.2 with
      | none => simp
      | some j =>
        simp only
        exact status_helper_zero _ j msg
    | fault =>
      cases hj : (MatDuplicate heap A).2.2 <;> simp
    | error k m =>
      cases hj : (MatDuplicate heap A).2.2 <;>
      · simp only
        intro h
        rw [hs] at h1
        exact h1 h

theorem typecheck_fails_iff (tn : Option String) (t : String) :
    (∃ msg, DMCreateMatrix_Shell_typecheck tn (some t) = .error .PETSC_ERR_ARG_NOTSAMETYPE msg)
      ↔ (tn ≠ some t ∧ ¬ (t = MATAIJ ∧ (tn = some MATSEQAIJ ∨ tn = some MATMPIAIJ))) := by
  have key := typecheck_ok_iff tn (some t)
  have hacc : typeAccepted tn (some t)
      ↔ (tn = some t ∨ (t = MATAIJ ∧ (tn = some MATSEQAIJ ∨ tn = some MATMPIAIJ))) := by
    unfold typeAccepted
    constructor
    · intro h; exact h t rfl
    · intro h t' ht'
      cases ht'
      exact h
  constructor
  · rintro ⟨msg, hm⟩
    have hno : ¬ typeAccepted tn (some t) := by
      intro ha
      rw [key.2 ha] at hm
      cases hm
    rw [hacc] at hno
    exact ⟨fun h => hno (Or.inl h), fun h => hno (Or.inr h)⟩
  · rintro ⟨h1, h2⟩
    have hno : DMCreateMatrix_Shell_typecheck tn (some t) ≠ .ok := by
      intro hok
      rcases hacc.1 (key.1 hok) with h | h
      · exact h1 h
      · exact h2 h
    unfold DMCreateMatrix_Shell_typecheck at hno ⊢
    simp only at hno ⊢
    split
    · split
      · exact ⟨_, rfl⟩
      · next ha hb => simp [ha, hb] at hno
    · next ha => simp [ha] at hno

/-- C20: let A be the matrix available to DMCreateMatrix_Shell once lines
24-35 have run (the held template, or the one just built from the global
vector), with type name `o.type_name`.  Called with a requested type `t`, the
routine fails with a not-same-type error if and only if the type of A differs
from `t` and it is not the case that `t` is the generic AIJ type while A is
sequential or parallel AIJ.  Called with no requested type it never fails
with a not-same-type error. -/
theorem C20_type_compatibility (lib : PetscLib) (dm : DM) (heap : Heap) (shell : DM_Shell)
    (mtype : Option String) (s1 : DM_Shell) (heap1 : Heap) (A : ObjId) (o : PetscObject)
    (hd : dm.data = some shell)
    (hp : DMCreateMatrix_Shell_provide lib shell heap mtype = (.ok, s1, heap1))
    (hA : s1.A = some A) (hX : heap1[A]? = some o) :
    (∀ t, mtype = some t →
        ((∃ msg, (DMCreateMatrix_Shell lib dm heap mtype).ierr
              = .error .PETSC_ERR_ARG_NOTSAMETYPE msg)
          ↔ (o.type_name ≠ some t
              ∧ ¬ (t = MATAIJ ∧ (o.type_name = some MATSEQAIJ ∨ o.type_name = some MATMPIAIJ)))))
      ∧ (mtype = none →
          ∀ msg, (DMCreateMatrix_Shell lib dm heap mtype).ierr
            ≠ .error .PETSC_ERR_ARG_NOTSAMETYPE msg) := by
  have e : DMCreateMatrix_Shell lib dm heap mtype
      = DMCreateMatrix_Shell_give { dm with data := some s1 } heap1 A mtype := by
    simp [DMCreateMatrix_Shell, hd, hp, hA]
  rw [e]
  constructor
  · intro t ht
    subst ht
    rw [← typecheck_fails_iff]
    by_cases hok : DMCreateMatrix_Shell_typecheck o.type_name (some t) = .ok
    · constructor
      · rintro ⟨msg, hm⟩
        exact absurd hm (give_no_type_error _ heap1 A (some t) o hX hok msg)
      · rintro ⟨msg, hm⟩
        rw [hok] at hm
        cases hm
    · rw [give_reject _ heap1 (some t) A o hX hok]
  · intro hn msg
    subst hn
    exact give_no_type_error _ heap1 A none o hX rfl msg

/-- C20, witness: a dense template asked for as generic AIJ is refused. -/
theorem C20_type_compatibility_witness :
    ∃ msg, (DMCreateMatrix_Shell seqLib (exDM none none (some 0)) [exMat 1 "seqdense"]
        (some MATAIJ)).ierr = .error .PETSC_ERR_ARG_NOTSAMETYPE msg :=
  ((C20_type_compatibility seqLib (exDM none none (some 0)) [exMat 1 "seqdense"]
      { Xglobal := none, Xlocal := none, A := some 0, gtol := none, ltog := none }
      (some MATAIJ)
      { Xglobal := none, Xlocal := none, A := some 0, gtol := none, ltog := none }
      [exMat 1 "seqdense"] 0 (exMat 1 "seqdense") rfl rfl rfl rfl).1 MATAIJ rfl).2
    ⟨by decide, by decide⟩

/-! ## The matrix built from the global vector -/

/-- C19, counterexample: no matrix template is held, a global vector template
is, and the requested type is a name MatSetType does not know: the routine
fails although a global vector template is held. -/
theorem C19_counterexample :
    (exDM (some 0) none none).data
        = some { Xglobal := some 0, Xlocal := none, A := none, gtol := none, ltog := none }
      ∧ [exVec 1][0]? = some (exVec 1)
      ∧ strictLib.MatSetType "nosuchtype" = none
      ∧ (DMCreateMatrix_Shell strictLib (exDM (some 0) none none) [exVec 1]
          (some "nosuchtype")).ierr
        = .error .PETSC_ERR_ARG_UNKNOWN_TYPE "Unknown Mat type given"
      ∧ (DMCreateMatrix_Shell strictLib (exDM (some 0) none none) [exVec 1]
          (some "nosuchtype")).out = none := by
  decide

/-- C19, amended: with no matrix template held and a live global vector
template of local size m and global size M held, if no type is requested, or
the requested type is known to MatSetType and the type it installs is
acceptable for the request, DMCreateMatrix_Shell creates a matrix with local
sizes m x m and global sizes M x M, stores it as the matrix template of the
shell and returns that stored instance with reference count 2, leaving every
other object and the other slots unchanged.  With a requested type unknown
to MatSetType it fails and keeps the matrix it created as template.  With
neither a matrix nor a global vector template it fails with the
template-missing error. -/
theorem C19_matrix_fallback (lib : PetscLib) (dm : DM) (heap : Heap) (shell : DM_Shell)
    (xg : ObjId) (v : PetscObject) (mtype : Option String)
    (hd : dm.data = some shell) (hA : shell.A = none) (hG : shell.Xglobal = some xg)
    (hv : heap[xg]? = some v) (hf : v.freed = false) (hc : v.classid = .VEC_CLASSID) :
    ((∀ t, mtype = some t →
          ∃ impl, lib.MatSetType t = some impl ∧ typeAccepted (some impl) (some t)) →
        (DMCreateMatrix_Shell lib dm heap mtype).ierr = .ok
          ∧ (DMCreateMatrix_Shell lib dm heap mtype).out = some heap.length
          ∧ (DMCreateMatrix_Shell lib dm heap mtype).dm
              = { dm with data := some { shell with A := some heap.length } }
          ∧ (∃ a, (DMCreateMatrix_Shell lib dm heap mtype).heap[heap.length]? = some a
              ∧ a.classid = .MAT_CLASSID
              ∧ a.m = v.m ∧ a.n = v.m ∧ a.M = v.M ∧ a.N = v.M
              ∧ a.refct = 2 ∧ a.freed = false ∧ a.vals = [])
          ∧ (∀ j : ObjId, j ≠ heap.length →
              (DMCreateMatrix_Shell lib dm heap mtype).heap[j]? = heap[j]?))
      ∧ (∀ t, mtype = some t → lib.MatSetType t = none →
          DMCreateMatrix_Shell lib dm heap mtype
            = ⟨.error .PETSC_ERR_ARG_UNKNOWN_TYPE "Unknown Mat type given", none,
                { dm with data := some { shell with A := some heap.length } },
                heap ++ [naiveMat v]⟩)
      ∧ (∀ (dm0 : DM) (s0 : DM_Shell), dm0.data = some s0 → s0.A = none → s0.Xglobal = none →
          DMCreateMatrix_Shell lib dm0 heap mtype
            = ⟨.error .PETSC_ERR_USER (missingMessage .Matrix), none, dm0, heap⟩) := by
  refine ⟨?_, ?_, ?_⟩
  · intro ht
    -- the matrix as lines 30-33 leave it
    have hprov : ∃ tn, DMCreateMatrix_Shell_provide lib shell heap mtype
        = (.ok, { shell with A := some heap.length },
            heap ++ [{ naiveMat v with type_name := some tn }])
        ∧ DMCreateMatrix_Shell_typecheck (some tn) mtype = .ok := by
      cases mtype with
      | none =>
        refine ⟨lib.MatSetUpDefault, ?_, rfl⟩
        simp [DMCreateMatrix_Shell_provide, hA, hG, PetscValidHeaderSpecific, hv, hf, hc,
          alloc_fst, alloc_snd, updObj_snoc]
      | some t =>
        obtain ⟨impl, h1, h2⟩ := ht t rfl
        refine ⟨impl, ?_, (typecheck_ok_iff _ _).2 h2⟩
        simp [DMCreateMatrix_Shell_provide, hA, hG, PetscValidHeaderSpecific, hv, hf, hc,
          alloc_fst, alloc_snd, updObj_snoc, h1]
    obtain ⟨tn, hp, htc⟩ := hprov
    have hX : (heap ++ [{ naiveMat v with type_name := some tn }])[heap.length]?
        = some { naiveMat v with type_name := some tn } := by
      simp [getElem?_snoc]
    have e : DMCreateMatrix_Shell lib dm heap mtype
        = DMCreateMatrix_Shell_give { dm with data := some { shell with A := some heap.length } }
            (heap ++ [{ naiveMat v with type_name := some tn }]) heap.length mtype := by
      simp [DMCreateMatrix_Shell, hd, hp]
    rw [e, give_exclusive _ _ mtype heap.length _ hX rfl rfl htc (by simp [naiveMat]),
      updObj_snoc]
    refine ⟨rfl, rfl, rfl,
      ⟨handedOut none { naiveMat v with type_name := some tn }, ?_, ?_⟩, ?_⟩
    · simp [getElem?_snoc, naiveMat]
    · simp [handedOut, naiveMat]
    · intro j hj
      simp [getElem?_snoc, hj]
  · intro t ht hT
    subst ht
    simp [DMCreateMatrix_Shell, DMCreateMatrix_Shell_provide, hd, hA, hG,
      PetscValidHeaderSpecific, hv, hf, hc, alloc_fst, alloc_snd, hT]
  · intro dm0 s0 h0 hA0 hG0
    simp [DMCreateMatrix_Shell, DMCreateMatrix_Shell_provide, h0, hA0, hG0, missingMessage,
      dm_data_eq h0]

/-- C19, witness: a shell holding only a global vector of local size 2 and
global size 4, asked for a generic AIJ matrix. -/
theorem C19_matrix_fallback_witness :
    (DMCreateMatrix_Shell seqLib (exDM (some 0) none none) [exVec 1] (some MATAIJ)).ierr = .ok
      ∧ (DMCreateMatrix_Shell seqLib (exDM (some 0) none none) [exVec 1] (some MATAIJ)).out
          = some 1 :=
  have h := (C19_matrix_fallback seqLib (exDM (some 0) none none) [exVec 1]
    { Xglobal := some 0, Xlocal := none, A := none, gtol := none, ltog := none }
    0 (exVec 1) (some MATAIJ) rfl rfl rfl rfl rfl rfl).1
    (fun t ht => ⟨MATSEQAIJ, by
      have : t = MATAIJ := by simpa using ht.symm
      subst this
      exact ⟨by decide, fun t' ht' => Or.inr (by
        have : t' = MATAIJ := by simpa using ht'.symm
        subst this
        exact ⟨rfl, Or.inl rfl⟩)⟩⟩)
  ⟨h.1, h.2.1⟩

/-! ## Template reuse -/

/-- A creation call keeps every template the shell holds. -/
theorem get_keeps_slots (lib : PetscLib) (k : Kind) (dm : DM) (heap : Heap)
    (mtype : Option String) (s : DM_Shell) (hd : dm.data = some s) :
    ∃ s', (GetOrCreate lib k dm heap mtype).dm.data = some s'
      ∧ ∀ k' x, slotOf s k' = some x → slotOf s' k' = some x := by
  have hvec : ∀ X, (shellVecHandOut dm heap X).dm = dm := by
    intro X
    unfold shellVecHandOut
    split
    · rfl
    · split
      · dsimp only
        split
        · split <;> rfl
        · rfl
      · dsimp only
        split
        · split <;> rfl
        · rfl
        · rfl
  have hgive : ∀ (d : DM) (h : Heap) (A : ObjId),
      (DMCreateMatrix_Shell_give d h A mtype).dm = d := by
    intro d h A
    unfold DMCreateMatrix_Shell_give
    split
    · rfl
    · split
      · split
        · dsimp only
          split
          · split <;> rfl
          · rfl
        · dsimp only
          split <;> rfl
      · rfl
  cases k with
  | GlobalVector =>
    refine ⟨s, ?_, fun _ _ h => h⟩
    simp only [GetOrCreate, DMCreateGlobalVector_Shell, hd]
    cases s.Xglobal with
    | none => exact hd
    | some X => simp only [hvec]; exact hd
  | LocalVector =>
    refine ⟨s, ?_, fun _ _ h => h⟩
    simp only [GetOrCreate, DMCreateLocalVector_Shell, hd]
    cases s.Xlocal with
    | none => exact hd
    | some X => simp only [hvec]; exact hd
  | Matrix =>
    have hp : (DMCreateMatrix_Shell_provide lib s heap mtype).2.1 = s
        ∨ (s.A = none ∧ ∃ a, (DMCreateMatrix_Shell_provide lib s heap mtype).2.1
              = { s with A := some a }) := by
      unfold DMCreateMatrix_Shell_provide
      cases hA : s.A with
      | some A => exact Or.inl rfl
      | none =>
        cases s.Xglobal with
        | none => exact Or.inl rfl
        | some xg =>
          dsimp only
          split
          · split
            · exact Or.inl rfl
            · split
              · split
                · exact Or.inr ⟨rfl, _, rfl⟩
                · exact Or.inr ⟨rfl, _, rfl⟩
              · exact Or.inr ⟨rfl, _, rfl⟩
          · exact Or.inl rfl
    have hdm : (GetOrCreate lib .Matrix dm heap mtype).dm.data
        = some (DMCreateMatrix_Shell_provide lib s heap mtype).2.1 := by
      simp only [GetOrCreate, DMCreateMatrix_Shell, hd]
      split
      · split
        · rfl
        · rw [hgive]
      · rfl
    refine ⟨_, hdm, ?_⟩
    intro k' x hk
    rcases hp with hp | ⟨hA, a, hp⟩
    · rw [hp]; exact hk
    · rw [hp]
      cases k' with
      | Matrix =>
        simp only [slotOf] at hk
        rw [hA] at hk
        cases hk
      | GlobalVector => exact hk
      | LocalVector => exact hk

theorem run_keeps_template (lib : PetscLib) (ops : List Op) (w w' : World) (k : Kind)
    (Y : ObjId) (s : DM_Shell) (hd : w.dm.data = some s) (hs : slotOf s k = some Y)
    (hall : ops.all isGetOrRelease = true) (hr : run lib w ops = some w') :
    ∃ s', w'.dm.data = some s' ∧ slotOf s' k = some Y := by
  induction ops generalizing w s with
  | nil =>
    simp only [run, Option.some.injEq] at hr
    subst hr
    exact ⟨s, hd, hs⟩
  | cons op ops ih =>
    simp only [List.all_cons, Bool.and_eq_true] at hall
    simp only [run] at hr
    cases hst : step lib w op with
    | none => simp [hst] at hr
    | some w1 =>
      simp only [hst] at hr
      have hkeep : ∃ s1, w1.dm.data = some s1 ∧ slotOf s1 k = some Y := by
        cases op with
        | create o => simp [isGetOrRelease] at hall
        | setTemplate k' x => simp [isGetOrRelease] at hall
        | getOrCreate k' mtype =>
          obtain ⟨s1, h1, h2⟩ := get_keeps_slots lib k' w.dm w.heap mtype s hd
          refine ⟨s1, ?_, h2 k Y hs⟩
          simp only [step] at hst
          split at hst
          · cases hst; exact h1
          · cases hst
          · cases hst; exact h1
        | release x =>
          refine ⟨s, ?_, hs⟩
          simp only [step] at hst
          split at hst
          · split at hst
            · cases hst; exact hd
            · cases hst
          · cases hst
      obtain ⟨s1, h1, h2⟩ := hkeep
      exact ih w1 s1 h1 h2 hall.2 hr

/-- C18, counterexample: the matrix template (sequential AIJ, reference count
1) is handed out, the caller releases it, and the next creation call of the
matrix kind, which asks for a dense matrix, does not return the template: it
fails with the not-same-type error. -/
theorem C18_counterexample :
    (GetOrCreate seqLib .Matrix (exDM none none (some 0)) [exMat 1 "seqaij"] none).ierr = .ok
      ∧ (GetOrCreate seqLib .Matrix (exDM none none (some 0)) [exMat 1 "seqaij"] none).out
          = some 0
      ∧ (releaseHandle
          (GetOrCreate seqLib .Matrix (exDM none none (some 0)) [exMat 1 "seqaij"] none).heap
          0).1 = .ok
      ∧ Option.map PetscObject.refct
          (reuse_released seqLib .Matrix (exDM none none (some 0)) [exMat 1 "seqaij"] none 0)[0]?
          = some 1
      ∧ (reuse_second seqLib .Matrix (exDM none none (some 0)) [exMat 1 "seqaij"] none
          (some "seqdense") 0).ierr
        = .error .PETSC_ERR_ARG_NOTSAMETYPE
            "Requested matrix of type seqdense, but only seqaij available"
      ∧ (reuse_second seqLib .Matrix (exDM none none (some 0)) [exMat 1 "seqaij"] none
          (some "seqdense") 0).out = none := by
  decide

/-- C18, amended: if a creation call handed out the template itself (a live
template with reference count 1, so the count went to 2) and the caller then
releases that handle (count back to 1), the next creation call of the same
kind (for the matrix kind: with a requested type acceptable for the
template) again returns that same template instance, zeroed, with count 2,
and allocates no clone.  Moreover, in any world reached from a new shell,
no sequence of creation calls and releases makes the shell lose a template it
holds: the slot still holds the same object and that object is live. -/
theorem C18_template_reuse (lib : PetscLib) (k : Kind) (dm : DM) (heap : Heap)
    (shell : DM_Shell) (X : ObjId) (o : PetscObject) (mtype mtype2 : Option String)
    (hd : dm.data = some shell) (hs : slotOf shell k = some X)
    (hX : heap[X]? = some o) (hf : o.freed = false) (hc : o.classid = classOf k)
    (hr : o.refct = 1)
    (ht : k = .Matrix → typeAccepted o.type_name mtype)
    (ht2 : k = .Matrix → typeAccepted o.type_name mtype2) :
    ((GetOrCreate lib k dm heap mtype).ierr = .ok
      ∧ (GetOrCreate lib k dm heap mtype).out = some X
      ∧ (releaseHandle (GetOrCreate lib k dm heap mtype).heap X).1 = .ok
      ∧ (∃ o1, (reuse_released lib k dm heap mtype X)[X]? = some o1
            ∧ o1.refct = 1 ∧ o1.freed = false)
      ∧ (reuse_second lib k dm heap mtype mtype2 X).ierr = .ok
      ∧ (reuse_second lib k dm heap mtype mtype2 X).out = some X
      ∧ (reuse_second lib k dm heap mtype mtype2 X).heap.length = heap.length
      ∧ (∃ o2, (reuse_second lib k dm heap mtype mtype2 X).heap[X]? = some o2
            ∧ o2.refct = 2 ∧ o2.freed = false ∧ (∀ v ∈ o2.vals, v = 0)))
    ∧ (∀ (id : Nat) (ops1 ops2 : List Op) (w w' : World) (k' : Kind) (Y : ObjId)
        (s : DM_Shell),
        run lib (newWorld id) ops1 = some w → w.dm.data = some s → slotOf s k' = some Y →
        ops2.all isGetOrRelease = true → run lib w ops2 = some w' →
        (∃ s', w'.dm.data = some s' ∧ slotOf s' k' = some Y)
          ∧ Live w'.heap Y (classOf k')) := by
  constructor
  · -- first call: exclusive branch
    have hlt : o.refct < 2 := by omega
    have key : ∀ (h : Heap) (q : PetscObject) (mt : Option String), h[X]? = some q →
        q.freed = false → q.classid = classOf k → q.refct < 2 →
        (k = .Matrix → typeAccepted q.type_name mt) →
        ∃ d, GetOrCreate lib k dm h mt = ⟨.ok, some X, dm, updObj h X (handedOut d)⟩ := by
      intro h q mt hq hqf hqc hqr hqt
      cases k with
      | GlobalVector =>
        refine ⟨some dm.id, ?_⟩
        simp only [slotOf] at hs
        simp [GetOrCreate, DMCreateGlobalVector_Shell, hd, hs,
          vec_exclusive dm h X q hq hqf hqc hqr]
      | LocalVector =>
        refine ⟨some dm.id, ?_⟩
        simp only [slotOf] at hs
        simp [GetOrCreate, DMCreateLocalVector_Shell, hd, hs,
          vec_exclusive dm h X q hq hqf hqc hqr]
      | Matrix =>
        exact ⟨q.dm, mat_exclusive lib dm shell h mt X q hd hs hq hqf hqc (hqt rfl) hqr⟩
    obtain ⟨d, e1⟩ := key heap o mtype hX hf hc hlt ht
    have hX1 : (updObj heap X (handedOut d))[X]? = some (handedOut d o) := by
      simp [getElem?_updObj, hX]
    have erel : releaseHandle (updObj heap X (handedOut d)) X
        = (.ok, updObj (updObj heap X (handedOut d)) X released, none) := by
      simp [releaseHandle, hX1, ObjectDestroy, PetscValidHeaderSpecific, handedOut, hf]
    have hX2 : (updObj (updObj heap X (handedOut d)) X released)[X]?
        = some (released (handedOut d o)) := by
      simp [getElem?_updObj, hX]
    have hr2 : (released (handedOut d o)).refct = 1 := by
      simp only [released, handedOut]; omega
    have hf2 : (released (handedOut d o)).freed = false := by
      simp only [released, handedOut, decide_eq_false_iff_not]; omega
    obtain ⟨d2, e2⟩ := key (updObj (updObj heap X (handedOut d)) X released)
      (released (handedOut d o)) mtype2 hX2 hf2 hc (by omega) ht2
    have hrel : reuse_released lib k dm heap mtype X
        = updObj (updObj heap X (handedOut d)) X released := by
      simp only [reuse_released, e1, erel]
    have hsec : reuse_second lib k dm heap mtype mtype2 X
        = ⟨.ok, some X, dm,
            updObj (updObj (updObj heap X (handedOut d)) X released) X (handedOut d2)⟩ := by
      simp only [reuse_second, hrel]
      rw [e1]
      exact e2
    rw [hsec, hrel, e1]
    refine ⟨rfl, rfl, by rw [erel], ⟨_, hX2, hr2, hf2⟩, rfl, rfl, ?_,
      ⟨handedOut d2 (released (handedOut d o)), ?_, ?_, ?_, ?_⟩⟩
    · simp [length_updObj]
    · simp only [getElem?_updObj, if_true, hX, Option.map_some']
    · simp only [handedOut, released]; omega
    · simp only [handedOut, released, decide_eq_false_iff_not]; omega
    · intro v hv
      simp only [handedOut] at hv
      exact List.eq_of_mem_replicate hv
  · intro id ops1 ops2 w w' k' Y s h1 h2 h3 h4 h5
    have hI := run_inv lib ops1 (newWorld id) w (inv_newWorld id) h1
    have hI' := run_inv lib ops2 w w' hI h5
    obtain ⟨s', a, b⟩ := run_keeps_template lib ops2 w w' k' Y s h2 h3 h4 h5
    refine ⟨⟨s', a, b⟩, ?_⟩
    have hpos := slotCount_pos_of_slot b
    obtain ⟨q, hq, hqf, _⟩ := inv_live hI' a (x := Y)
      (Nat.le_trans hpos (Nat.le_add_right _ _))
    obtain ⟨s'', a', _, _, h3'⟩ := hI'
    rw [a] at a'
    cases a'
    obtain ⟨q2, c1, c2⟩ := h3' k' Y b
    rw [hq] at c1
    cases c1
    exact ⟨q, hq, hqf, c2⟩

/-- C18, witness: a global vector template held by the shell alone. -/
theorem C18_template_reuse_witness :
    (reuse_second seqLib .GlobalVector (exDM (some 0) none none) [exVec 1] none none 0).ierr = .ok
      ∧ (reuse_second seqLib .GlobalVector (exDM (some 0) none none) [exVec 1] none none 0).out
          = some 0 :=
  have h := (C18_template_reuse seqLib .GlobalVector (exDM (some 0) none none) [exVec 1]
    { Xglobal := some 0, Xlocal := none, A := none, gtol := none, ltog := none }
    0 (exVec 1) none none rfl rfl rfl rfl rfl rfl (fun hk => by cases hk)
    (fun hk => by cases hk)).1
  ⟨h.2.2.2.2.1, h.2.2.2.2.2.1⟩

end DMShell

/-!
# Proofs about the doubled matrix of ex73
-/

namespace Ex73

/-! ## Arrays and loops -/

theorem addAt_spec (a : List Nat) (i v : Nat) (h : i < a.length) :
    ∃ a', addAt a i v = some a' ∧ a'.length = a.length
      ∧ ∀ t : Nat, a'[t]? = if t = i then (a[t]?).map (fun x => x + v) else a[t]? := by
  refine ⟨a.set i (a.getD i 0 + v), by simp [addAt, h], by simp, ?_⟩
  intro t
  by_cases ht : t = i
  · subst ht
    simp [List.getElem?_set, h, List.getD_eq_getElem?_getD]
  · have : ¬ i = t := fun e => ht e.symm
    simp [List.getElem?_set, ht, this]

theorem setAt_spec (a : List Nat) (i v : Nat) (h : i < a.length) :
    ∃ a', setAt a i v = some a' ∧ a'.length = a.length
      ∧ ∀ t : Nat, a'[t]? = if t = i then some v else a[t]? := by
  refine ⟨a.set i v, by simp [setAt, h], by simp, ?_⟩
  intro t
  by_cases ht : t = i
  · subst ht
    simp [List.getElem?_set, h]
  · have : ¬ i = t := fun e => ht e.symm
    simp [List.getElem?_set, ht, this]

/-- Invariant rule for the for loop. -/
theorem forLoop_inv {σ : Type} (body : Nat → σ → Option σ) (P : Nat → σ → Prop) :
    ∀ (n lo : Nat) (s : σ), P lo s →
      (∀ i s, lo ≤ i → i < lo + n → P i s → ∃ s', body i s = some s' ∧ P (i + 1) s') →
      ∃ s', forLoop body lo n s = some s' ∧ P (lo + n) s' := by
  intro n
  induction n with
  | zero =>
    intro lo s h0 _
    exact ⟨s, rfl, h0⟩
  | succ n ih =>
    intro lo s h0 hstep
    obtain ⟨s1, h1, p1⟩ := hstep lo s (Nat.le_refl _) (by omega) h0
    obtain ⟨s2, h2, p2⟩ := ih (lo + 1) s1 p1 (fun i s hi hlt hp =>
      hstep i s (by omega) (by omega) hp)
    refine ⟨s2, ?_, ?_⟩
    · simp [forLoop, h1, h2]
    · have : lo + (n + 1) = lo + 1 + n := by omega
      rw [this]
      exact p2

/-! ## The counting loop -/

theorem within_iff (lo len c : Nat) : within lo len c = true ↔ (lo ≤ c ∧ c < lo + len) := by
  simp [within]

theorem inBlock_cons (lo len c : Nat) (cs : List Nat) :
    inBlock lo len (c :: cs) = inBlock lo len cs + (if lo ≤ c ∧ c < lo + len then 1 else 0) := by
  by_cases h : lo ≤ c ∧ c < lo + len
  · have hw := (within_iff lo len c).2 h
    simp [inBlock, List.filter_cons, hw, h]
  · have hw : within lo len c = false := by
      cases hb : within lo len c with
      | false => rfl
      | true => exact absurd ((within_iff lo len c).1 hb) h
    simp [inBlock, List.filter_cons, hw, h]

theorem outBlock_cons (lo len c : Nat) (cs : List Nat) :
    outBlock lo len (c :: cs)
      = outBlock lo len cs + (if lo ≤ c ∧ c < lo + len then 0 else 1) := by
  by_cases h : lo ≤ c ∧ c < lo + len
  · have hw := (within_iff lo len c).2 h
    simp [outBlock, List.filter_cons, hw, h]
  · have hw : within lo len c = false := by
      cases hb : within lo len c with
      | false => rfl
      | true => exact absurd ((within_iff lo len c).1 hb) h
    simp [outBlock, List.filter_cons, hw, h]

theorem in_out_length (lo len : Nat) (cols : List Nat) :
    inBlock lo len cols + outBlock lo len cols = cols.length := by
  induction cols with
  | nil => rfl
  | cons c cs ih =>
    rw [inBlock_cons, outBlock_cons]
    by_cases h : lo ≤ c ∧ c < lo + len
    · simp only [h, if_true, and_self, List.length_cons]; omega
    · simp only [h, if_false, List.length_cons]; omega

theorem countCols_spec (rstart n i : Nat) (cols : List Nat) :
    ∀ s : Counts, 2 * i + 1 < s.nzd.length → 2 * i + 1 < s.nzo.length →
      ∃ s', countCols rstart n i cols s = some s'
        ∧ s'.nzd.length = s.nzd.length ∧ s'.nzo.length = s.nzo.length
        ∧ s'.nzmax = s.nzmax
        ∧ (∀ t : Nat, s'.nzd[t]? = if t = 2 * i ∨ t = 2 * i + 1
            then (s.nzd[t]?).map (fun x => x + 2 * inBlock rstart n cols) else s.nzd[t]?)
        ∧ (∀ t : Nat, s'.nzo[t]? = if t = 2 * i ∨ t = 2 * i + 1
            then (s.nzo[t]?).map (fun x => x + 2 * outBlock rstart n cols) else s.nzo[t]?) := by
  induction cols with
  | nil =>
    intro s _ _
    refine ⟨s, rfl, rfl, rfl, rfl, ?_, ?_⟩ <;>
    · intro t
      by_cases ht : t = 2 * i ∨ t = 2 * i + 1
      · simp only [ht, if_true, inBlock, outBlock, List.filter_nil, List.length_nil,
          Nat.mul_zero, Nat.add_zero]
        cases s.nzd[t]? <;> cases s.nzo[t]? <;> rfl
      · simp [ht]
  | cons c cs ih =>
    intro s hd ho
    by_cases h : rstart ≤ c ∧ c < rstart + n
    · obtain ⟨d1, e1, l1, g1⟩ := addAt_spec s.nzd (2 * i) 2 (by omega)
      obtain ⟨d2, e2, l2, g2⟩ := addAt_spec d1 (2 * i + 1) 2 (by omega)
      obtain ⟨s', e3, l3, l4, m3, g3, g4⟩ := ih { s with nzd := d2 }
        (by simp only; omega) (by simp only; omega)
      refine ⟨s', ?_, ?_, ?_, ?_, ?_, ?_⟩
      · simp [countCols, h, e1, e2, e3]
      · simp only at l3; omega
      · simpa using l4
      · simpa using m3
      · intro t
        rw [g3 t]
        simp only
        rw [g2 t, g1 t]
        have hin : inBlock rstart n (c :: cs) = inBlock rstart n cs + 1 := by
          rw [inBlock_cons]; simp [h]
        rw [hin]
        by_cases h0 : t = 2 * i
        · subst h0
          cases hx : s.nzd[2 * i]? with
          | none => simp
          | some x => simp; omega
        · by_cases h1 : t = 2 * i + 1
          · subst h1
            cases hx : s.nzd[2 * i + 1]? with
            | none => simp
            | some x => simp; omega
          · simp [h0, h1]
      · intro t
        rw [g4 t]
        have hout : outBlock rstart n (c :: cs) = outBlock rstart n cs := by
          rw [outBlock_cons]; simp [h]
        rw [hout]
    · obtain ⟨o1, e1, l1, g1⟩ := addAt_spec s.nzo (2 * i) 2 (by omega)
      obtain ⟨o2, e2, l2, g2⟩ := addAt_spec o1 (2 * i + 1) 2 (by omega)
      obtain ⟨s', e3, l3, l4, m3, g3, g4⟩ := ih { s with nzo := o2 }
        (by simp only; omega) (by simp only; omega)
      refine ⟨s', ?_, ?_, ?_, ?_, ?_, ?_⟩
      · simp [countCols, h, e1, e2, e3]
      · simpa using l3
      · simp only at l4; omega
      · simpa using m3
      · intro t
        rw [g3 t]
        have hin : inBlock rstart n (c :: cs) = inBlock rstart n cs := by
          rw [inBlock_cons]; simp [h]
        rw [hin]
      · intro t
        rw [g4 t]
        simp only
        rw [g2 t, g1 t]
        have hout : outBlock rstart n (c :: cs) = outBlock rstart n cs + 1 := by
          rw [outBlock_cons]; simp [h]
        rw [hout]
        by_cases h0 : t = 2 * i
        · subst h0
          cases hx : s.nzo[2 * i]? with
          | none => simp
          | some x => simp; omega
        · by_cases h1 : t = 2 * i + 1
          · subst h1
            cases hx : s.nzo[2 * i + 1]? with
            | none => simp
            | some x => simp; omega
          · simp [h0, h1]

end Ex73

namespace Ex73

theorem countRowBody_step (B : Nat → List Nat) (m n rstart i : Nat) (s : Counts)
    (hi : i < m) (hP : CountInv B m n rstart i s) :
    ∃ s', countRowBody B rstart n i s = some s' ∧ CountInv B m n rstart (i + 1) s' := by
  obtain ⟨ld, lo, hmax, hdone, htodo⟩ := hP
  obtain ⟨s1, e1, l1, l2, m1, g1, g2⟩ := countCols_spec rstart n i (B (i + rstart)) s
    (by omega) (by omega)
  obtain ⟨z1, z2, z3, z4⟩ := htodo i (Nat.le_refl _) hi
  have hd : s1.nzd[2 * i]? = some (2 * inBlock rstart n (B (i + rstart))) := by
    rw [g1]; simp [z1]
  have hd' : s1.nzd[2 * i + 1]? = some (2 * inBlock rstart n (B (i + rstart))) := by
    rw [g1]; simp [z2]
  have ho : s1.nzo[2 * i]? = some (2 * outBlock rstart n (B (i + rstart))) := by
    rw [g2]; simp [z3]
  have ho' : s1.nzo[2 * i + 1]? = some (2 * outBlock rstart n (B (i + rstart))) := by
    rw [g2]; simp [z4]
  refine ⟨{ s1 with nzmax := max s1.nzmax (2 * inBlock rstart n (B (i + rstart))
      + 2 * outBlock rstart n (B (i + rstart))) }, ?_, ?_, ?_, ?_, ?_, ?_⟩
  · simp [countRowBody, e1, hd, ho]
  · simpa using l1.trans ld
  · simpa using l2.trans lo
  · have := in_out_length rstart n (B (i + rstart))
    simp only [maxRows, m1, hmax]
    congr 1
    omega
  · intro r hr
    by_cases hri : r = i
    · subst hri
      exact ⟨hd, hd', ho, ho'⟩
    · obtain ⟨a1, a2, a3, a4⟩ := hdone r (by omega)
      have n1 : ¬ (2 * r = 2 * i ∨ 2 * r = 2 * i + 1) := by omega
      have n2 : ¬ (2 * r + 1 = 2 * i ∨ 2 * r + 1 = 2 * i + 1) := by omega
      refine ⟨?_, ?_, ?_, ?_⟩
      · show s1.nzd[2 * r]? = _
        rw [g1, if_neg n1]; exact a1
      · show s1.nzd[2 * r + 1]? = _
        rw [g1, if_neg n2]; exact a2
      · show s1.nzo[2 * r]? = _
        rw [g2, if_neg n1]; exact a3
      · show s1.nzo[2 * r + 1]? = _
        rw [g2, if_neg n2]; exact a4
  · intro r hr hrm
    obtain ⟨a1, a2, a3, a4⟩ := htodo r (by omega) hrm
    have n1 : ¬ (2 * r = 2 * i ∨ 2 * r = 2 * i + 1) := by omega
    have n2 : ¬ (2 * r + 1 = 2 * i ∨ 2 * r + 1 = 2 * i + 1) := by omega
    refine ⟨?_, ?_, ?_, ?_⟩
    · show s1.nzd[2 * r]? = _
      rw [g1, if_neg n1]; exact a1
    · show s1.nzd[2 * r + 1]? = _
      rw [g1, if_neg n2]; exact a2
    · show s1.nzo[2 * r]? = _
      rw [g2, if_neg n1]; exact a3
    · show s1.nzo[2 * r + 1]? = _
      rw [g2, if_neg n2]; exact a4

theorem countBlock_spec (B : Nat → List Nat) (m n rstart : Nat) :
    ∃ c, countBlock B m n rstart = some c ∧ CountInv B m n rstart m c := by
  have h := forLoop_inv (countRowBody B rstart n) (CountInv B m n rstart) m 0
    { nzd := List.replicate (2 * m) 0, nzo := List.replicate (2 * m) 0, nzmax := 0 }
    (by
      refine ⟨by simp, by simp, rfl, fun r hr => absurd hr (Nat.not_lt_zero r), ?_⟩
      intro r _ hrm
      have h1 : 2 * r < 2 * m := by omega
      have h2 : 2 * r + 1 < 2 * m := by omega
      simp [List.getElem?_replicate, h1, h2])
    (fun i s _ hi hP => countRowBody_step B m n rstart i s (by omega) hP)
  simpa [countBlock] using h

theorem le_maxRows (B : Nat → List Nat) (rstart : Nat) :
    ∀ (m i : Nat), i < m → 2 * (B (i + rstart)).length ≤ maxRows B rstart m := by
  intro m
  induction m with
  | zero => intro i hi; exact absurd hi (Nat.not_lt_zero i)
  | succ m ih =>
    intro i hi
    simp only [maxRows]
    by_cases him : i = m
    · subst him; exact Nat.le_max_right _ _
    · exact Nat.le_trans (ih i (by omega)) (Nat.le_max_left _ _)

end Ex73

namespace Ex73

/-! ## The fill loop -/

theorem doubled_cons (c : Nat) (cs : List Nat) :
    doubled (c :: cs) = 2 * c :: (2 * c + 1) :: doubled cs := by
  simp [doubled, List.flatMap_cons]

theorem doubled_length (cols : List Nat) : (doubled cols).length = 2 * cols.length := by
  induction cols with
  | nil => rfl
  | cons c cs ih => rw [doubled_cons]; simp [ih]; omega

theorem fillCols_spec (cols : List Nat) :
    ∀ (j : Nat) (buf : List Nat), 2 * (j + cols.length) ≤ buf.length →
      ∃ b, fillCols cols j buf = some b ∧ b.length = buf.length
        ∧ ∀ t : Nat, b[t]? = if 2 * j ≤ t ∧ t < 2 * (j + cols.length)
            then (doubled cols)[t - 2 * j]? else buf[t]? := by
  induction cols with
  | nil =>
    intro j buf _
    refine ⟨buf, rfl, rfl, ?_⟩
    intro t
    have : ¬ (2 * j ≤ t ∧ t < 2 * (j + ([] : List Nat).length)) := by
      simp only [List.length_nil]; omega
    rw [if_neg this]
  | cons c cs ih =>
    intro j buf hlen
    simp only [List.length_cons] at hlen
    obtain ⟨b1, e1, l1, g1⟩ := setAt_spec buf (2 * j) (2 * c) (by omega)
    obtain ⟨b2, e2, l2, g2⟩ := setAt_spec b1 (2 * j + 1) (2 * c + 1) (by omega)
    obtain ⟨b, e3, l3, g3⟩ := ih (j + 1) b2 (by omega)
    refine ⟨b, by simp [fillCols, e1, e2, e3], by omega, ?_⟩
    intro t
    rw [g3 t, g2 t, g1 t, doubled_cons]
    simp only [List.length_cons]
    by_cases h0 : t = 2 * j
    · subst h0
      have n1 : ¬ (2 * (j + 1) ≤ 2 * j ∧ 2 * j < 2 * (j + 1 + cs.length)) := by omega
      have n2 : ¬ (2 * j = 2 * j + 1) := by omega
      have p1 : 2 * j ≤ 2 * j ∧ 2 * j < 2 * (j + (cs.length + 1)) := by omega
      simp [n1, n2, p1]
    · by_cases h1 : t = 2 * j + 1
      · subst h1
        have n1 : ¬ (2 * (j + 1) ≤ 2 * j + 1 ∧ 2 * j + 1 < 2 * (j + 1 + cs.length)) := by omega
        have p1 : 2 * j ≤ 2 * j + 1 ∧ 2 * j + 1 < 2 * (j + (cs.length + 1)) := by omega
        have e : 2 * j + 1 - 2 * j = 1 := by omega
        simp [n1, p1, e]
      · by_cases h2 : 2 * (j + 1) ≤ t ∧ t < 2 * (j + 1 + cs.length)
        · have p1 : 2 * j ≤ t ∧ t < 2 * (j + (cs.length + 1)) := by omega
          have e : t - 2 * j = (t - 2 * (j + 1)) + 2 := by omega
          simp only [h2, p1, if_true, and_self, e, List.getElem?_cons_succ]
        · have p1 : ¬ (2 * j ≤ t ∧ t < 2 * (j + (cs.length + 1))) := by omega
          simp [h2, p1, h0, h1]

theorem fillRowBody_spec (B : Nat → List Nat) (rstart nzmax i : Nat) (s : Fill)
    (hl : s.ncols.length = nzmax) (hrow : 2 * (B (i + rstart)).length ≤ nzmax) :
    ∃ b, b.length = nzmax
      ∧ fillRowBody B rstart (List.replicate nzmax 0) i s
          = some { ncols := b, calls := s.calls ++ rowCalls B rstart i } := by
  obtain ⟨b, e1, l1, g1⟩ := fillCols_spec (B (i + rstart)) 0 s.ncols (by omega)
  have htake : b.take (2 * (B (i + rstart)).length) = doubled (B (i + rstart)) := by
    apply List.ext_getElem?
    intro t
    rw [List.getElem?_take]
    by_cases ht : t < 2 * (B (i + rstart)).length
    · have p : 2 * 0 ≤ t ∧ t < 2 * (0 + (B (i + rstart)).length) := by omega
      simp only [ht, if_true]
      rw [g1 t, if_pos p]
      simp
    · simp only [ht, if_false]
      symm
      apply List.getElem?_eq_none
      rw [doubled_length]
      omega
  have hmin : min (2 * (B (i + rstart)).length) nzmax = 2 * (B (i + rstart)).length :=
    Nat.min_eq_left hrow
  refine ⟨b, by omega, ?_⟩
  have hb : 2 * (B (i + rstart)).length ≤ b.length := by omega
  simp [fillRowBody, e1, readFirst, hb, hrow, htake, rowCalls, List.take_replicate, hmin]

theorem fillBlock_spec (B : Nat → List Nat) (m rstart nzmax : Nat) (junk : Nat → Nat)
    (hmax : ∀ i, i < m → 2 * (B (i + rstart)).length ≤ nzmax) :
    ∃ f, fillBlock B m rstart nzmax junk = some f ∧ f.calls = expectedCalls B rstart m := by
  have h := forLoop_inv (fillRowBody B rstart (List.replicate nzmax 0))
    (fun i s => s.ncols.length = nzmax ∧ s.calls = expectedCalls B rstart i) m 0
    { ncols := (List.range nzmax).map junk, calls := [] }
    (by simp [expectedCalls])
    (fun i s _ hi hP => by
      obtain ⟨b, lb, e⟩ := fillRowBody_spec B rstart nzmax i s hP.1 (hmax i (by omega))
      exact ⟨_, e, lb, by simp only [expectedCalls, hP.2]⟩)
  obtain ⟨f, e, _, hc⟩ := h
  exact ⟨f, by simpa [fillBlock] using e, by simpa using hc⟩

/-- The block always runs to completion; it produces the counts of the
counting loop and exactly the expected calls. -/
theorem buildJ_spec (B : Nat → List Nat) (m n rstart : Nat) (junk : Nat → Nat) :
    ∃ c, buildJ B m n rstart junk = some (c, expectedCalls B rstart m)
      ∧ CountInv B m n rstart m c := by
  obtain ⟨c, e1, hc⟩ := countBlock_spec B m n rstart
  obtain ⟨f, e2, hf⟩ := fillBlock_spec B m rstart c.nzmax junk (by
    intro i hi
    rw [hc.2.2.1]
    exact le_maxRows B rstart m i hi)
  exact ⟨c, by simp [buildJ, e1, e2, hf], hc⟩

theorem expectedCalls_length (B : Nat → List Nat) (rstart : Nat) :
    ∀ m, (expectedCalls B rstart m).length = 2 * m := by
  intro m
  induction m with
  | zero => rfl
  | succ m ih => simp [expectedCalls, rowCalls, ih]; omega

theorem expectedCalls_get (B : Nat → List Nat) (rstart : Nat) :
    ∀ m i, i < m →
      (expectedCalls B rstart m)[2 * i]?
          = some ⟨2 * (i + rstart), doubled (B (i + rstart)),
              List.replicate (2 * (B (i + rstart)).length) 0⟩
        ∧ (expectedCalls B rstart m)[2 * i + 1]?
          = some ⟨2 * (i + rstart) + 1, doubled (B (i + rstart)),
              List.replicate (2 * (B (i + rstart)).length) 0⟩ := by
  intro m
  induction m with
  | zero => intro i hi; exact absurd hi (Nat.not_lt_zero i)
  | succ m ih =>
    intro i hi
    have hl := expectedCalls_length B rstart m
    simp only [expectedCalls]
    by_cases him : i = m
    · subst him
      have e0 : 2 * i = (expectedCalls B rstart i).length := hl.symm
      constructor
      · rw [List.getElem?_append_right (by omega)]
        simp [e0, rowCalls]
      · rw [List.getElem?_append_right (by omega)]
        have : 2 * i + 1 - (expectedCalls B rstart i).length = 1 := by omega
        simp [this, rowCalls]
    · obtain ⟨a1, a2⟩ := ih i (by omega)
      constructor
      · rw [List.getElem?_append_left (by omega)]; exact a1
      · rw [List.getElem?_append_left (by omega)]; exact a2

end Ex73

namespace Ex73

/-! ## Claims about the doubled matrix -/

theorem within_doubled (rstart m c : Nat) :
    within (2 * rstart) (2 * m) (2 * c) = within rstart m c
      ∧ within (2 * rstart) (2 * m) (2 * c + 1) = within rstart m c := by
  by_cases h : rstart ≤ c ∧ c < rstart + m
  · have h1 : 2 * rstart ≤ 2 * c ∧ 2 * c < 2 * rstart + 2 * m := by omega
    have h2 : 2 * rstart ≤ 2 * c + 1 ∧ 2 * c + 1 < 2 * rstart + 2 * m := by omega
    rw [(within_iff _ _ _).2 h, (within_iff _ _ _).2 h1, (within_iff _ _ _).2 h2]
    exact ⟨rfl, rfl⟩
  · have h1 : ¬ (2 * rstart ≤ 2 * c ∧ 2 * c < 2 * rstart + 2 * m) := by omega
    have h2 : ¬ (2 * rstart ≤ 2 * c + 1 ∧ 2 * c + 1 < 2 * rstart + 2 * m) := by omega
    have f : ∀ a b x, ¬ (a ≤ x ∧ x < a + b) → within a b x = false := by
      intro a b x hx
      cases hb : within a b x with
      | false => rfl
      | true => exact absurd ((within_iff a b x).1 hb) hx
    rw [f _ _ _ h, f _ _ _ h1, f _ _ _ h2]
    exact ⟨rfl, rfl⟩

theorem inBlock_doubled (rstart m : Nat) (cols : List Nat) :
    inBlock (2 * rstart) (2 * m) (doubled cols) = 2 * inBlock rstart m cols := by
  induction cols with
  | nil => rfl
  | cons c cs ih =>
    obtain ⟨w1, w2⟩ := within_doubled rstart m c
    rw [doubled_cons]
    unfold inBlock at ih ⊢
    cases hw : within rstart m c <;>
      simp [List.filter_cons, w1, w2, hw, ih] <;> omega

theorem outBlock_doubled (rstart m : Nat) (cols : List Nat) :
    outBlock (2 * rstart) (2 * m) (doubled cols) = 2 * outBlock rstart m cols := by
  induction cols with
  | nil => rfl
  | cons c cs ih =>
    obtain ⟨w1, w2⟩ := within_doubled rstart m c
    rw [doubled_cons]
    unfold outBlock at ih ⊢
    cases hw : within rstart m c <;>
      simp [List.filter_cons, w1, w2, hw, ih] <;> omega

theorem card_filter_le (p : Nat → Bool) (l : List Nat) :
    (l.toFinset.filter (fun x => p x = true)).card ≤ (l.filter p).length := by
  have h : l.toFinset.filter (fun x => p x = true) = (l.filter p).toFinset := by
    ext x
    simp [List.mem_filter]
  rw [h]
  exact List.toFinset_card_le _

/-- C11: let B have m local rows and m local columns starting at rstart.  The
block runs to completion, and for every local row i and both rows 2i+b
(b = 0, 1) of J: the single MatSetValues call made for global row 2(i+rstart)+b
inserts the columns 2c, 2c+1 for c in the row of B; the number of these
columns (even counted with repetition) inside the local column block
[2 rstart, 2 rstart + 2m) of J is exactly nzd[2i+b], the number outside it is
exactly nzo[2i+b]; so the number of distinct columns inside (outside) is at
most nzd[2i+b] (nzo[2i+b]) and no insertion exceeds the preallocation. -/
theorem C11_preallocation_sufficient (B : Nat → List Nat) (m rstart : Nat) (junk : Nat → Nat)
    (i b : Nat) (hi : i < m) (hb : b < 2) :
    ∃ c calls, buildJ B m m rstart junk = some (c, calls)
      ∧ calls.length = 2 * m
      ∧ calls[2 * i + b]?
          = some ⟨2 * (i + rstart) + b, doubled (B (i + rstart)),
              List.replicate (2 * (B (i + rstart)).length) 0⟩
      ∧ c.nzd[2 * i + b]? = some (inBlock (2 * rstart) (2 * m) (doubled (B (i + rstart))))
      ∧ c.nzo[2 * i + b]? = some (outBlock (2 * rstart) (2 * m) (doubled (B (i + rstart))))
      ∧ ((doubled (B (i + rstart))).toFinset.filter
            (fun x => within (2 * rstart) (2 * m) x = true)).card
          ≤ inBlock (2 * rstart) (2 * m) (doubled (B (i + rstart)))
      ∧ ((doubled (B (i + rstart))).toFinset.filter
            (fun x => (!within (2 * rstart) (2 * m) x) = true)).card
          ≤ outBlock (2 * rstart) (2 * m) (doubled (B (i + rstart))) := by
  obtain ⟨c, e, _, _, _, hdone, _⟩ := buildJ_spec B m m rstart junk
  obtain ⟨d0, d1, o0, o1⟩ := hdone i hi
  obtain ⟨c0, c1⟩ := expectedCalls_get B rstart m i hi
  refine ⟨c, _, e, expectedCalls_length B rstart m, ?_, ?_, ?_,
    card_filter_le (within (2 * rstart) (2 * m)) _,
    card_filter_le (fun x => !within (2 * rstart) (2 * m) x) _⟩
  · have hb' : b = 0 ∨ b = 1 := by omega
    rcases hb' with h | h <;> subst h
    · exact c0
    · exact c1
  · rw [inBlock_doubled]
    have hb' : b = 0 ∨ b = 1 := by omega
    rcases hb' with h | h <;> subst h
    · exact d0
    · exact d1
  · rw [outBlock_doubled]
    have hb' : b = 0 ∨ b = 1 := by omega
    rcases hb' with h | h <;> subst h
    · exact o0
    · exact o1

/-- C11, witness: the 3-row matrix `exB` with rows starting at 1; local row 1
(global row 2, columns 2 and 5) gives rows 4 and 5 of J one column pair inside
the block [2, 8) and one outside. -/
theorem C11_preallocation_sufficient_witness :
    ∃ c calls, buildJ exB 3 3 1 (fun _ => 99) = some (c, calls)
      ∧ calls[3]? = some ⟨5, [4, 5, 10, 11], [0, 0, 0, 0]⟩
      ∧ c.nzd[3]? = some 2 ∧ c.nzo[3]? = some 2 := by
  obtain ⟨c, calls, e, _, h1, h2, h3, _⟩ :=
    C11_preallocation_sufficient exB 3 1 (fun _ => 99) 1 1 (by decide) (by decide)
  exact ⟨c, calls, e, h1, h2, h3⟩

theorem mem_doubled (cols : List Nat) (x : Nat) :
    x ∈ doubled cols ↔ ∃ c, c ∈ cols ∧ (x = 2 * c ∨ x = 2 * c + 1) := by
  simp [doubled, List.mem_flatMap]

theorem doubled_nodup (cols : List Nat) (h : cols.Nodup) : (doubled cols).Nodup := by
  induction cols with
  | nil => exact List.nodup_nil
  | cons c cs ih =>
    rw [doubled_cons]
    have hc : c ∉ cs := (List.nodup_cons.1 h).1
    have hcs := ih (List.nodup_cons.1 h).2
    refine List.nodup_cons.2 ⟨?_, List.nodup_cons.2 ⟨?_, hcs⟩⟩
    · intro hm
      rcases List.mem_cons.1 hm with hm | hm
      · omega
      · obtain ⟨c', hc', hx⟩ := (mem_doubled cs _).1 hm
        have : c = c' := by omega
        subst this
        exact hc hc'
    · intro hm
      obtain ⟨c', hc', hx⟩ := (mem_doubled cs _).1 hm
      have : c = c' := by omega
      subst this
      exact hc hc'

theorem doubled_get (cols : List Nat) :
    ∀ j : Nat, (doubled cols)[2 * j]? = (cols[j]?).map (fun c => 2 * c)
      ∧ (doubled cols)[2 * j + 1]? = (cols[j]?).map (fun c => 2 * c + 1) := by
  induction cols with
  | nil => intro j; simp [doubled]
  | cons c cs ih =>
    intro j
    rw [doubled_cons]
    cases j with
    | zero => simp
    | succ j =>
      obtain ⟨a1, a2⟩ := ih j
      have e1 : 2 * (j + 1) = 2 * j + 1 + 1 := by omega
      rw [e1]
      simp only [List.getElem?_cons_succ]
      exact ⟨a1, a2⟩

theorem expectedCalls_rows (B : Nat → List Nat) (rstart : Nat) :
    ∀ m, (expectedCalls B rstart m).map SetValuesCall.row = List.range' (2 * rstart) (2 * m) := by
  intro m
  induction m with
  | zero => rfl
  | succ m ih =>
    have h := List.range'_append_1 (2 * rstart) (2 * m) 2
    have e : 2 * (m + 1) = 2 + 2 * m := by omega
    have e1 : 2 * (m + rstart) = 2 * rstart + 2 * m := by omega
    rw [e, ← h, expectedCalls, List.map_append, ih]
    simp only [rowCalls, List.map_cons, List.map_nil, List.range'_succ, List.range'_zero, e1]

/-- C13: the block runs to completion and makes, for every local row i of B,
exactly one MatSetValues call for row 2(i+rstart) and one for row
2(i+rstart)+1 of J; the target rows of all calls are pairwise distinct; the
columns passed are ncols[2j] = 2*cols[j] and ncols[2j+1] = 2*cols[j]+1 for
j < nzl; and if the column indices of the row of B are pairwise distinct, so
are the 2*nzl column indices inserted into each of its two rows of J. -/
theorem C13_no_duplicate_columns (B : Nat → List Nat) (m n rstart : Nat) (junk : Nat → Nat)
    (i : Nat) (hi : i < m) (hnd : (B (i + rstart)).Nodup) :
    ∃ c calls cols, buildJ B m n rstart junk = some (c, calls)
      ∧ calls.length = 2 * m
      ∧ (calls.map SetValuesCall.row).Nodup
      ∧ calls[2 * i]? = some ⟨2 * (i + rstart), cols,
          List.replicate (2 * (B (i + rstart)).length) 0⟩
      ∧ calls[2 * i + 1]? = some ⟨2 * (i + rstart) + 1, cols,
          List.replicate (2 * (B (i + rstart)).length) 0⟩
      ∧ cols.length = 2 * (B (i + rstart)).length
      ∧ (∀ j : Nat, cols[2 * j]? = ((B (i + rstart))[j]?).map (fun x => 2 * x)
            ∧ cols[2 * j + 1]? = ((B (i + rstart))[j]?).map (fun x => 2 * x + 1))
      ∧ cols.Nodup := by
  obtain ⟨c, e, _⟩ := buildJ_spec B m n rstart junk
  obtain ⟨c0, c1⟩ := expectedCalls_get B rstart m i hi
  refine ⟨c, _, doubled (B (i + rstart)), e, expectedCalls_length B rstart m, ?_, c0, c1,
    doubled_length _, doubled_get _, doubled_nodup _ hnd⟩
  rw [expectedCalls_rows]
  exact List.nodup_range' _ _

/-- C13, witness: local row 0 of `exB` (global row 1, columns 0, 1, 2). -/
theorem C13_no_duplicate_columns_witness :
    ∃ c calls, buildJ exB 3 3 1 (fun _ => 99) = some (c, calls)
      ∧ calls[0]? = some ⟨2, [0, 1, 2, 3, 4, 5], [0, 0, 0, 0, 0, 0]⟩
      ∧ calls[1]? = some ⟨3, [0, 1, 2, 3, 4, 5], [0, 0, 0, 0, 0, 0]⟩ := by
  obtain ⟨c, calls, cols, e, _, _, h0, h1, _, hg, _⟩ :=
    C13_no_duplicate_columns exB 3 3 1 (fun _ => 99) 0 (by decide) (by decide)
  have hc : cols = [0, 1, 2, 3, 4, 5] := by
    have e' : buildJ exB 3 3 1 (fun _ => 99)
        = some (c, calls) := e
    have hcalc : (buildJ exB 3 3 1 (fun _ => 99)).map (fun r => (r.2[0]?).map SetValuesCall.cols)
        = some (some [0, 1, 2, 3, 4, 5]) := by decide
    rw [e'] at hcalc
    simp only [Option.map_some', Option.some.injEq] at hcalc
    rw [h0] at hcalc
    simpa using hcalc
  subst hc
  exact ⟨c, calls, e, h0, h1⟩

end Ex73

namespace Ex73

/-! ## The renumbering -/

theorem numberLocal_length (l : List Nat) : ∀ start, (numberLocal start l).length = l.length := by
  induction l with
  | nil => intro _; rfl
  | cons k ks ih => intro start; simp [numberLocal, ih]

theorem numberLocal_get (l : List Nat) :
    ∀ (start : Nat → Nat) (p : Nat),
      (numberLocal start l)[p]? = (l[p]?).map fun k => start k + (l.take p).count k := by
  induction l with
  | nil => intro _ p; simp [numberLocal]
  | cons k ks ih =>
    intro start p
    cases p with
    | zero => simp [numberLocal]
    | succ p =>
      simp only [numberLocal, List.getElem?_cons_succ, ih, List.take_succ_cons]
      cases hks : ks[p]? with
      | none => rfl
      | some j =>
        simp only [Option.map_some', Option.some.injEq, List.count_cons]
        by_cases h : j = k
        · subst h; simp; omega
        · have h' : ¬ k = j := fun e => h e.symm
          simp [h, h']

theorem numberLocal_append (l1 l2 : List Nat) :
    ∀ start, numberLocal start (l1 ++ l2)
      = numberLocal start l1 ++ numberLocal (fun k => start k + l1.count k) l2 := by
  induction l1 with
  | nil => intro start; simp [numberLocal]
  | cons k ks ih =>
    intro start
    show numberLocal start (k :: (ks ++ l2)) = _
    simp only [numberLocal, ih, List.cons_append, List.cons.injEq, true_and]
    congr 2
    funext j
    simp only [List.count_cons]
    by_cases h : j = k
    · subst h; simp; omega
    · have h' : ¬ k = j := fun e => h e.symm
      simp [h, h']

theorem numbering_suffix (off : Nat → Nat) (suf : List (List Nat)) :
    ∀ pre : List (List Nat),
      ((List.range' pre.length suf.length).map fun r =>
          numberLocal (fun k => off k + subtotal (pre ++ suf) r k)
            ((pre ++ suf).getD r [])).flatten
        = numberLocal (fun k => off k + (pre.map (List.count k)).sum) suf.flatten := by
  induction suf with
  | nil => intro pre; simp [numberLocal]
  | cons l suf ih =>
    intro pre
    have h := ih (pre ++ [l])
    simp only [List.append_assoc, List.singleton_append, List.length_append, List.length_singleton,
      List.map_append, List.map_cons, List.map_nil, List.sum_append, List.sum_cons,
      List.sum_nil, Nat.add_zero] at h
    simp only [List.length_cons, List.range'_succ, List.map_cons, List.flatten_cons,
      numberLocal_append]
    rw [h]
    congr 1
    · have e1 : (pre ++ l :: suf).getD pre.length [] = l := by
        rw [List.getD_eq_getElem?_getD, List.getElem?_append_right (Nat.le_refl _)]
        simp
      have e2 : ∀ k, subtotal (pre ++ l :: suf) pre.length k = (pre.map (List.count k)).sum := by
        intro k
        simp [subtotal, List.take_append_eq_append_take]
      rw [e1]
      simp only [e2]
    · congr 1
      funext k
      omega

theorem numbering_flatten (asg : List (List Nat)) :
    (ISPartitioningToNumbering asg).flatten = numberLocal (offset (globalCount asg)) asg.flatten := by
  have h := numbering_suffix (offset (globalCount asg)) asg []
  simp only [List.length_nil, List.nil_append, List.map_nil, List.sum_nil, Nat.add_zero] at h
  rw [← h, ISPartitioningToNumbering, List.range_eq_range']

theorem globalCount_eq (asg : List (List Nat)) (k : Nat) :
    globalCount asg k = asg.flatten.count k := by
  simp [globalCount, List.count_flatten]

theorem offset_mono (cnt : Nat → Nat) (a : Nat) : ∀ b, a ≤ b → offset cnt a ≤ offset cnt b := by
  intro b
  induction b with
  | zero => intro h; have : a = 0 := by omega
            subst this; exact Nat.le_refl _
  | succ b ih =>
    intro h
    by_cases hb : a ≤ b
    · have := ih hb
      simp only [offset]; omega
    · have : a = b + 1 := by omega
      subst this; exact Nat.le_refl _

theorem offset_zero (P : Nat) : offset (fun _ => 0) P = 0 := by
  induction P with
  | zero => rfl
  | succ P ih => simp [offset, ih]

theorem offset_cons (x : Nat) (xs : List Nat) (P : Nat) :
    offset (fun j => (x :: xs).count j) P
      = offset (fun j => xs.count j) P + (if x < P then 1 else 0) := by
  induction P with
  | zero => rfl
  | succ P ih =>
    simp only [offset]
    rw [ih]
    simp only [List.count_cons]
    by_cases h1 : x < P
    · have h2 : x < P + 1 := by omega
      have h3 : ¬ x = P := by omega
      simp [h1, h2, h3]
      omega
    · by_cases h3 : x = P
      · subst h3; simp; omega
      · have h2 : ¬ x < P + 1 := by omega
        simp [h1, h2, h3]

theorem offset_le_length (l : List Nat) (P : Nat) : offset (fun j => l.count j) P ≤ l.length := by
  induction l with
  | nil => simp [offset_zero]
  | cons x xs ih =>
    rw [offset_cons]
    simp only [List.length_cons]
    split <;> omega

theorem offset_total (l : List Nat) (P : Nat) (h : ∀ k ∈ l, k < P) :
    offset (fun j => l.count j) P = l.length := by
  induction l with
  | nil => simp [offset_zero]
  | cons x xs ih =>
    rw [offset_cons, ih (fun k hk => h k (List.mem_cons_of_mem _ hk))]
    simp [h x (List.mem_cons_self _ _)]

theorem count_take_lt (l : List Nat) (p k : Nat) (h : l[p]? = some k) :
    (l.take p).count k < l.count k := by
  have hp : p < l.length := by
    rcases Nat.lt_or_ge p l.length with h' | h'
    · exact h'
    · rw [List.getElem?_eq_none h'] at h; cases h
  have e : l = l.take p ++ k :: l.drop (p + 1) := by
    have hk : l[p] = k := by
      rw [List.getElem?_eq_getElem hp] at h
      exact Option.some.inj h
    rw [← hk, List.getElem_cons_drop, List.take_append_drop]
  conv => rhs; rw [e]
  simp [List.count_append]

theorem count_take_mono (l : List Nat) (p q k : Nat) (hpq : p < q) (h : l[p]? = some k) :
    (l.take p).count k < (l.take q).count k := by
  have h1 : (l.take q)[p]? = some k := by
    rw [List.getElem?_take_of_lt hpq]; exact h
  have h2 := count_take_lt (l.take q) p k h1
  rw [List.take_take, Nat.min_eq_left (Nat.le_of_lt hpq)] at h2
  exact h2

end Ex73

namespace Ex73

theorem numbering_entry (l : List Nat) (p x : Nat)
    (h : (numberLocal (offset fun j => l.count j) l)[p]? = some x) :
    ∃ k, l[p]? = some k ∧ x = offset (fun j => l.count j) k + (l.take p).count k
      ∧ x < offset (fun j => l.count j) (k + 1) := by
  rw [numberLocal_get] at h
  cases hk : l[p]? with
  | none => rw [hk] at h; cases h
  | some k =>
    rw [hk] at h
    have hx : offset (fun j => l.count j) k + (l.take p).count k = x := Option.some.inj h
    have hlt := count_take_lt l p k hk
    refine ⟨k, rfl, hx.symm, ?_⟩
    simp only [offset]
    omega

theorem numbering_lt (l : List Nat) (x : Nat)
    (h : x ∈ numberLocal (offset fun j => l.count j) l) : x < l.length := by
  obtain ⟨p, hp⟩ := List.mem_iff_getElem?.1 h
  obtain ⟨k, _, _, hlt⟩ := numbering_entry l p x hp
  have := offset_le_length l (k + 1)
  omega

theorem numbering_nodup (l : List Nat) : (numberLocal (offset fun j => l.count j) l).Nodup := by
  rw [List.nodup_iff_getElem?_ne_getElem?]
  intro i j hij hj heq
  rw [numberLocal_length] at hj
  have hi : i < l.length := by omega
  cases hxi : (numberLocal (offset fun j => l.count j) l)[i]? with
  | none =>
    have := List.getElem?_eq_none_iff.1 hxi
    rw [numberLocal_length] at this
    omega
  | some x =>
  have hxj : (numberLocal (offset fun j => l.count j) l)[j]? = some x := by
    rw [← heq]; exact hxi
  obtain ⟨ki, hki, ei, li⟩ := numbering_entry l i x hxi
  obtain ⟨kj, hkj, ej, lj⟩ := numbering_entry l j x hxj
  rcases Nat.lt_trichotomy ki kj with hlt | heq' | hgt
  · have := offset_mono (fun j => l.count j) (ki + 1) kj hlt
    omega
  · subst heq'
    have := count_take_mono l i j ki hij hki
    omega
  · have := offset_mono (fun j => l.count j) (kj + 1) ki hgt
    omega

theorem perm_range_of_nodup (g : List Nat) (n : Nat) (hlen : g.length = n)
    (hnd : g.Nodup) (hlt : ∀ x ∈ g, x < n) : g.Perm (List.range n) := by
  have hfin : g.toFinset = Finset.range n := by
    apply Finset.eq_of_subset_of_card_le
    · intro x hx
      exact Finset.mem_range.2 (hlt x (List.mem_toFinset.1 hx))
    · rw [Finset.card_range, List.toFinset_card_of_nodup hnd, hlen]
  apply (List.perm_ext_iff_of_nodup hnd (List.nodup_range n)).2
  intro a
  rw [List.mem_range, ← Finset.mem_range, ← hfin, List.mem_toFinset]

theorem numbering_shape (asg : List (List Nat)) :
    (ISPartitioningToNumbering asg).map List.length = asg.map List.length := by
  apply List.ext_getElem?
  intro i
  simp only [ISPartitioningToNumbering, List.map_map, List.getElem?_map]
  by_cases h : i < asg.length
  · rw [List.getElem?_range h, List.getElem?_eq_getElem h]
    simp [numberLocal_length, List.getD_eq_getElem?_getD, List.getElem?_eq_getElem h]
  · have h' : asg.length ≤ i := by omega
    rw [List.getElem?_eq_none h', List.getElem?_eq_none (by simpa using h')]
    rfl

theorem count_sum (asg : List (List Nat)) (P : Nat) :
    (ISPartitioningCount asg P).sum = offset (globalCount asg) P := by
  induction P with
  | zero => rfl
  | succ P ih =>
    simp only [ISPartitioningCount] at ih
    simp [ISPartitioningCount, List.range_succ, List.sum_append, offset, ih]

theorem globalCount_fun (asg : List (List Nat)) :
    globalCount asg = fun j => asg.flatten.count j := by
  funext k
  exact globalCount_eq asg k

/-- C14: for every partition assignment (distributed in any way over the old
owners) the numbering gives every old index exactly one new index (the result
has the shape of the assignment), every new index is below N, no new index is
used twice, and the new indices taken in old order are a permutation of
0, ..., N-1; so old -> new is a bijection onto [0,N).  When all destinations
are workers in [0,P), the counts of the P workers add up to N. -/
theorem C14_partition_coverage (asg : List (List Nat)) (P : Nat)
    (h : ∀ l ∈ asg, ∀ k ∈ l, k < P) :
    (ISPartitioningToNumbering asg).map List.length = asg.map List.length
      ∧ (∀ x ∈ (ISPartitioningToNumbering asg).flatten, x < asg.flatten.length)
      ∧ (ISPartitioningToNumbering asg).flatten.Nodup
      ∧ (ISPartitioningToNumbering asg).flatten.Perm (List.range asg.flatten.length)
      ∧ (ISPartitioningCount asg P).sum = asg.flatten.length := by
  have hlen : (ISPartitioningToNumbering asg).flatten.length = asg.flatten.length := by
    rw [numbering_flatten, numberLocal_length]
  have hnd : (ISPartitioningToNumbering asg).flatten.Nodup := by
    rw [numbering_flatten, globalCount_fun]
    exact numbering_nodup _
  have hlt : ∀ x ∈ (ISPartitioningToNumbering asg).flatten, x < asg.flatten.length := by
    intro x hx
    rw [numbering_flatten, globalCount_fun] at hx
    exact numbering_lt _ x hx
  refine ⟨numbering_shape asg, hlt, hnd, perm_range_of_nodup _ _ hlen hnd hlt, ?_⟩
  rw [count_sum, globalCount_fun]
  apply offset_total
  intro k hk
  obtain ⟨l, hl, hkl⟩ := List.mem_flatten.1 hk
  exact h l hl k hkl

/-- C14, witness: 3 workers holding 4, 0 and 3 vertices. -/
theorem C14_partition_coverage_witness :
    (ISPartitioningToNumbering [[2, 0, 1, 1], [], [0, 2, 2]]).flatten.Perm (List.range 7)
      ∧ ISPartitioningToNumbering [[2, 0, 1, 1], [], [0, 2, 2]] = [[4, 0, 2, 3], [], [1, 5, 6]] :=
  ⟨(C14_partition_coverage [[2, 0, 1, 1], [], [0, 2, 2]] 3 (by decide)).2.2.2.1, by decide⟩

theorem numberLocal_filter (k : Nat) (l : List Nat) :
    ∀ start : Nat → Nat,
      (((l.zip (numberLocal start l)).filter fun p => p.1 = k).map Prod.snd)
        = List.range' (start k) (l.count k) := by
  induction l with
  | nil => intro _; simp [numberLocal]
  | cons x xs ih =>
    intro start
    simp only [numberLocal, List.zip_cons_cons, List.filter_cons, List.count_cons]
    by_cases h : x = k
    · subst h
      simp [ih, List.range'_succ]
    · have h' : ¬ k = x := fun e => h e.symm
      simp [h, h', ih]

/-- C15: for every partition assignment and every worker k, the new indices
of the vertices assigned to k, listed in old order, are offset_k,
offset_k + 1, ..., offset_k + count_k - 1, where count_k is the number of
vertices assigned to k and offset_k the sum of count_j for j below k.
Scenario B: with 4 workers, 8 vertices and assignment 0,0,1,1,2,2,3,3 every
worker gets 2 rows and the new indices per worker are 0,1; 2,3; 4,5; 6,7. -/
theorem C15_renumbering_contiguity (asg : List (List Nat)) (k : Nat) :
    (newIndicesOf asg k
        = List.range' (offset (fun j => asg.flatten.count j) k) (asg.flatten.count k)
      ∧ globalCount asg k = asg.flatten.count k)
    ∧ ISPartitioningCount scenarioB 4 = [2, 2, 2, 2]
    ∧ ISPartitioningToNumbering scenarioB = [[0, 1], [2, 3], [4, 5], [6, 7]]
    ∧ (List.range 4).map (newIndicesOf scenarioB) = [[0, 1], [2, 3], [4, 5], [6, 7]] := by
  refine ⟨⟨?_, globalCount_eq asg k⟩, by decide, by decide, by decide⟩
  rw [newIndicesOf, numbering_flatten, numberLocal_filter, globalCount_fun]

end Ex73

namespace Ex73

/-! ## Inverting the numbering -/

theorem deliver_length (base : Nat) (ms : List (Nat × Nat)) :
    ∀ buf, (deliver base buf ms).length = buf.length := by
  induction ms with
  | nil => intro _; rfl
  | cons m ms ih => intro buf; simp [deliver, ih]

theorem deliver_untouched (base s : Nat) (ms : List (Nat × Nat)) :
    ∀ buf, (∀ m ∈ ms, m.1 - base ≠ s) → (deliver base buf ms)[s]? = buf[s]? := by
  induction ms with
  | nil => intro _ _; rfl
  | cons m ms ih =>
    intro buf h
    simp only [deliver]
    rw [ih _ (fun m' hm' => h m' (List.mem_cons_of_mem _ hm'))]
    exact List.getElem?_set_ne (h m (List.mem_cons_self _ _))

theorem deliver_get (base : Nat) (ms : List (Nat × Nat)) :
    ∀ buf, (ms.map Prod.fst).Nodup
      → (∀ m ∈ ms, base ≤ m.1 ∧ m.1 < base + buf.length)
      → ∀ m ∈ ms, (deliver base buf ms)[m.1 - base]? = some m.2 := by
  induction ms with
  | nil => intro _ _ _ m hm; cases hm
  | cons m0 ms ih =>
    intro buf hnd hin m hm
    simp only [List.map_cons, List.nodup_cons] at hnd
    simp only [deliver]
    rcases List.mem_cons.1 hm with e | hm'
    · subst e
      rw [deliver_untouched]
      · have := hin m (List.mem_cons_self _ _)
        rw [List.getElem?_set_self (by omega)]
      · intro m' hm' heq
        have h1 := hin m' (List.mem_cons_of_mem _ hm')
        have h2 := hin m (List.mem_cons_self _ _)
        have : m'.1 = m.1 := by omega
        exact hnd.1 (this ▸ List.mem_map_of_mem Prod.fst hm')
    · apply ih _ hnd.2 _ m hm'
      intro m' hm''
      rw [List.length_set]
      exact hin m' (List.mem_cons_of_mem _ hm'')

theorem mem_messages (isn : List (List Nat)) (g i : Nat) :
    (g, i) ∈ messages isn ↔ isn.flatten[i]? = some g := by
  simp only [messages, List.mem_map, Prod.mk.injEq]
  constructor
  · rintro ⟨⟨a, b⟩, hab, h1, h2⟩
    simp only at h1 h2
    subst h1; subst h2
    exact List.mem_enum_iff_getElem?.1 hab
  · intro h
    exact ⟨(i, g), List.mem_enum_iff_getElem?.2 h, rfl, rfl⟩

theorem messages_fst (isn : List (List Nat)) : (messages isn).map Prod.fst = isn.flatten := by
  simp only [messages, List.map_map]
  have : (Prod.fst ∘ fun p : Nat × Nat => (p.2, p.1)) = Prod.snd := rfl
  rw [this, List.enum_map_snd]

theorem flatten_get {α : Type} (L : List (List α)) :
    ∀ w s, s < (L.getD w []).length →
      L.flatten[((L.take w).map List.length).sum + s]? = (L.getD w [])[s]? := by
  induction L with
  | nil => intro w s h; simp at h
  | cons l L ih =>
    intro w s h
    cases w with
    | zero =>
      simp only [List.getD_cons_zero] at h
      simp [List.getElem?_append_left h]
    | succ w =>
      simp only [List.getD_cons_succ] at h
      simp only [List.take_succ_cons, List.map_cons, List.sum_cons, List.flatten_cons,
        List.getD_cons_succ]
      rw [List.getElem?_append_right (by omega), ← ih w s h]
      congr 1
      omega

theorem locate (nl : List Nat) :
    ∀ g, g < nl.sum →
      ∃ w, w < nl.length ∧ nstart nl w ≤ g ∧ g < nstart nl w + nl.getD w 0 := by
  induction nl with
  | nil => intro g h; simp at h
  | cons n ns ih =>
    intro g h
    by_cases hg : g < n
    · exact ⟨0, by simp, by simp [nstart], by simpa [nstart] using hg⟩
    · simp only [List.sum_cons] at h
      obtain ⟨w, hw, h1, h2⟩ := ih (g - n) (by omega)
      refine ⟨w + 1, by simpa using hw, ?_, ?_⟩
      · simp only [nstart, List.take_succ_cons, List.sum_cons] at h1 ⊢
        omega
      · simp only [nstart, List.take_succ_cons, List.sum_cons, List.getD_cons_succ] at h2 ⊢
        omega

theorem invert_part (isn : List (List Nat)) (nlocal : List Nat) (w : Nat) (hw : w < nlocal.length) :
    (ISInvertPermutation isn nlocal).getD w []
      = deliver (nstart nlocal w) (List.replicate (nlocal.getD w 0) 0)
          ((messages isn).filter fun m =>
            nstart nlocal w ≤ m.1 ∧ m.1 < nstart nlocal w + nlocal.getD w 0) := by
  simp [ISInvertPermutation, List.getD_eq_getElem?_getD, List.getElem?_range hw]

theorem invert_shape (isn : List (List Nat)) (nlocal : List Nat) :
    (ISInvertPermutation isn nlocal).map List.length = nlocal := by
  apply List.ext_getElem?
  intro i
  simp only [ISInvertPermutation, List.map_map, List.getElem?_map]
  by_cases h : i < nlocal.length
  · rw [List.getElem?_range h, List.getElem?_eq_getElem h]
    simp [deliver_length, List.getD_eq_getElem?_getD, List.getElem?_eq_getElem h]
  · have h' : nlocal.length ≤ i := by omega
    rw [List.getElem?_eq_none h', List.getElem?_eq_none (by simpa using h')]
    rfl

theorem invert_get (isn : List (List Nat)) (nlocal : List Nat)
    (hnd : isn.flatten.Nodup) (i g : Nat) (hg : g < nlocal.sum)
    (h : isn.flatten[i]? = some g) :
    (ISInvertPermutation isn nlocal).flatten[g]? = some i := by
  obtain ⟨w, hw, h1, h2⟩ := locate nlocal g hg
  have hpart := invert_part isn nlocal w hw
  have hlen : ((ISInvertPermutation isn nlocal).getD w []).length = nlocal.getD w 0 := by
    rw [hpart, deliver_length, List.length_replicate]
  have hidx := flatten_get (ISInvertPermutation isn nlocal) w (g - nstart nlocal w)
    (by rw [hlen]; omega)
  rw [List.map_take, invert_shape] at hidx
  have e : (nlocal.take w).sum + (g - nstart nlocal w) = g := by
    simp only [nstart] at h1 ⊢
    omega
  rw [e] at hidx
  rw [hidx, hpart]
  have hm : (g, i) ∈ (messages isn).filter fun m =>
      nstart nlocal w ≤ m.1 ∧ m.1 < nstart nlocal w + nlocal.getD w 0 := by
    rw [List.mem_filter]
    exact ⟨(mem_messages isn g i).2 h, decide_eq_true ⟨h1, h2⟩⟩
  refine deliver_get (nstart nlocal w) _ _ ?_ ?_ (g, i) hm
  · apply List.Nodup.sublist _ (messages_fst isn ▸ hnd)
    exact List.Sublist.map _ (List.filter_sublist _)
  · intro m hm'
    rw [List.length_replicate]
    simpa using (List.mem_filter.1 hm').2

/-- C16: let the numbering be a permutation of 0, ..., N-1 (distributed by
old ownership) and let the local counts passed by the workers add up to N.
Then worker w receives exactly nlocal[w] entries; the concatenation inv of the
parts, indexed by new global index, satisfies inv[numbering[i]] = i for every
old index i, and for every new index g below N the entry inv[g] exists and
numbering[inv[g]] = g. -/
theorem C16_permutation_inversion (isn : List (List Nat)) (nlocal : List Nat)
    (hperm : isn.flatten.Perm (List.range isn.flatten.length))
    (hsum : nlocal.sum = isn.flatten.length) :
    (ISInvertPermutation isn nlocal).map List.length = nlocal
      ∧ (ISInvertPermutation isn nlocal).flatten.length = isn.flatten.length
      ∧ (∀ i g : Nat, isn.flatten[i]? = some g →
            (ISInvertPermutation isn nlocal).flatten[g]? = some i)
      ∧ (∀ g : Nat, g < isn.flatten.length →
            ∃ o, (ISInvertPermutation isn nlocal).flatten[g]? = some o
              ∧ isn.flatten[o]? = some g) := by
  have hnd : isn.flatten.Nodup := hperm.nodup_iff.2 (List.nodup_range _)
  have hlt : ∀ i g : Nat, isn.flatten[i]? = some g → g < nlocal.sum := by
    intro i g h
    have : g ∈ List.range isn.flatten.length := hperm.mem_iff.1 (List.mem_iff_getElem?.2 ⟨i, h⟩)
    rw [hsum]
    exact List.mem_range.1 this
  refine ⟨invert_shape isn nlocal, ?_, ?_, ?_⟩
  · rw [List.length_flatten, invert_shape, hsum]
  · intro i g h
    exact invert_get isn nlocal hnd i g (hlt i g h) h
  · intro g hg
    have : g ∈ isn.flatten := hperm.mem_iff.2 (List.mem_range.2 hg)
    obtain ⟨o, ho⟩ := List.mem_iff_getElem?.1 this
    exact ⟨o, invert_get isn nlocal hnd o g (hlt o g ho) ho, ho⟩

/-- C16, witness: the numbering of the assignment `exAsg` (old 0, 1, 2, 3 to
new 2, 0, 3, 1) with two workers receiving two entries each. -/
theorem C16_permutation_inversion_witness :
    (ISInvertPermutation [[2, 0], [3, 1]] [2, 2]).map List.length = [2, 2]
      ∧ ISInvertPermutation [[2, 0], [3, 1]] [2, 2] = [[1, 3], [0, 2]] :=
  ⟨(C16_permutation_inversion [[2, 0], [3, 1]] [2, 2] (by decide) (by decide)).1, by decide⟩

end Ex73

namespace Ex73

/-- C17: three workers own one vertex each with values 10, 20, 30, and the
partitioning sends them to workers 1, 2, 0.  The rows of B are the old rows
2, 0, 1, so the moved vector should be 30, 10, 20; the scatter of ex73.c
passes `is` as the destination indices and produces 20, 30, 10, so the entry
of xout at new index 0 is not the entry of xin at old index is[0]. -/
theorem C17_vector_rows_diverge :
    sortedInverse rotAsg = [[2], [0], [1]]
      ∧ vectorInRowOrder rotAsg rotX = [30, 10, 20]
      ∧ movedVector rotAsg rotX = some [20, 30, 10]
      ∧ movedVector rotAsg rotX ≠ some (vectorInRowOrder rotAsg rotX) := by
  decide

end Ex73

/-!
# Proofs about the preallocation and assembly of ex12
-/

namespace Ex12

/-! ## Loops as traversals of the visited points -/

theorem forList_append {ι σ : Type} (body : ι → σ → Option σ) (l1 l2 : List ι) :
    ∀ s, forList body (l1 ++ l2) s = (forList body l1 s).bind (forList body l2) := by
  induction l1 with
  | nil => intro s; rfl
  | cons i l1 ih =>
    intro s
    show (body i s).bind (forList body (l1 ++ l2)) = _
    cases h : body i s with
    | none => simp [forList, h]
    | some s1 => simp [forList, h, ih]

theorem forList_map {ι κ σ : Type} (f : κ → σ → Option σ) (mk : ι → κ) (l : List ι) :
    ∀ s, forList (fun i => f (mk i)) l s = forList f (l.map mk) s := by
  induction l with
  | nil => intro s; rfl
  | cons i l ih =>
    intro s
    simp only [forList, List.map_cons]
    cases body : f (mk i) s with
    | none => rfl
    | some s1 => simp [ih]

theorem forList_nested {ι κ σ : Type} (f : κ → σ → Option σ) (mk : ι → ι → κ)
    (inner outer : List ι) :
    ∀ s, forList (fun j => forList (fun i => f (mk j i)) inner) outer s
      = forList f (outer.flatMap fun j => inner.map (mk j)) s := by
  induction outer with
  | nil => intro s; rfl
  | cons j outer ih =>
    intro s
    simp only [forList, List.flatMap_cons, forList_append, forList_map]
    cases h : forList f (inner.map (mk j)) s with
    | none => rfl
    | some s1 => simp [ih]

theorem forList_congr {ι σ : Type} (f g : ι → σ → Option σ) (h : ∀ i s, f i s = g i s)
    (l : List ι) (s : σ) : forList f l s = forList g l s := by
  have : f = g := funext fun i => funext fun s => h i s
  rw [this]

theorem countInterior_eq (user : Atassi) (istart iend : Int) (po : Option Int) (j i : Int)
    (blk : List Int) :
    countInterior user istart iend po j i blk
      = countVisit istart iend po (interiorVisit user j i) blk := by
  simp only [countInterior, countVisit, interiorVisit, Option.bind_assoc, Option.some_bind]

theorem countDownstream_eq (user : Atassi) (istart iend : Int) (po : Option Int) (j : Int)
    (blk : List Int) :
    countDownstream user istart iend po j blk
      = countVisit istart iend po (downstreamVisit user j) blk := by
  simp only [countDownstream, countVisit, downstreamVisit, Option.bind_assoc, Option.some_bind]

theorem countUpstream_eq (user : Atassi) (istart iend : Int) (po : Option Int) (j : Int)
    (blk : List Int) :
    countUpstream user istart iend po j blk
      = countVisit istart iend po (upstreamVisit user j) blk := by
  simp only [countUpstream, countVisit, upstreamVisit, Option.bind_assoc, Option.some_bind]

theorem countSlit_eq (user : Atassi) (istart iend : Int) (po : Option Int) (i : Int)
    (blk : List Int) :
    countSlit user istart iend po i blk
      = countVisit istart iend po (slitVisit user i) blk := by
  simp only [countSlit, countVisit, slitVisit, Option.bind_assoc, Option.some_bind]

theorem countFarfield_eq (user : Atassi) (istart iend : Int) (po : Option Int) (i : Int)
    (blk : List Int) :
    countFarfield user istart iend po i blk
      = countVisit istart iend po (farfieldVisit user i) blk := by
  simp only [countFarfield, countVisit, farfieldVisit, Option.bind_assoc, Option.some_bind]

theorem fillInterior_eq (user : Atassi) (j i : Int) (calls : List MatSetValuesCall) :
    fillInterior user j i calls = fillVisit user (interiorVisit user j i) calls := by
  simp only [fillInterior, fillVisit, callOf, interiorVisit, Option.bind_assoc, Option.some_bind]
  cases h : ltogAt user ((j - user.Ys) * user.Xm + i - user.Xs) with
  | none => simp only [Option.none_bind]
  | some g => simp only [Option.some_bind, h]

theorem fillDownstream_eq (user : Atassi) (j : Int) (calls : List MatSetValuesCall) :
    fillDownstream user j calls = fillVisit user (downstreamVisit user j) calls := by
  simp only [fillDownstream, fillVisit, callOf, downstreamVisit, Option.bind_assoc,
    Option.some_bind]
  cases h : ltogAt user ((j - user.Ys) * user.Xm - user.Xs) with
  | none => simp only [Option.none_bind]
  | some g => simp only [Option.some_bind, h]

theorem fillUpstream_eq (user : Atassi) (j : Int) (calls : List MatSetValuesCall) :
    fillUpstream user j calls = fillVisit user (upstreamVisit user j) calls := by
  simp only [fillUpstream, fillVisit, callOf, upstreamVisit, Option.bind_assoc, Option.some_bind]
  cases h : ltogAt user ((j - user.Ys) * user.Xm + (user.xs + user.xm) - 1 - user.Xs) with
  | none => simp only [Option.none_bind]
  | some g => simp only [Option.some_bind, h]

theorem fillSlit_eq (user : Atassi) (i : Int) (calls : List MatSetValuesCall) :
    fillSlit user i calls = fillVisit user (slitVisit user i) calls := by
  simp only [fillSlit, fillVisit, callOf, slitVisit, Option.bind_assoc, Option.some_bind]
  cases h : ltogAt user (-user.Ys * user.Xm + i - user.Xs) with
  | none => simp only [Option.none_bind]
  | some g => simp only [Option.some_bind, h]

theorem fillFarfield_eq (user : Atassi) (i : Int) (calls : List MatSetValuesCall) :
    fillFarfield user i calls = fillVisit user (farfieldVisit user i) calls := by
  simp only [fillFarfield, fillVisit, callOf, farfieldVisit, Option.bind_assoc, Option.some_bind]

end Ex12

namespace Ex12

theorem forList_ite {ι σ : Type} (f : ι → σ → Option σ) (c : Prop) [Decidable c]
    (l : List ι) (s : σ) :
    forList f (if c then l else []) s = if c then forList f l s else some s := by
  split <;> rfl

theorem countRegions_eq (user : Atassi) (istart iend : Int) (po : Option Int) (blk : List Int) :
    countRegions user istart iend po blk
      = forList (countVisit istart iend po) (visits user) blk := by
  have e1 : ∀ s, forRange (ysi user) (yei user)
      (fun j => forRange (xsi user) (xei user) (countInterior user istart iend po j)) s
      = forList (countVisit istart iend po)
          ((intRange (ysi user) (yei user)).flatMap fun j =>
            (intRange (xsi user) (xei user)).map (interiorVisit user j)) s := by
    intro s
    simp only [forRange]
    rw [← forList_nested (countVisit istart iend po) (interiorVisit user)]
    apply forList_congr
    intro j s'
    apply forList_congr
    intro i s''
    exact countInterior_eq user istart iend po j i s''
  have e2 : ∀ lo hi s, forRange lo hi (countDownstream user istart iend po) s
      = forList (countVisit istart iend po) ((intRange lo hi).map (downstreamVisit user)) s := by
    intro lo hi s
    simp only [forRange]
    rw [← forList_map]
    exact forList_congr _ _ (fun j s' => countDownstream_eq user istart iend po j s') _ _
  have e3 : ∀ lo hi s, forRange lo hi (countUpstream user istart iend po) s
      = forList (countVisit istart iend po) ((intRange lo hi).map (upstreamVisit user)) s := by
    intro lo hi s
    simp only [forRange]
    rw [← forList_map]
    exact forList_congr _ _ (fun j s' => countUpstream_eq user istart iend po j s') _ _
  have e4 : ∀ lo hi s, forRange lo hi (countSlit user istart iend po) s
      = forList (countVisit istart iend po) ((intRange lo hi).map (slitVisit user)) s := by
    intro lo hi s
    simp only [forRange]
    rw [← forList_map]
    exact forList_congr _ _ (fun j s' => countSlit_eq user istart iend po j s') _ _
  have e5 : ∀ lo hi s, forRange lo hi (countFarfield user istart iend po) s
      = forList (countVisit istart iend po) ((intRange lo hi).map (farfieldVisit user)) s := by
    intro lo hi s
    simp only [forRange]
    rw [← forList_map]
    exact forList_congr _ _ (fun j s' => countFarfield_eq user istart iend po j s') _ _
  simp only [countRegions, visits, e1, e2, e3, e4, e5, forList_append, forList_ite,
    Option.bind_assoc]

theorem FormSystem1_eq (user : Atassi) :
    FormSystem1 user = forList (fillVisit user) (visits user) [] := by
  have e1 : ∀ s, forRange (ysi user) (yei user)
      (fun j => forRange (xsi user) (xei user) (fillInterior user j)) s
      = forList (fillVisit user)
          ((intRange (ysi user) (yei user)).flatMap fun j =>
            (intRange (xsi user) (xei user)).map (interiorVisit user j)) s := by
    intro s
    simp only [forRange]
    rw [← forList_nested (fillVisit user) (interiorVisit user)]
    apply forList_congr
    intro j s'
    apply forList_congr
    intro i s''
    exact fillInterior_eq user j i s''
  have e2 : ∀ lo hi s, forRange lo hi (fillDownstream user) s
      = forList (fillVisit user) ((intRange lo hi).map (downstreamVisit user)) s := by
    intro lo hi s
    simp only [forRange]
    rw [← forList_map]
    exact forList_congr _ _ (fun j s' => fillDownstream_eq user j s') _ _
  have e3 : ∀ lo hi s, forRange lo hi (fillUpstream user) s
      = forList (fillVisit user) ((intRange lo hi).map (upstreamVisit user)) s := by
    intro lo hi s
    simp only [forRange]
    rw [← forList_map]
    exact forList_congr _ _ (fun j s' => fillUpstream_eq user j s') _ _
  have e4 : ∀ lo hi s, forRange lo hi (fillSlit user) s
      = forList (fillVisit user) ((intRange lo hi).map (slitVisit user)) s := by
    intro lo hi s
    simp only [forRange]
    rw [← forList_map]
    exact forList_congr _ _ (fun j s' => fillSlit_eq user j s') _ _
  have e5 : ∀ lo hi s, forRange lo hi (fillFarfield user) s
      = forList (fillVisit user) ((intRange lo hi).map (farfieldVisit user)) s := by
    intro lo hi s
    simp only [forRange]
    rw [← forList_map]
    exact forList_congr _ _ (fun j s' => fillFarfield_eq user j s') _ _
  simp only [FormSystem1, visits, e1, e2, e3, e4, e5, forList_append, forList_ite,
    Option.bind_assoc]

/-! ## The counts -/

theorem incr_spec (blk : List Int) (b idx : Int) (h0 : 0 ≤ b + idx)
    (h1 : b + idx < blk.length) :
    ∃ blk', incr blk (some b) idx = some blk' ∧ blk'.length = blk.length
      ∧ ∀ n : Nat, blk'.getD n 0
          = if n = (b + idx).toNat then blk.getD n 0 + 1 else blk.getD n 0 := by
  refine ⟨_, by simp only [incr]; rw [if_pos ⟨h0, h1⟩], by simp, ?_⟩
  intro n
  have hlt : (b + idx).toNat < blk.length := by omega
  simp only [List.getD_eq_getElem?_getD, List.getElem?_set]
  by_cases hn : n = (b + idx).toNat
  · subst hn
    simp [hlt]
  · have hn' : ¬ (b + idx).toNat = n := fun e => hn e.symm
    simp [hn, hn']

theorem countCols_block (istart iend m lrow : Int) (h0 : 0 ≤ lrow) (h1 : lrow < m)
    (cols : List Int) :
    ∀ blk : List Int, (blk.length : Int) = 2 * m →
      ∃ blk', countCols istart iend (some m) lrow cols blk = some blk'
        ∧ blk'.length = blk.length
        ∧ ∀ k : Int, 0 ≤ k → k < m →
            blk'.getD k.toNat 0 = blk.getD k.toNat 0
                + (if lrow = k then ((cols.filter (inRange istart iend)).length : Int) else 0)
            ∧ blk'.getD (m + k).toNat 0 = blk.getD (m + k).toNat 0
                + (if lrow = k then
                    ((cols.filter fun c => !inRange istart iend c).length : Int) else 0) := by
  induction cols with
  | nil =>
    intro blk _
    exact ⟨blk, rfl, rfl, fun k _ _ => by simp⟩
  | cons c cs ih =>
    intro blk hlen
    by_cases hc : istart ≤ c ∧ c < iend
    · obtain ⟨b1, e1, l1, g1⟩ := incr_spec blk 0 lrow (by omega) (by omega)
      obtain ⟨b2, e2, l2, g2⟩ := ih b1 (by rw [l1]; exact hlen)
      refine ⟨b2, ?_, by rw [l2, l1], ?_⟩
      · simp only [countCols]
        rw [if_pos hc, e1]
        exact e2
      · intro k hk0 hk1
        obtain ⟨a1, a2⟩ := g2 k hk0 hk1
        have hin : inRange istart iend c = true := decide_eq_true hc
        have q1 := g1 k.toNat
        have q2 := g1 (m + k).toNat
        rw [a1, a2, q1, q2]
        simp only [List.filter_cons, hin, Bool.not_true, Bool.false_eq_true, if_true, if_false,
          List.length_cons]
        push_cast
        constructor <;> split_ifs <;> omega
    · obtain ⟨b1, e1, l1, g1⟩ := incr_spec blk m lrow (by omega) (by omega)
      obtain ⟨b2, e2, l2, g2⟩ := ih b1 (by rw [l1]; exact hlen)
      refine ⟨b2, ?_, by rw [l2, l1], ?_⟩
      · simp only [countCols]
        rw [if_neg hc, e1]
        exact e2
      · intro k hk0 hk1
        obtain ⟨a1, a2⟩ := g2 k hk0 hk1
        have hin : inRange istart iend c = false := decide_eq_false hc
        have q1 := g1 k.toNat
        have q2 := g1 (m + k).toNat
        rw [a1, a2, q1, q2]
        simp only [List.filter_cons, hin, Bool.not_false, Bool.false_eq_true, if_true, if_false,
          List.length_cons]
        push_cast
        constructor <;> split_ifs <;> omega

theorem visitIn_cons (istart iend : Int) (v : Visit) (vs : List Visit) (k : Int) :
    visitIn istart iend (v :: vs) k
      = (if v.lrow = k then ((v.cols.getD []).filter (inRange istart iend)).length else 0)
        + visitIn istart iend vs k := by
  simp only [visitIn, List.filter_cons]
  by_cases h : v.lrow = k <;> simp [h]

theorem visitOut_cons (istart iend : Int) (v : Visit) (vs : List Visit) (k : Int) :
    visitOut istart iend (v :: vs) k
      = (if v.lrow = k then
          ((v.cols.getD []).filter fun c => !inRange istart iend c).length else 0)
        + visitOut istart iend vs k := by
  simp only [visitOut, List.filter_cons]
  by_cases h : v.lrow = k <;> simp [h]

theorem countVisits_spec (istart iend m : Int) (vs : List Visit) :
    (∀ v ∈ vs, (∃ cols, v.cols = some cols) ∧ 0 ≤ v.lrow ∧ v.lrow < m) →
    ∀ blk : List Int, (blk.length : Int) = 2 * m →
      ∃ blk', forList (countVisit istart iend (some m)) vs blk = some blk'
        ∧ blk'.length = blk.length
        ∧ ∀ k : Int, 0 ≤ k → k < m →
            blk'.getD k.toNat 0 = blk.getD k.toNat 0 + (visitIn istart iend vs k : Int)
            ∧ blk'.getD (m + k).toNat 0
                = blk.getD (m + k).toNat 0 + (visitOut istart iend vs k : Int) := by
  induction vs with
  | nil =>
    intro _ blk _
    exact ⟨blk, rfl, rfl, fun k _ _ => by simp [visitIn, visitOut]⟩
  | cons v vs ih =>
    intro hv blk hlen
    obtain ⟨⟨cols, hcols⟩, h0, h1⟩ := hv v (List.mem_cons_self _ _)
    obtain ⟨b1, e1, l1, g1⟩ := countCols_block istart iend m v.lrow h0 h1 cols blk hlen
    obtain ⟨b2, e2, l2, g2⟩ := ih (fun v' hv' => hv v' (List.mem_cons_of_mem _ hv')) b1
      (by rw [l1]; exact hlen)
    refine ⟨b2, ?_, by rw [l2, l1], ?_⟩
    · simp only [forList, countVisit, hcols, Option.some_bind, e1]
      exact e2
    · intro k hk0 hk1
      obtain ⟨a1, a2⟩ := g2 k hk0 hk1
      obtain ⟨c1, c2⟩ := g1 k hk0 hk1
      rw [a1, a2, c1, c2, visitIn_cons, visitOut_cons, hcols]
      simp only [Option.getD_some]
      constructor <;> split <;> simp <;> omega

end Ex12

namespace Ex12

/-! ## The calls of the assembly -/

theorem fillVisits_spec (user : Atassi) (vs : List Visit) :
    ∀ calls calls', forList (fillVisit user) vs calls = some calls' →
      (∀ v ∈ vs, ∃ c, callOf user v = some c)
        ∧ calls' = calls ++ vs.filterMap (callOf user) := by
  induction vs with
  | nil =>
    intro calls calls' h
    simp only [forList, Option.some.injEq] at h
    subst h
    exact ⟨fun v hv => absurd hv (List.not_mem_nil v), by simp⟩
  | cons v vs ih =>
    intro calls calls' h
    simp only [forList, fillVisit] at h
    cases hc : callOf user v with
    | none => rw [hc] at h; cases h
    | some c =>
      rw [hc] at h
      simp only [Option.some_bind] at h
      obtain ⟨h1, h2⟩ := ih _ _ h
      refine ⟨?_, ?_⟩
      · intro v' hv'
        rcases List.mem_cons.1 hv' with e | hv''
        · subst e; exact ⟨c, hc⟩
        · exact h1 v' hv''
      · rw [h2, List.filterMap_cons, hc]
        simp

theorem callOf_some (user : Atassi) (v : Visit) (c : MatSetValuesCall)
    (h : callOf user v = some c) :
    ∃ g cols, ltogAt user v.row = some g ∧ v.cols = some cols ∧ c = ⟨g, cols⟩ := by
  simp only [callOf] at h
  cases hg : ltogAt user v.row with
  | none => rw [hg] at h; cases h
  | some g =>
    cases hc : v.cols with
    | none => rw [hg, hc] at h; cases h
    | some cols =>
      rw [hg, hc] at h
      simp only [Option.some_bind, Option.some.injEq] at h
      exact ⟨g, cols, rfl, rfl, h.symm⟩

theorem inserted_eq (user : Atassi) (istart iend base k : Int) (vs : List Visit) :
    (∀ v ∈ vs, ∃ cols, v.cols = some cols ∧ callOf user v = some ⟨base + v.lrow, cols⟩) →
    insertedIn (vs.filterMap (callOf user)) istart iend (base + k) = visitIn istart iend vs k
      ∧ insertedOut (vs.filterMap (callOf user)) istart iend (base + k)
          = visitOut istart iend vs k := by
  induction vs with
  | nil => intro _; exact ⟨rfl, rfl⟩
  | cons v vs ih =>
    intro h
    obtain ⟨cols, hcols, hcall⟩ := h v (List.mem_cons_self _ _)
    obtain ⟨i1, i2⟩ := ih (fun v' hv' => h v' (List.mem_cons_of_mem _ hv'))
    rw [visitIn_cons, visitOut_cons, ← i1, ← i2, List.filterMap_cons, hcall, hcols]
    simp only [insertedIn, insertedOut, List.filter_cons, Option.getD_some]
    by_cases hk : v.lrow = k
    · have : base + v.lrow = base + k := by omega
      simp [hk]
    · have : ¬ base + v.lrow = base + k := by omega
      simp [hk, this]

/-! ## The visited points are the owned points -/

theorem mem_intRange (lo hi i : Int) : i ∈ intRange lo hi ↔ lo ≤ i ∧ i < hi := by
  simp only [intRange, List.mem_map, List.mem_range]
  constructor
  · rintro ⟨k, hk, rfl⟩
    omega
  · intro h
    exact ⟨(i - lo).toNat, by omega, by omega⟩

theorem visit_owned (user : Atassi) (hxm : 1 ≤ user.xm) (hym : 1 ≤ user.ym) :
    ∀ v ∈ visits user, ∃ i j : Int,
      user.xs ≤ i ∧ i < user.xs + user.xm ∧ user.ys ≤ j ∧ j < user.ys + user.ym
        ∧ v.row = (j - user.Ys) * user.Xm + i - user.Xs
        ∧ v.lrow = (j - user.ys) * user.xm + i - user.xs := by
  have hxsi : user.xs ≤ xsi user := by unfold xsi; split <;> omega
  have hxei : xei user ≤ user.xs + user.xm := by unfold xei; split <;> omega
  have hysi : user.ys ≤ ysi user := by unfold ysi; split <;> omega
  have hyei : yei user ≤ user.ys + user.ym := by unfold yei; split <;> omega
  intro v hv
  simp only [visits, List.mem_append] at hv
  rcases hv with (((hv | hv) | hv) | hv) | hv
  · obtain ⟨j, hj, hv⟩ := List.mem_flatMap.1 hv
    obtain ⟨i, hi, rfl⟩ := List.mem_map.1 hv
    rw [mem_intRange] at hi hj
    exact ⟨i, j, by omega, by omega, by omega, by omega, rfl, rfl⟩
  · split at hv
    · rename_i hxs
      obtain ⟨j, hj, rfl⟩ := List.mem_map.1 hv
      rw [mem_intRange] at hj
      refine ⟨0, j, by omega, by omega, by omega, by omega, ?_, ?_⟩
      · simp only [downstreamVisit]; omega
      · simp only [downstreamVisit]; omega
    · cases hv
  · split at hv
    · obtain ⟨j, hj, rfl⟩ := List.mem_map.1 hv
      rw [mem_intRange] at hj
      refine ⟨user.xs + user.xm - 1, j, by omega, by omega, by omega, by omega, ?_, ?_⟩
      · simp only [upstreamVisit]; omega
      · simp only [upstreamVisit]; omega
    · cases hv
  · split at hv
    · rename_i hys
      obtain ⟨i, hi, rfl⟩ := List.mem_map.1 hv
      rw [mem_intRange] at hi
      refine ⟨i, 0, by omega, by omega, by omega, by omega, ?_, ?_⟩
      · simp only [slitVisit]; ring
      · simp only [slitVisit]; ring
    · cases hv
  · split at hv
    · obtain ⟨i, hi, rfl⟩ := List.mem_map.1 hv
      rw [mem_intRange] at hi
      exact ⟨i, user.ys + user.ym - 1, by omega, by omega, by omega, by omega, rfl, rfl⟩
    · cases hv

theorem lrow_range (xs ys xm ym i j : Int) (hi0 : xs ≤ i) (hi1 : i < xs + xm)
    (hj0 : ys ≤ j) (hj1 : j < ys + ym) :
    0 ≤ (j - ys) * xm + i - xs ∧ (j - ys) * xm + i - xs < xm * ym := by
  have hxm : 0 ≤ xm := by omega
  have h1 : 0 ≤ (j - ys) * xm := Int.mul_nonneg (by omega) hxm
  have h2 : (j - ys) * xm ≤ (ym - 1) * xm := Int.mul_le_mul_of_nonneg_right (by omega) hxm
  have h3 : (ym - 1) * xm = xm * ym - xm := by ring
  constructor
  · omega
  · omega

end Ex12

namespace Ex12

/-! ## Preallocation matches assembly -/

theorem card_filter_le_int (p : Int → Bool) (l : List Int) :
    (l.toFinset.filter (fun x => p x = true)).card ≤ (l.filter p).length := by
  have h : l.toFinset.filter (fun x => p x = true) = (l.filter p).toFinset := by
    ext x
    simp [List.mem_filter]
  rw [h]
  exact List.toFinset_card_le _

theorem visit_facts (user : Atassi) (hxm : 1 ≤ user.xm) (hym : 1 ≤ user.ym)
    (hrow : ∀ i j : Int, user.xs ≤ i → i < user.xs + user.xm →
      user.ys ≤ j → j < user.ys + user.ym →
      ltogAt user ((j - user.Ys) * user.Xm + i - user.Xs)
        = some (user.istart + ((j - user.ys) * user.xm + i - user.xs)))
    (calls : List MatSetValuesCall) (hF : FormSystem1 user = some calls) :
    calls = (visits user).filterMap (callOf user)
      ∧ ∀ v ∈ visits user,
          (∃ cols, v.cols = some cols ∧ callOf user v = some ⟨user.istart + v.lrow, cols⟩)
            ∧ 0 ≤ v.lrow ∧ v.lrow < user.xm * user.ym := by
  rw [FormSystem1_eq] at hF
  obtain ⟨hall, hcalls⟩ := fillVisits_spec user (visits user) [] calls hF
  refine ⟨by simpa using hcalls, ?_⟩
  intro v hv
  obtain ⟨c, hc⟩ := hall v hv
  obtain ⟨g, cols, hg, hcols, rfl⟩ := callOf_some user v c hc
  obtain ⟨i, j, hi0, hi1, hj0, hj1, er, el⟩ := visit_owned user hxm hym v hv
  have hg' := hrow i j hi0 hi1 hj0 hj1
  rw [← er, ← el, hg] at hg'
  have hgv : g = user.istart + v.lrow := Option.some.inj hg'
  have hr := lrow_range user.xs user.ys user.xm user.ym i j hi0 hi1 hj0 hj1
  rw [← el] at hr
  refine ⟨⟨cols, hcols, ?_⟩, hr.1, hr.2⟩
  rw [hc, hgv]

/-- Preallocation and assembly where the reads are valid: let the local grid be
non-empty with m_ldim = xm*ym, let every owned point (i,j) have global row
istart + lrow in the ghosted map, and let FormSystem1 run through (all its
reads of the ghosted map are valid).  Then UserDetermineMatrixNonzeros returns
in the MPIAIJ case, and for every owned point nnz_d[lrow] is the number of
columns (counted with repetition) that FormSystem1 inserts into row
istart + lrow and that lie in [istart, iend), nnz_o[lrow] is the number it
inserts outside that range; so both counts are at least the numbers of
distinct columns inserted. -/
theorem stencil_preallocation (user : Atassi) (calls : List MatSetValuesCall)
    (hprob : user.problem = 1) (hxm : 1 ≤ user.xm) (hym : 1 ≤ user.ym)
    (hld : user.m_ldim = user.xm * user.ym)
    (hrow : ∀ i j : Int, user.xs ≤ i → i < user.xs + user.xm →
      user.ys ≤ j → j < user.ys + user.ym →
      ltogAt user ((j - user.Ys) * user.Xm + i - user.Xs)
        = some (user.istart + ((j - user.ys) * user.xm + i - user.xs)))
    (hF : FormSystem1 user = some calls)
    (i j : Int) (hi0 : user.xs ≤ i) (hi1 : i < user.xs + user.xm)
    (hj0 : user.ys ≤ j) (hj1 : j < user.ys + user.ym) :
    ∃ nz, UserDetermineMatrixNonzeros user MatType.MATMPIAIJ = Result.ok nz
      ∧ nz.d ((j - user.ys) * user.xm + i - user.xs)
          = some ((insertedIn calls user.istart user.iend
              (user.istart + ((j - user.ys) * user.xm + i - user.xs)) : Nat) : Int)
      ∧ nz.o ((j - user.ys) * user.xm + i - user.xs)
          = some ((insertedOut calls user.istart user.iend
              (user.istart + ((j - user.ys) * user.xm + i - user.xs)) : Nat) : Int)
      ∧ ((((calls.filter fun c =>
              c.grow = user.istart + ((j - user.ys) * user.xm + i - user.xs)).flatMap
                MatSetValuesCall.col).toFinset.filter
            fun c => inRange user.istart user.iend c = true).card
          ≤ insertedIn calls user.istart user.iend
              (user.istart + ((j - user.ys) * user.xm + i - user.xs)))
      ∧ ((((calls.filter fun c =>
              c.grow = user.istart + ((j - user.ys) * user.xm + i - user.xs)).flatMap
                MatSetValuesCall.col).toFinset.filter
            fun c => (!inRange user.istart user.iend c) = true).card
          ≤ insertedOut calls user.istart user.iend
              (user.istart + ((j - user.ys) * user.xm + i - user.xs))) := by
  obtain ⟨hcalls, hvis⟩ := visit_facts user hxm hym hrow calls hF
  have hr := lrow_range user.xs user.ys user.xm user.ym i j hi0 hi1 hj0 hj1
  generalize (j - user.ys) * user.xm + i - user.xs = k at hr ⊢
  have hm : 0 ≤ user.m_ldim := by omega
  have hlen : ((List.replicate (2 * user.m_ldim).toNat (0 : Int)).length : Int)
      = 2 * user.m_ldim := by
    rw [List.length_replicate]; omega
  obtain ⟨blk, e, l, g⟩ := countVisits_spec user.istart user.iend user.m_ldim (visits user)
    (fun v hv => ⟨⟨_, (hvis v hv).1.choose_spec.1⟩, (hvis v hv).2.1,
      by rw [hld]; exact (hvis v hv).2.2⟩)
    (List.replicate (2 * user.m_ldim).toNat 0) hlen
  obtain ⟨gd, go⟩ := g k hr.1 (by rw [hld]; exact hr.2)
  obtain ⟨i1, i2⟩ := inserted_eq user user.istart user.iend user.istart k (visits user)
    (fun v hv => (hvis v hv).1)
  rw [← hcalls] at i1 i2
  have hbl : (blk.length : Int) = 2 * user.m_ldim := by rw [l]; exact hlen
  refine ⟨⟨blk, 0, some user.m_ldim⟩, ?_, ?_, ?_, card_filter_le_int _ _, card_filter_le_int _ _⟩
  · simp only [UserDetermineMatrixNonzeros, hprob, if_true]
    rw [countRegions_eq, e]
    rfl
  · simp only [Nonzeros.d]
    rw [if_pos (by omega), i1]
    have hk : (0 + k).toNat < blk.length := by omega
    rw [List.getElem?_eq_getElem hk]
    have := gd
    rw [List.getD_eq_getElem?_getD, List.getD_eq_getElem?_getD] at this
    have e0 : (0 + k).toNat = k.toNat := by omega
    simp only [e0] at hk ⊢
    rw [List.getElem?_eq_getElem hk] at this
    have hz : (List.replicate (2 * user.m_ldim).toNat (0 : Int))[k.toNat]?.getD 0 = 0 := by
      rw [List.getElem?_replicate]; split <;> rfl
    rw [hz] at this
    simp only [Option.getD_some] at this
    rw [this]; simp
  · simp only [Nonzeros.o]
    rw [if_pos (by omega), i2]
    have hk : (user.m_ldim + k).toNat < blk.length := by omega
    rw [List.getElem?_eq_getElem hk]
    have := go
    rw [List.getD_eq_getElem?_getD, List.getD_eq_getElem?_getD] at this
    rw [List.getElem?_eq_getElem hk] at this
    have hz : (List.replicate (2 * user.m_ldim).toNat (0 : Int))[(user.m_ldim + k).toNat]?.getD 0
        = 0 := by
      rw [List.getElem?_replicate]; split <;> rfl
    rw [hz] at this
    simp only [Option.getD_some] at this
    rw [this]; simp

theorem exUser_rows (i j : Int) (hi0 : exUser.xs ≤ i) (hi1 : i < exUser.xs + exUser.xm)
    (hj0 : exUser.ys ≤ j) (hj1 : j < exUser.ys + exUser.ym) :
    ltogAt exUser ((j - exUser.Ys) * exUser.Xm + i - exUser.Xs)
      = some (exUser.istart + ((j - exUser.ys) * exUser.xm + i - exUser.xs)) := by
  simp only [exUser] at hi0 hi1 hj0 hj1
  have hi : i = 0 ∨ i = 1 := by omega
  have hj : j = 0 ∨ j = 1 ∨ j = 2 := by omega
  rcases hi with rfl | rfl <;> rcases hj with rfl | rfl | rfl <;> rfl

/-- The left worker of a 3 by 3 grid split between two workers: the interior
point (1,1), local row 3, gets 4 columns inside and 1 column outside its
ownership range 0..5. -/
theorem stencil_preallocation_exUser :
    ∃ nz, UserDetermineMatrixNonzeros exUser MatType.MATMPIAIJ = Result.ok nz
      ∧ nz.d 3 = some 4 ∧ nz.o 3 = some 1 := by
  obtain ⟨nz, h, hd, ho, _⟩ := stencil_preallocation exUser
    [⟨3, [1, 2, 3, 7, 5]⟩, ⟨2, [2, 0]⟩, ⟨4, [4, 0]⟩, ⟨0, [0, 2]⟩, ⟨1, [1, 3]⟩, ⟨5, [1, 3, 5]⟩]
    (by decide) (by decide) (by decide) (by decide) exUser_rows (by decide)
    1 1 (by decide) (by decide) (by decide) (by decide)
  exact ⟨nz, h, hd, ho⟩

end Ex12

namespace DMShell

/-! ## Setting the held template again -/

theorem released_referenced (o : PetscObject) (hf : o.freed = false) (h1 : 1 ≤ o.refct) :
    released (referenced o) = o := by
  cases o with
  | mk classid refct type_name m n M N vals dm freed =>
    simp only at hf h1
    subst hf
    simp only [released, referenced, PetscObject.mk.injEq, true_and, and_true]
    refine ⟨by omega, ?_⟩
    exact decide_eq_false (by omega)

theorem updObj_self (heap : Heap) (X : ObjId) (o : PetscObject) (hX : heap[X]? = some o)
    (hf : o.freed = false) (h1 : 1 ≤ o.refct) :
    updObj (updObj heap X referenced) X released = heap := by
  apply heap_ext
  intro j
  rw [getElem?_updObj, getElem?_updObj]
  by_cases hj : j = X
  · subst hj
    simp [hX, released_referenced o hf h1]
  · simp [hj, getElem?_updObj]

theorem setSlot_self (shell : DM_Shell) (k : Kind) (X : ObjId) (h : slotOf shell k = some X) :
    setSlot shell k (some X) = shell := by
  cases shell
  cases k <;> simp only [slotOf] at h <;> subst h <;> rfl

theorem setTemplateTrace_eq (k : Kind) (dm : DM) (heap : Heap) (X : ObjId) (shell : DM_Shell)
    (o : PetscObject)
    (hsh : dm.type_name = some DMSHELL) (hd : dm.data = some shell)
    (hX : heap[X]? = some o) (hf : o.freed = false) (hc : o.classid = classOf k)
    (hs : slotOf shell k = some X) :
    SetTemplateTrace k dm heap X
      = [heap, updObj heap X referenced, updObj (updObj heap X referenced) X released] := by
  have hq : (updObj heap X referenced)[X]? = some (referenced o) := by
    simp [getElem?_updObj, hX]
  simp [SetTemplateTrace, PetscValidHeaderSpecific, hX, hf, hc, PetscObjectTypeCompare, hsh, hd,
    PetscObjectReference, PetscValidHeader, ObjectDestroy, hs, hq, referenced]

/-- C21: on a shell DM, for every kind, let X be the held template of that
kind, a live object of the kind's class whose reference count (at least 1)
includes the reference of the slot.  Calling the setter with X succeeds and
leaves the DM and the whole heap as they were: X is still the template and its
reference count is unchanged.  The setter passes through three heaps: the
heap at entry, the heap with one more reference on X (the new reference is
taken first), and the heap after the old reference is released; in each of
them X is present, not destroyed, and its reference count is at least 1. -/
theorem C21_self_assignment (k : Kind) (dm : DM) (heap : Heap) (X : ObjId) (shell : DM_Shell)
    (o : PetscObject)
    (hsh : dm.type_name = some DMSHELL) (hd : dm.data = some shell)
    (hs : slotOf shell k = some X)
    (hX : heap[X]? = some o) (hf : o.freed = false) (hc : o.classid = classOf k)
    (h1 : 1 ≤ o.refct) :
    SetTemplate k dm heap X = ⟨.ok, none, dm, heap⟩
      ∧ (∃ s', (SetTemplate k dm heap X).dm.data = some s' ∧ slotOf s' k = some X)
      ∧ (SetTemplate k dm heap X).heap[X]? = some o
      ∧ SetTemplateTrace k dm heap X = [heap, updObj heap X referenced, heap]
      ∧ (updObj heap X referenced)[X]? = some { o with refct := o.refct + 1 }
      ∧ (SetTemplateTrace k dm heap X).getLast? = some (SetTemplate k dm heap X).heap
      ∧ ∀ h ∈ SetTemplateTrace k dm heap X,
          ∃ o', h[X]? = some o' ∧ 1 ≤ o'.refct ∧ o'.freed = false := by
  have hlive : ∀ p, slotOf shell k = some p → Live heap p (classOf k) := by
    intro p hp
    rw [hs] at hp
    have : X = p := Option.some.inj hp
    subst this
    exact ⟨o, hX, hf, hc⟩
  have hset : SetTemplate k dm heap X = ⟨.ok, none, dm, heap⟩ := by
    rw [setTemplate_eq k dm heap X shell o hsh hd hX hf hc hlive, hs]
    simp only [updObj_self heap X o hX hf h1, setSlot_self shell k X hs]
    cases dm
    simp only at hd
    subst hd
    rfl
  have htrace : SetTemplateTrace k dm heap X = [heap, updObj heap X referenced, heap] := by
    rw [setTemplateTrace_eq k dm heap X shell o hsh hd hX hf hc hs,
      updObj_self heap X o hX hf h1]
  have hmid : (updObj heap X referenced)[X]? = some { o with refct := o.refct + 1 } := by
    simp [getElem?_updObj, hX, referenced]
  refine ⟨hset, ?_, ?_, htrace, hmid, ?_, ?_⟩
  · rw [hset]
    exact ⟨shell, hd, hs⟩
  · rw [hset]
    exact hX
  · rw [htrace, hset]
    rfl
  · intro h hh
    rw [htrace] at hh
    simp only [List.mem_cons, List.mem_singleton, List.not_mem_nil, or_false] at hh
    rcases hh with rfl | rfl | rfl
    · exact ⟨o, hX, h1, hf⟩
    · exact ⟨_, hmid, by simp only; omega, hf⟩
    · exact ⟨o, hX, h1, hf⟩

/-- C21, witness: the matrix template (held only by the shell) is set
again. -/
theorem C21_self_assignment_witness :
    SetTemplate .Matrix (exDM none none (some 0)) [exMat 1 "seqaij"] 0
        = ⟨.ok, none, exDM none none (some 0), [exMat 1 "seqaij"]⟩
      ∧ SetTemplateTrace .Matrix (exDM none none (some 0)) [exMat 1 "seqaij"] 0
        = [[exMat 1 "seqaij"], [exMat 2 "seqaij"], [exMat 1 "seqaij"]] := by
  have h := C21_self_assignment .Matrix (exDM none none (some 0)) [exMat 1 "seqaij"] 0
    { Xglobal := none, Xlocal := none, A := some 0, gtol := none, ltog := none }
    (exMat 1 "seqaij") rfl rfl rfl rfl rfl rfl (by decide)
  exact ⟨h.1, by decide⟩

end DMShell

namespace Ex73

/-! ## Exact totals and the work buffers -/

theorem maxRows_attained (B : Nat → List Nat) (rstart : Nat) :
    ∀ m, maxRows B rstart m = 0 ∨ ∃ i, i < m ∧ maxRows B rstart m = 2 * (B (i + rstart)).length := by
  intro m
  induction m with
  | zero => exact Or.inl rfl
  | succ m ih =>
    simp only [maxRows]
    rcases Nat.le_total (maxRows B rstart m) (2 * (B (m + rstart)).length) with h | h
    · rw [Nat.max_eq_right h]
      exact Or.inr ⟨m, Nat.lt_succ_self m, rfl⟩
    · rw [Nat.max_eq_left h]
      rcases ih with h0 | ⟨i, hi, e⟩
      · exact Or.inl h0
      · exact Or.inr ⟨i, Nat.lt_succ_of_lt hi, e⟩

/-- C23: the block runs to completion with every access to ncols and nvals
checked against their nzmax entries; nzmax is the maximum over the local rows
of 2*nzl (it bounds every row and, unless it is 0, is attained by one); so for
every local row i and every j < nzl the indices 2j and 2j+1 written into ncols
are below nzmax, the 2*nzl values read from nvals lie within its nzmax
entries, and the values passed are all zero. -/
theorem C23_work_buffer_bound (B : Nat → List Nat) (m n rstart : Nat) (junk : Nat → Nat)
    (i j : Nat) (hi : i < m) (hj : j < (B (i + rstart)).length) :
    ∃ c calls c0, buildJ B m n rstart junk = some (c, calls)
      ∧ c.nzmax = maxRows B rstart m
      ∧ (∀ r, r < m → 2 * (B (r + rstart)).length ≤ c.nzmax)
      ∧ (c.nzmax = 0 ∨ ∃ r, r < m ∧ c.nzmax = 2 * (B (r + rstart)).length)
      ∧ 2 * j < c.nzmax ∧ 2 * j + 1 < c.nzmax
      ∧ 2 * (B (i + rstart)).length ≤ c.nzmax
      ∧ calls[2 * i]? = some c0
      ∧ c0.vals = List.replicate (2 * (B (i + rstart)).length) 0
      ∧ c0.cols[2 * j]? = some (2 * (B (i + rstart)).getD j 0)
      ∧ c0.cols[2 * j + 1]? = some (2 * (B (i + rstart)).getD j 0 + 1) := by
  obtain ⟨c, e, _, _, hmax, _, _⟩ := buildJ_spec B m n rstart junk
  obtain ⟨g0, _⟩ := expectedCalls_get B rstart m i hi
  have hle := le_maxRows B rstart m i hi
  obtain ⟨a0, a1⟩ := doubled_get (B (i + rstart)) j
  have hget : (B (i + rstart))[j]? = some ((B (i + rstart)).getD j 0) := by
    rw [List.getD_eq_getElem?_getD, List.getElem?_eq_getElem hj]
    rfl
  refine ⟨c, _, _, e, hmax, ?_, ?_, by omega, by omega, by omega, g0, rfl, ?_, ?_⟩
  · intro r hr
    rw [hmax]
    exact le_maxRows B rstart m r hr
  · rw [hmax]
    exact maxRows_attained B rstart m
  · show (doubled (B (i + rstart)))[2 * j]? = _
    rw [a0, hget]; rfl
  · show (doubled (B (i + rstart)))[2 * j + 1]? = _
    rw [a1, hget]; rfl

/-- C23, witness: local row 0 of `exB` has 3 columns, so nzmax is 6 and the
last pair of ncols written for it is at 4 and 5. -/
theorem C23_work_buffer_bound_witness :
    ∃ c calls, buildJ exB 3 3 1 (fun _ => 99) = some (c, calls)
      ∧ c.nzmax = 6 ∧ 2 * 2 + 1 < c.nzmax := by
  obtain ⟨c, calls, _, e, hmax, _, _, _, h5, _⟩ :=
    C23_work_buffer_bound exB 3 3 1 (fun _ => 99) 0 2 (by decide) (by decide)
  exact ⟨c, calls, e, by rw [hmax]; decide, h5⟩

end Ex73

namespace Ex12

/-! ## The processor-grid check -/

theorem farfield_c2_eq {K : Type} [Field K] (rh_xi_sq pi cosv sinv coshv : K)
    (hX : pi * sinv * coshv ≠ 0) :
    farfield_c2 rh_xi_sq pi cosv sinv coshv = rh_xi_sq * cosv := by
  unfold farfield_c2
  field_simp

/-- C30: in the default run (7 by 7 grid, xi_max = pi/2) the far-field point
i = 1, j = 6 has h_eta = 1/6, h_xi = pi/12 and rh_xi_sq = 1/(h_xi*h_xi).  The
expanded text of line 544 evaluates, over the reals, to
rh_xi_sq*cos(pi*i*h_eta): the division by pi*sin(pi*i*h_eta)*cosh(pi*j*h_xi) is
undone by the multiplication that follows it.  This differs from
rh_xi_sq*cos(pi*i*h_eta) divided by the square of that product.  The same
happens with rational stand-ins: 1*1/(3*(1/2)*2)*(3*(1/2)*2) is 1, not 1/9.
At the use in `beta_sq` the expansion is the square: with mach = 1/2 it gives
3/4. -/
theorem C30_sqr_macro_diverges :
    farfield_c2 (1 / (Real.pi / 12 * (Real.pi / 12))) Real.pi
        (Real.cos (Real.pi * 1 * (1 / 6))) (Real.sin (Real.pi * 1 * (1 / 6)))
        (Real.cosh (Real.pi * 6 * (Real.pi / 12)))
      = 1 / (Real.pi / 12 * (Real.pi / 12)) * Real.cos (Real.pi * 1 * (1 / 6))
    ∧ farfield_c2 (1 / (Real.pi / 12 * (Real.pi / 12))) Real.pi
        (Real.cos (Real.pi * 1 * (1 / 6))) (Real.sin (Real.pi * 1 * (1 / 6)))
        (Real.cosh (Real.pi * 6 * (Real.pi / 12)))
      ≠ 1 / (Real.pi / 12 * (Real.pi / 12)) * Real.cos (Real.pi * 1 * (1 / 6))
          / ((Real.pi * Real.sin (Real.pi * 1 * (1 / 6))
                * Real.cosh (Real.pi * 6 * (Real.pi / 12))) ^ 2)
    ∧ farfield_c2 (1 : ℚ) 3 1 (1 / 2) 2 = 1
    ∧ (1 : ℚ) * 1 / ((3 * (1 / 2) * 2) ^ 2) = 1 / 9
    ∧ beta_sq (1 / 2 : ℚ) = 3 / 4 := by
  have hpi : (3 : ℝ) < Real.pi := Real.pi_gt_three
  have hsin : Real.sin (Real.pi * 1 * (1 / 6)) = 1 / 2 := by
    have : Real.pi * 1 * (1 / 6) = Real.pi / 6 := by ring
    rw [this, Real.sin_pi_div_six]
  have hcos : Real.cos (Real.pi * 1 * (1 / 6)) = Real.sqrt 3 / 2 := by
    have : Real.pi * 1 * (1 / 6) = Real.pi / 6 := by ring
    rw [this, Real.cos_pi_div_six]
  have hcosh : 1 ≤ Real.cosh (Real.pi * 6 * (Real.pi / 12)) := Real.one_le_cosh _
  have hX1 : 1 < Real.pi * Real.sin (Real.pi * 1 * (1 / 6))
      * Real.cosh (Real.pi * 6 * (Real.pi / 12)) := by
    rw [hsin]
    nlinarith
  have hX0 : Real.pi * Real.sin (Real.pi * 1 * (1 / 6))
      * Real.cosh (Real.pi * 6 * (Real.pi / 12)) ≠ 0 := by
    intro h; rw [h] at hX1; linarith
  have hval := farfield_c2_eq (1 / (Real.pi / 12 * (Real.pi / 12))) Real.pi
    (Real.cos (Real.pi * 1 * (1 / 6))) (Real.sin (Real.pi * 1 * (1 / 6)))
    (Real.cosh (Real.pi * 6 * (Real.pi / 12))) hX0
  have hpos : 0 < 1 / (Real.pi / 12 * (Real.pi / 12)) * Real.cos (Real.pi * 1 * (1 / 6)) := by
    rw [hcos]
    have h3 : 0 < Real.sqrt 3 := Real.sqrt_pos.2 (by norm_num)
    positivity
  refine ⟨hval, ?_, ?_, by norm_num, by unfold beta_sq; norm_num⟩
  · rw [hval]
    intro h
    have hsq : 1 < (Real.pi * Real.sin (Real.pi * 1 * (1 / 6))
        * Real.cosh (Real.pi * 6 * (Real.pi / 12))) ^ 2 := by nlinarith
    have hlt := div_lt_self hpos hsq
    rw [← h] at hlt
    exact lt_irrefl _ hlt
  · unfold farfield_c2
    norm_num

end Ex12

namespace PETScFE

/-! ## The tool factory -/

/-- C28: the argument "bcc" is none of the seven tool names, but it occurs
in the string of known tools (inside "bcc32"), so the known branch is taken
and the null function pointer that the map returns for "bcc" is called;
Tool is not set to NULL and "Unknown Tool" is not reported.  The same happens
for "c", "." and the empty argument.  The seven names create the tool of
their registered creator, and an argument that does not occur in the string,
such as "gcc", is reported as unknown. -/
theorem C28_tool_factory_substring :
    Create "bcc" = Outcome.nullCall
      ∧ Create "c" = Outcome.nullCall
      ∧ Create "." = Outcome.nullCall
      ∧ Create "" = Outcome.nullCall
      ∧ Create "gcc" = Outcome.unknownTool
      ∧ Create "cl" = Outcome.created tool.cl
      ∧ Create "df" = Outcome.created tool.cl
      ∧ Create "bcc32" = Outcome.created tool.bcc
      ∧ Create "cc" = Outcome.created tool.cc
      ∧ Create "lib" = Outcome.created tool.lib
      ∧ Create "tlib" = Outcome.created tool.tlib
      ∧ Create "ar" = Outcome.created tool.ar := by
  decide

end PETScFE

namespace Ex12

/-! ## Reads of the ghosted map -/

/-- C24: on the default 7 by 7 grid split into 7 strips of one grid row
(ghost width 1) the worker that owns the far-field row has Xm = 7 and Ym = 2;
at its far-field point i = 1 the index `row` is 8 and `row - 2*Xm` is -6,
outside [0, Xm*Ym) = [0, 14): the read of `ltog` is invalid, and both
routines stop there.  The same happens on one worker with a grid of two rows
(`row - 2*Xm` is -6 again).  On the whole 7 by 7 grid on one worker all reads
are valid and both routines run through. -/
theorem C24_farfield_read_out_of_range :
    topUser.Xm = 7 ∧ topUser.Ym = 2 ∧ topUser.ltog.length = 14
      ∧ (farfieldVisit topUser 1).row = 8
      ∧ (farfieldVisit topUser 1).row - 2 * topUser.Xm = -6
      ∧ ltogAt topUser ((farfieldVisit topUser 1).row - 2 * topUser.Xm) = none
      ∧ farfieldVisit topUser 1 ∈ visits topUser
      ∧ UserDetermineMatrixNonzeros topUser MatType.MATMPIAIJ = Result.fault
      ∧ FormSystem1 topUser = none
      ∧ (farfieldVisit thinUser 1).row - 2 * thinUser.Xm = -6
      ∧ UserDetermineMatrixNonzeros thinUser MatType.MATMPIAIJ = Result.fault
      ∧ FormSystem1 thinUser = none
      ∧ (FormSystem1 wholeUser).isSome = true := by
  decide

end Ex12

namespace Ex12

/-! ## The column lists of the visits -/

theorem ltogAt_mem (user : Atassi) (idx c : Int) (h : ltogAt user idx = some c) :
    c ∈ user.ltog := by
  unfold ltogAt at h
  split at h
  · exact List.mem_iff_getElem?.2 ⟨_, h⟩
  · cases h

theorem interior_cols (user : Atassi) (j i : Int) (cols : List Int)
    (h : (interiorVisit user j i).cols = some cols) :
    cols.length = 5 ∧ ∀ c ∈ cols, c ∈ user.ltog := by
  simp only [interiorVisit, Option.bind_eq_some, Option.some.injEq] at h
  obtain ⟨c0, h0, c1, h1, c2, h2, c3, h3, c4, h4, rfl⟩ := h
  refine ⟨rfl, ?_⟩
  intro c hc
  simp only [List.mem_cons, List.mem_singleton, List.not_mem_nil, or_false] at hc
  rcases hc with rfl | rfl | rfl | rfl | rfl
  · exact ltogAt_mem user _ _ h0
  · exact ltogAt_mem user _ _ h1
  · exact ltogAt_mem user _ _ h2
  · exact ltogAt_mem user _ _ h3
  · exact ltogAt_mem user _ _ h4

theorem downstream_cols (user : Atassi) (j : Int) (cols : List Int)
    (h : (downstreamVisit user j).cols = some cols) :
    cols.length = 2 ∧ ∀ c ∈ cols, c ∈ user.ltog ∨ c = 0 := by
  simp only [downstreamVisit, Option.bind_eq_some, Option.some.injEq] at h
  obtain ⟨c0, h0, rfl⟩ := h
  refine ⟨rfl, ?_⟩
  intro c hc
  simp only [List.mem_cons, List.mem_singleton, List.not_mem_nil, or_false] at hc
  rcases hc with rfl | rfl
  · exact Or.inl (ltogAt_mem user _ _ h0)
  · exact Or.inr rfl

theorem upstream_cols (user : Atassi) (j : Int) (cols : List Int)
    (h : (upstreamVisit user j).cols = some cols) :
    cols.length = 1 ∧ ∀ c ∈ cols, c ∈ user.ltog := by
  simp only [upstreamVisit, Option.bind_eq_some, Option.some.injEq] at h
  obtain ⟨c0, h0, rfl⟩ := h
  refine ⟨rfl, ?_⟩
  intro c hc
  simp only [List.mem_cons, List.mem_singleton, List.not_mem_nil, or_false] at hc
  subst hc
  exact ltogAt_mem user _ _ h0

theorem slit_cols (user : Atassi) (i : Int) (cols : List Int)
    (h : (slitVisit user i).cols = some cols) :
    cols.length = 2 ∧ ∀ c ∈ cols, c ∈ user.ltog := by
  simp only [slitVisit, Option.bind_eq_some, Option.some.injEq] at h
  obtain ⟨c0, h0, c1, h1, rfl⟩ := h
  refine ⟨rfl, ?_⟩
  intro c hc
  simp only [List.mem_cons, List.mem_singleton, List.not_mem_nil, or_false] at hc
  rcases hc with rfl | rfl
  · exact ltogAt_mem user _ _ h0
  · exact ltogAt_mem user _ _ h1

theorem farfield_cols (user : Atassi) (i : Int) (cols : List Int)
    (h : (farfieldVisit user i).cols = some cols) :
    cols.length = 3 ∧ ∀ c ∈ cols, c ∈ user.ltog := by
  simp only [farfieldVisit, Option.bind_eq_some, Option.some.injEq] at h
  obtain ⟨c0, h0, c1, h1, c2, h2, rfl⟩ := h
  refine ⟨rfl, ?_⟩
  intro c hc
  simp only [List.mem_cons, List.mem_singleton, List.not_mem_nil, or_false] at hc
  rcases hc with rfl | rfl | rfl
  · exact ltogAt_mem user _ _ h0
  · exact ltogAt_mem user _ _ h1
  · exact ltogAt_mem user _ _ h2

theorem visit_cols (user : Atassi) :
    ∀ v ∈ visits user, ∀ cols, v.cols = some cols → ∀ c ∈ cols, c ∈ user.ltog ∨ c = 0 := by
  intro v hv cols hcols c hc
  simp only [visits, List.mem_append] at hv
  rcases hv with (((hv | hv) | hv) | hv) | hv
  · obtain ⟨j, _, hv⟩ := List.mem_flatMap.1 hv
    obtain ⟨i, _, rfl⟩ := List.mem_map.1 hv
    exact Or.inl ((interior_cols user j i cols hcols).2 c hc)
  · split at hv
    · obtain ⟨j, _, rfl⟩ := List.mem_map.1 hv
      exact (downstream_cols user j cols hcols).2 c hc
    · cases hv
  · split at hv
    · obtain ⟨j, _, rfl⟩ := List.mem_map.1 hv
      exact Or.inl ((upstream_cols user j cols hcols).2 c hc)
    · cases hv
  · split at hv
    · obtain ⟨i, _, rfl⟩ := List.mem_map.1 hv
      exact Or.inl ((slit_cols user i cols hcols).2 c hc)
    · cases hv
  · split at hv
    · obtain ⟨i, _, rfl⟩ := List.mem_map.1 hv
      exact Or.inl ((farfield_cols user i cols hcols).2 c hc)
    · cases hv

/-! ## The sequential case -/

theorem countCols_seq (m lrow : Int) (h0 : 0 ≤ lrow) (cols : List Int)
    (hall : ∀ c ∈ cols, 0 ≤ c ∧ c < m) :
    ∀ blk : List Int, lrow < blk.length →
      ∃ blk', countCols 0 m none lrow cols blk = some blk' ∧ blk'.length = blk.length := by
  induction cols with
  | nil => intro blk _; exact ⟨blk, rfl, rfl⟩
  | cons c cs ih =>
    intro blk hl
    obtain ⟨b1, e1, l1, _⟩ := incr_spec blk 0 lrow (by omega) (by omega)
    obtain ⟨b2, e2, l2⟩ := ih (fun c' hc' => hall c' (List.mem_cons_of_mem _ hc')) b1
      (by rw [l1]; exact hl)
    refine ⟨b2, ?_, by rw [l2, l1]⟩
    simp only [countCols]
    rw [if_pos (hall c (List.mem_cons_self _ _)), e1]
    exact e2

theorem countVisits_seq (m : Int) (len : Nat) (vs : List Visit) :
    (∀ v ∈ vs, (∃ cols, v.cols = some cols ∧ ∀ c ∈ cols, 0 ≤ c ∧ c < m)
        ∧ 0 ≤ v.lrow ∧ v.lrow < len) →
    ∀ blk : List Int, blk.length = len →
      ∃ blk', forList (countVisit 0 m none) vs blk = some blk' ∧ blk'.length = len := by
  induction vs with
  | nil => intro _ blk hl; exact ⟨blk, rfl, hl⟩
  | cons v vs ih =>
    intro hv blk hl
    obtain ⟨⟨cols, hcols, hall⟩, h0, h1⟩ := hv v (List.mem_cons_self _ _)
    obtain ⟨b1, e1, l1⟩ := countCols_seq m v.lrow h0 cols hall blk (by rw [hl]; exact h1)
    obtain ⟨b2, e2, l2⟩ := ih (fun v' hv' => hv v' (List.mem_cons_of_mem _ hv')) b1
      (by rw [l1]; exact hl)
    refine ⟨b2, ?_, l2⟩
    simp only [forList, countVisit, hcols, Option.some_bind, e1]
    exact e2

/-- The sequential case where the reads are valid: with nnz_o null, istart = 0,
iend = m_ldim on a non-empty local grid with m_ldim = xm*ym, let every value of
the ghosted map lie in [0, m_ldim) and let every read of the map made by the
region loops be valid.  Then every column tested by the loops (the values read
from ltog and the trailing-edge index 0) satisfies `col >= istart && col < iend`,
so the branch `nnz_o[lrow]++` is never taken, and the routine returns without
an invalid access, leaving nnz_o null. -/
theorem no_null_write_valid_reads (user : Atassi)
    (hprob : user.problem = 1) (hxm : 1 ≤ user.xm) (hym : 1 ≤ user.ym)
    (hld : user.m_ldim = user.xm * user.ym)
    (hl : ∀ c ∈ user.ltog, 0 ≤ c ∧ c < user.m_ldim)
    (hreads : ∀ v ∈ visits user, v.cols.isSome = true) :
    (∀ v ∈ visits user, ∀ cols, v.cols = some cols →
        ∀ c ∈ cols, inRange 0 user.m_ldim c = true)
      ∧ ∃ nz, UserDetermineMatrixNonzeros user MatType.MATSEQAIJ = Result.ok nz
          ∧ nz.nnz_o = none ∧ nz.nnz_d = 0 ∧ nz.block.length = user.m_ldim.toNat := by
  have hm : 1 ≤ user.m_ldim := by
    rw [hld]
    have := Int.mul_le_mul hxm hym (by omega) (by omega)
    omega
  have hcol : ∀ v ∈ visits user, ∀ cols, v.cols = some cols →
      ∀ c ∈ cols, 0 ≤ c ∧ c < user.m_ldim := by
    intro v hv cols hcols c hc
    rcases visit_cols user v hv cols hcols c hc with h | h
    · exact hl c h
    · subst h; omega
  refine ⟨fun v hv cols hcols c hc => decide_eq_true (hcol v hv cols hcols c hc), ?_⟩
  obtain ⟨blk, e, l⟩ := countVisits_seq user.m_ldim user.m_ldim.toNat (visits user)
    (by
      intro v hv
      obtain ⟨cols, hcols⟩ := Option.isSome_iff_exists.1 (hreads v hv)
      obtain ⟨i, j, hi0, hi1, hj0, hj1, _, el⟩ := visit_owned user hxm hym v hv
      have hr := lrow_range user.xs user.ys user.xm user.ym i j hi0 hi1 hj0 hj1
      rw [← el, ← hld] at hr
      exact ⟨⟨cols, hcols, hcol v hv cols hcols⟩, hr.1, by omega⟩)
    (List.replicate user.m_ldim.toNat 0) (List.length_replicate _ _)
  refine ⟨⟨blk, 0, none⟩, ?_, rfl, rfl, l⟩
  simp only [UserDetermineMatrixNonzeros, hprob, if_true]
  rw [countRegions_eq, e]
  rfl

/-- The sequential case on the whole 7 by 7 grid on one worker. -/
theorem no_null_write_wholeUser :
    ∃ nz, UserDetermineMatrixNonzeros wholeUser MatType.MATSEQAIJ = Result.ok nz
      ∧ nz.nnz_o = none :=
  have h := no_null_write_valid_reads wholeUser (by decide) (by decide) (by decide) (by decide)
    (by decide) (by decide)
  ⟨h.2.choose, h.2.choose_spec.1, h.2.choose_spec.2.1⟩

end Ex12

namespace Ex12

/-! ## Every owned point is visited exactly once -/

theorem visits_eq_points (user : Atassi) :
    visits user = (visitedPoints user).map (regionVisit user) := by
  simp only [visits, visitedPoints, List.map_append, List.map_flatMap, List.map_map]
  congr 1
  · congr 1
    · congr 1
      · congr 1
        split <;> simp [Function.comp_def, regionVisit]
      · split <;> simp [Function.comp_def, regionVisit]
    · split <;> simp [Function.comp_def, regionVisit]
  · split <;> simp [Function.comp_def, regionVisit]

theorem mem_visitedPoints (user : Atassi) (hv : validDecomposition user)
    (p : Region × Int × Int) :
    p ∈ visitedPoints user ↔ owned user p.2.1 p.2.2 ∧ p.1 = regionOf user p.2.1 p.2.2 := by
  obtain ⟨he, hx, hxs, hxm, hxe, hys, hym, hye⟩ := hv
  obtain ⟨r, i, j⟩ := p
  simp only [visitedPoints, List.mem_append, List.mem_flatMap, List.mem_map, mem_intRange,
    Prod.mk.injEq, owned, regionOf, xsi, xei, ysi, yei]
  constructor
  · rintro ((((⟨j', hj, i', hi, rfl, rfl, rfl⟩ | h) | h) | h) | h)
    · split_ifs at hi hj ⊢ <;> first | omega | exact ⟨by omega, rfl⟩
    · split_ifs at h ⊢
      all_goals first
        | (simp only [List.mem_map, mem_intRange, Prod.mk.injEq, List.not_mem_nil] at h
           obtain ⟨j', hj, rfl, rfl, rfl⟩ := h
           first | omega | exact ⟨by omega, rfl⟩)
        | (simp at h)
    · split_ifs at h ⊢
      all_goals first
        | (simp only [List.mem_map, mem_intRange, Prod.mk.injEq, List.not_mem_nil] at h
           obtain ⟨j', hj, rfl, rfl, rfl⟩ := h
           first | omega | exact ⟨by omega, rfl⟩)
        | (simp at h)
    · split_ifs at h ⊢
      all_goals first
        | (simp only [List.mem_map, mem_intRange, Prod.mk.injEq, List.not_mem_nil] at h
           obtain ⟨i', hi, rfl, rfl, rfl⟩ := h
           first | omega | exact ⟨by omega, rfl⟩)
        | (simp at h)
    · split_ifs at h ⊢
      all_goals first
        | (simp only [List.mem_map, mem_intRange, Prod.mk.injEq, List.not_mem_nil] at h
           obtain ⟨i', hi, rfl, rfl, rfl⟩ := h
           first | omega | exact ⟨by omega, rfl⟩)
        | (simp at h)
  · rintro ⟨⟨hi0, hi1, hj0, hj1⟩, hr⟩
    by_cases c1 : j = 0
    · rw [if_pos c1] at hr
      refine Or.inl (Or.inr ?_)
      rw [if_pos (by omega)]
      simp only [List.mem_map, mem_intRange, Prod.mk.injEq]
      exact ⟨i, ⟨hi0, hi1⟩, hr.symm, rfl, c1.symm⟩
    rw [if_neg c1] at hr
    by_cases c2 : i = 0
    · rw [if_pos c2] at hr
      refine Or.inl (Or.inl (Or.inl (Or.inr ?_)))
      rw [if_pos (by omega)]
      simp only [List.mem_map, mem_intRange, Prod.mk.injEq]
      exact ⟨j, ⟨by split_ifs <;> omega, hj1⟩, hr.symm, c2.symm, rfl⟩
    rw [if_neg c2] at hr
    by_cases c3 : i = user.m_eta - 1
    · rw [if_pos c3] at hr
      refine Or.inl (Or.inl (Or.inr ?_))
      rw [if_pos (by omega)]
      simp only [List.mem_map, mem_intRange, Prod.mk.injEq]
      exact ⟨j, ⟨by split_ifs <;> omega, hj1⟩, hr.symm, by omega, rfl⟩
    rw [if_neg c3] at hr
    by_cases c4 : j = user.m_xi - 1
    · rw [if_pos c4] at hr
      refine Or.inr ?_
      rw [if_pos (by omega)]
      simp only [List.mem_map, mem_intRange, Prod.mk.injEq]
      exact ⟨i, ⟨by split_ifs <;> omega, by split_ifs <;> omega⟩, hr.symm, rfl, by omega⟩
    rw [if_neg c4] at hr
    refine Or.inl (Or.inl (Or.inl (Or.inl ?_)))
    exact ⟨j, ⟨by split_ifs <;> omega, by split_ifs <;> omega⟩, i,
      ⟨by split_ifs <;> omega, by split_ifs <;> omega⟩, hr.symm, rfl, rfl⟩

end Ex12

namespace Ex12

theorem intRange_nodup (lo hi : Int) : (intRange lo hi).Nodup := by
  unfold intRange
  apply List.Nodup.map _ (List.nodup_range _)
  intro a b h
  simp only at h
  omega

theorem visitedPoints_nodup (user : Atassi) : (visitedPoints user).Nodup := by
  have hA : ((intRange (ysi user) (yei user)).flatMap fun j =>
      (intRange (xsi user) (xei user)).map fun i => (Region.interior, i, j)).Nodup := by
    rw [List.nodup_flatMap]
    refine ⟨?_, ?_⟩
    · intro j _
      apply List.Nodup.map _ (intRange_nodup _ _)
      intro a b h
      simp only [Prod.mk.injEq, true_and, and_true] at h
      exact h
    · apply List.Pairwise.imp _ (intRange_nodup (ysi user) (yei user))
      intro a b hab p hp1 hp2
      obtain ⟨i1, _, rfl⟩ := List.mem_map.1 hp1
      obtain ⟨i2, _, h⟩ := List.mem_map.1 hp2
      simp only [Prod.mk.injEq, true_and] at h
      exact hab h.2.symm
  have tA : ∀ p ∈ ((intRange (ysi user) (yei user)).flatMap fun j =>
      (intRange (xsi user) (xei user)).map fun i => (Region.interior, i, j)),
      p.1 = Region.interior := by
    intro p hp
    obtain ⟨j, _, hp⟩ := List.mem_flatMap.1 hp
    obtain ⟨i, _, rfl⟩ := List.mem_map.1 hp
    rfl
  have part : ∀ (c : Prop) [Decidable c] (r : Region) (lo hi : Int)
      (f : Int → Region × Int × Int), (∀ a, (f a).1 = r) → (∀ a b, f a = f b → a = b) →
      (if c then (intRange lo hi).map f else []).Nodup
        ∧ ∀ p ∈ (if c then (intRange lo hi).map f else []), p.1 = r := by
    intro c _ r lo hi f hr hinj
    split
    · refine ⟨List.Nodup.map hinj (intRange_nodup _ _), ?_⟩
      intro p hp
      obtain ⟨a, _, rfl⟩ := List.mem_map.1 hp
      exact hr a
    · exact ⟨List.nodup_nil, fun p hp => absurd hp (List.not_mem_nil p)⟩
  obtain ⟨hB, tB⟩ := part (user.xs = 0) Region.downstream (ysi user) (user.ys + user.ym)
    (fun j => (Region.downstream, 0, j)) (fun _ => rfl)
    (fun a b h => by simp only [Prod.mk.injEq, true_and] at h; exact h)
  obtain ⟨hC, tC⟩ := part (user.xs + user.xm = user.m_eta) Region.upstream (ysi user)
    (user.ys + user.ym) (fun j => (Region.upstream, user.xs + user.xm - 1, j)) (fun _ => rfl)
    (fun a b h => by simp only [Prod.mk.injEq, true_and] at h; exact h)
  obtain ⟨hD, tD⟩ := part (user.ys = 0) Region.slit user.xs (user.xs + user.xm)
    (fun i => (Region.slit, i, 0)) (fun _ => rfl)
    (fun a b h => by simp only [Prod.mk.injEq, true_and, and_true] at h; exact h)
  obtain ⟨hE, tE⟩ := part (user.ys + user.ym = user.m_xi) Region.farfield (xsi user) (xei user)
    (fun i => (Region.farfield, i, user.ys + user.ym - 1)) (fun _ => rfl)
    (fun a b h => by simp only [Prod.mk.injEq, true_and, and_true] at h; exact h)
  unfold visitedPoints
  refine List.Nodup.append (List.Nodup.append (List.Nodup.append (List.Nodup.append hA hB ?_)
    hC ?_) hD ?_) hE ?_
  · intro p h1 h2
    have := tA p h1
    rw [tB p h2] at this
    cases this
  · intro p h1 h2
    rcases List.mem_append.1 h1 with h | h
    · have := tA p h; rw [tC p h2] at this; cases this
    · have := tB p h; rw [tC p h2] at this; cases this
  · intro p h1 h2
    rcases List.mem_append.1 h1 with h | h
    · rcases List.mem_append.1 h with h | h
      · have := tA p h; rw [tD p h2] at this; cases this
      · have := tB p h; rw [tD p h2] at this; cases this
    · have := tC p h; rw [tD p h2] at this; cases this
  · intro p h1 h2
    rcases List.mem_append.1 h1 with h | h
    · rcases List.mem_append.1 h with h | h
      · rcases List.mem_append.1 h with h | h
        · have := tA p h; rw [tE p h2] at this; cases this
        · have := tB p h; rw [tE p h2] at this; cases this
      · have := tC p h; rw [tE p h2] at this; cases this
    · have := tD p h; rw [tE p h2] at this; cases this

theorem visitedCoords_nodup (user : Atassi) (hv : validDecomposition user) :
    ((visitedPoints user).map Prod.snd).Nodup := by
  apply List.Nodup.map_on _ (visitedPoints_nodup user)
  intro p hp q hq h
  have h1 := ((mem_visitedPoints user hv p).1 hp).2
  have h2 := ((mem_visitedPoints user hv q).1 hq).2
  obtain ⟨r, c⟩ := p
  obtain ⟨r', c'⟩ := q
  simp only at h h1 h2
  subst h
  rw [h1, h2]

theorem mem_visitedCoords (user : Atassi) (hv : validDecomposition user) (i j : Int) :
    (i, j) ∈ (visitedPoints user).map Prod.snd ↔ owned user i j := by
  constructor
  · intro h
    obtain ⟨p, hp, e⟩ := List.mem_map.1 h
    have := ((mem_visitedPoints user hv p).1 hp).1
    rw [e] at this
    exact this
  · intro h
    exact List.mem_map.2 ⟨(regionOf user i j, i, j),
      (mem_visitedPoints user hv _).2 ⟨h, rfl⟩, rfl⟩

/-! ## The local row numbering -/

theorem lrowOf_inj (user : Atassi) (i j i2 j2 : Int) (h1 : owned user i j)
    (h2 : owned user i2 j2) (h : lrowOf user i j = lrowOf user i2 j2) : i = i2 ∧ j = j2 := by
  obtain ⟨a0, a1, b0, b1⟩ := h1
  obtain ⟨c0, c1, d0, d1⟩ := h2
  simp only [lrowOf] at h
  have hxm : 0 ≤ user.xm := by omega
  rcases Int.lt_trichotomy j j2 with hlt | heq | hgt
  · have := Int.mul_le_mul_of_nonneg_right (show j - user.ys + 1 ≤ j2 - user.ys by omega) hxm
    have e : (j - user.ys + 1) * user.xm = (j - user.ys) * user.xm + user.xm := by ring
    omega
  · subst heq
    exact ⟨by omega, rfl⟩
  · have := Int.mul_le_mul_of_nonneg_right (show j2 - user.ys + 1 ≤ j - user.ys by omega) hxm
    have e : (j2 - user.ys + 1) * user.xm = (j2 - user.ys) * user.xm + user.xm := by ring
    omega

theorem lrowOf_surj (user : Atassi) (hxm : 1 ≤ user.xm) (k : Int) (h0 : 0 ≤ k)
    (h1 : k < user.xm * user.ym) :
    ∃ i j, owned user i j ∧ lrowOf user i j = k := by
  refine ⟨user.xs + k % user.xm, user.ys + k / user.xm, ⟨?_, ?_, ?_, ?_⟩, ?_⟩
  · have := Int.emod_nonneg k (show user.xm ≠ 0 by omega)
    omega
  · have := Int.emod_lt_of_pos k (show 0 < user.xm by omega)
    omega
  · have := Int.ediv_nonneg h0 (show 0 ≤ user.xm by omega)
    omega
  · have := Int.ediv_lt_of_lt_mul (show 0 < user.xm by omega)
      (show k < user.ym * user.xm by rw [Int.mul_comm]; exact h1)
    omega
  · simp only [lrowOf]
    have := Int.ediv_add_emod k user.xm
    have e : (user.ys + k / user.xm - user.ys) * user.xm = user.xm * (k / user.xm) := by ring
    omega

theorem lrowOf_range (user : Atassi) (i j : Int) (h : owned user i j) :
    0 ≤ lrowOf user i j ∧ lrowOf user i j < user.xm * user.ym :=
  lrow_range user.xs user.ys user.xm user.ym i j h.1 h.2.1 h.2.2.1 h.2.2.2

end Ex12

namespace Ex12

/-! ## One count per local row -/

theorem regionVisit_lrow (user : Atassi) (p : Region × Int × Int)
    (hp : p ∈ visitedPoints user) :
    (regionVisit user p).lrow = lrowOf user p.2.1 p.2.2 := by
  simp only [visitedPoints, List.mem_append] at hp
  rcases hp with (((hp | hp) | hp) | hp) | hp
  · obtain ⟨j, _, hp⟩ := List.mem_flatMap.1 hp
    obtain ⟨i, _, rfl⟩ := List.mem_map.1 hp
    rfl
  · split at hp
    · obtain ⟨j, _, rfl⟩ := List.mem_map.1 hp
      simp only [regionVisit, downstreamVisit, lrowOf]
      omega
    · cases hp
  · split at hp
    · obtain ⟨j, _, rfl⟩ := List.mem_map.1 hp
      simp only [regionVisit, upstreamVisit, lrowOf]
      omega
    · cases hp
  · split at hp
    · obtain ⟨i, _, rfl⟩ := List.mem_map.1 hp
      simp only [regionVisit, slitVisit, lrowOf]
      ring
    · cases hp
  · split at hp
    · obtain ⟨i, _, rfl⟩ := List.mem_map.1 hp
      rfl
    · cases hp

theorem regionVisit_cols (user : Atassi) (p : Region × Int × Int) (cols : List Int)
    (h : (regionVisit user p).cols = some cols) : cols.length = stencilSize p.1 := by
  obtain ⟨r, i, j⟩ := p
  cases r
  · exact (interior_cols user j i cols h).1
  · exact (downstream_cols user j cols h).1
  · exact (upstream_cols user j cols h).1
  · exact (slit_cols user i cols h).1
  · exact (farfield_cols user i cols h).1

theorem filter_unique {α : Type} (L : List α) (P : α → Bool) (a : α) (hnd : L.Nodup)
    (ha : a ∈ L) (hP : ∀ x ∈ L, P x = true ↔ x = a) : L.filter P = [a] := by
  induction L with
  | nil => cases ha
  | cons x xs ih =>
    have hx := List.nodup_cons.1 hnd
    by_cases hxa : x = a
    · subst hxa
      have h1 : P x = true := (hP x (List.mem_cons_self _ _)).2 rfl
      have h2 : xs.filter P = [] := by
        apply List.filter_eq_nil_iff.2
        intro y hy hPy
        have : y = x := (hP y (List.mem_cons_of_mem _ hy)).1 hPy
        exact hx.1 (this ▸ hy)
      rw [List.filter_cons, if_pos h1, h2]
    · have h1 : ¬ P x = true := fun h => hxa ((hP x (List.mem_cons_self _ _)).1 h)
      have ha' : a ∈ xs := by
        rcases List.mem_cons.1 ha with e | h
        · exact absurd e.symm hxa
        · exact h
      rw [List.filter_cons, if_neg h1]
      exact ih hx.2 ha' (fun y hy => hP y (List.mem_cons_of_mem _ hy))

theorem filter_in_out (istart iend : Int) (cols : List Int) :
    (cols.filter (inRange istart iend)).length
      + (cols.filter fun c => !inRange istart iend c).length = cols.length := by
  induction cols with
  | nil => rfl
  | cons c cs ih =>
    simp only [List.filter_cons]
    cases inRange istart iend c <;> simp <;> omega

theorem visits_of_row (user : Atassi) (hv : validDecomposition user) (i j : Int)
    (ho : owned user i j) :
    (visits user).filter (fun v => v.lrow = lrowOf user i j)
      = [regionVisit user (regionOf user i j, i, j)] := by
  rw [visits_eq_points, List.filter_map]
  have h := filter_unique (visitedPoints user)
    ((fun v : Visit => decide (v.lrow = lrowOf user i j)) ∘ regionVisit user)
    (regionOf user i j, i, j) (visitedPoints_nodup user)
    ((mem_visitedPoints user hv _).2 ⟨ho, rfl⟩)
    (by
      intro x hx
      have hm := (mem_visitedPoints user hv x).1 hx
      simp only [Function.comp, decide_eq_true_eq]
      rw [regionVisit_lrow user x hx]
      constructor
      · intro e
        obtain ⟨e1, e2⟩ := lrowOf_inj user x.2.1 x.2.2 i j hm.1 ho e
        obtain ⟨r, a, b⟩ := x
        simp only at e1 e2 hm
        subst e1; subst e2
        rw [hm.2]
      · intro e
        subst e
        rfl)
  rw [h]
  rfl

theorem mpi_counts (user : Atassi) (hprob : user.problem = 1) (hm : 0 ≤ user.m_ldim)
    (hvis : ∀ v ∈ visits user,
      (∃ cols, v.cols = some cols) ∧ 0 ≤ v.lrow ∧ v.lrow < user.m_ldim) :
    ∃ nz, UserDetermineMatrixNonzeros user MatType.MATMPIAIJ = Result.ok nz
      ∧ ∀ k : Int, 0 ≤ k → k < user.m_ldim →
          nz.d k = some ((visitIn user.istart user.iend (visits user) k : Nat) : Int)
          ∧ nz.o k = some ((visitOut user.istart user.iend (visits user) k : Nat) : Int) := by
  have hlen : ((List.replicate (2 * user.m_ldim).toNat (0 : Int)).length : Int)
      = 2 * user.m_ldim := by
    rw [List.length_replicate]; omega
  obtain ⟨blk, e, l, g⟩ := countVisits_spec user.istart user.iend user.m_ldim (visits user)
    hvis (List.replicate (2 * user.m_ldim).toNat 0) hlen
  have hbl : (blk.length : Int) = 2 * user.m_ldim := by rw [l]; exact hlen
  refine ⟨⟨blk, 0, some user.m_ldim⟩, ?_, ?_⟩
  · simp only [UserDetermineMatrixNonzeros, hprob, if_true]
    rw [countRegions_eq, e]
    rfl
  · intro k hk0 hk1
    obtain ⟨gd, go⟩ := g k hk0 hk1
    constructor
    · simp only [Nonzeros.d]
      rw [if_pos (by omega)]
      have hk : (0 + k).toNat < blk.length := by omega
      rw [List.getElem?_eq_getElem hk]
      have := gd
      rw [List.getD_eq_getElem?_getD, List.getD_eq_getElem?_getD] at this
      have e0 : (0 + k).toNat = k.toNat := by omega
      simp only [e0] at hk ⊢
      rw [List.getElem?_eq_getElem hk] at this
      have hz : (List.replicate (2 * user.m_ldim).toNat (0 : Int))[k.toNat]?.getD 0 = 0 := by
        rw [List.getElem?_replicate]; split <;> rfl
      rw [hz] at this
      simp only [Option.getD_some] at this
      rw [this]; simp
    · simp only [Nonzeros.o]
      rw [if_pos (by omega)]
      have hk : (user.m_ldim + k).toNat < blk.length := by omega
      rw [List.getElem?_eq_getElem hk]
      have := go
      rw [List.getD_eq_getElem?_getD, List.getD_eq_getElem?_getD] at this
      rw [List.getElem?_eq_getElem hk] at this
      have hz : (List.replicate (2 * user.m_ldim).toNat (0 : Int))[(user.m_ldim + k).toNat]?.getD 0
          = 0 := by
        rw [List.getElem?_replicate]; split <;> rfl
      rw [hz] at this
      simp only [Option.getD_some] at this
      rw [this]; simp

/-- One count per local row where the reads are valid: on a grid with
m_eta >= 2 and m_xi >= 2, let the worker own a non-empty rectangle, let
m_ldim = xm*ym and let every read of the ghosted map made by the loops be
valid.  Then the five region loops visit every owned
grid point exactly once, by the loop of the region the point lies in, and no
other point; (i,j) -> lrow = (j-ys)*xm + (i-xs) maps the owned points one-to-one
onto [0, xm*ym); and UserDetermineMatrixNonzeros returns (MPIAIJ case) with
nnz_d[lrow] + nnz_o[lrow] equal to the stencil size of the region of the point:
5 (interior), 2 (downstream), 1 (upstream), 2 (slit) or 3 (far field). -/
theorem one_count_per_row (user : Atassi)
    (hprob : user.problem = 1) (hv : validDecomposition user)
    (hld : user.m_ldim = user.xm * user.ym)
    (hreads : ∀ v ∈ visits user, v.cols.isSome = true)
    (i j : Int) (ho : owned user i j) :
    (((visitedPoints user).map Prod.snd).filter fun q => decide (q = (i, j))).length = 1
      ∧ (regionOf user i j, i, j) ∈ visitedPoints user
      ∧ (∀ p ∈ visitedPoints user, owned user p.2.1 p.2.2 ∧ p.1 = regionOf user p.2.1 p.2.2)
      ∧ visits user = (visitedPoints user).map (regionVisit user)
      ∧ (0 ≤ lrowOf user i j ∧ lrowOf user i j < user.xm * user.ym)
      ∧ (∀ i2 j2, owned user i2 j2 → lrowOf user i2 j2 = lrowOf user i j → i2 = i ∧ j2 = j)
      ∧ (∀ k, 0 ≤ k → k < user.xm * user.ym → ∃ i2 j2, owned user i2 j2 ∧ lrowOf user i2 j2 = k)
      ∧ ∃ nz d o, UserDetermineMatrixNonzeros user MatType.MATMPIAIJ = Result.ok nz
          ∧ nz.d (lrowOf user i j) = some d ∧ nz.o (lrowOf user i j) = some o
          ∧ d + o = (stencilSize (regionOf user i j) : Int) := by
  have hxm : 1 ≤ user.xm := hv.2.2.2.1
  have hym : 1 ≤ user.ym := hv.2.2.2.2.2.2.1
  have hr := lrowOf_range user i j ho
  have hm : 0 ≤ user.m_ldim := by omega
  have hvis : ∀ v ∈ visits user,
      (∃ cols, v.cols = some cols) ∧ 0 ≤ v.lrow ∧ v.lrow < user.m_ldim := by
    intro v hvv
    obtain ⟨cols, hcols⟩ := Option.isSome_iff_exists.1 (hreads v hvv)
    obtain ⟨a, b, ha0, ha1, hb0, hb1, _, el⟩ := visit_owned user hxm hym v hvv
    have := lrow_range user.xs user.ys user.xm user.ym a b ha0 ha1 hb0 hb1
    rw [← el, ← hld] at this
    exact ⟨⟨cols, hcols⟩, this.1, this.2⟩
  obtain ⟨nz, hnz, hcount⟩ := mpi_counts user hprob hm hvis
  obtain ⟨hd, ho2⟩ := hcount (lrowOf user i j) hr.1 (by rw [hld]; exact hr.2)
  have hmem : (regionOf user i j, i, j) ∈ visitedPoints user :=
    (mem_visitedPoints user hv _).2 ⟨ho, rfl⟩
  have hone := visits_of_row user hv i j ho
  have hvmem : regionVisit user (regionOf user i j, i, j) ∈ visits user := by
    rw [visits_eq_points]
    exact List.mem_map_of_mem _ hmem
  obtain ⟨cols, hcols⟩ := Option.isSome_iff_exists.1 (hreads _ hvmem)
  have hlen := regionVisit_cols user _ cols hcols
  refine ⟨?_, hmem, fun p hp => (mem_visitedPoints user hv p).1 hp, visits_eq_points user, hr,
    fun i2 j2 h2 e => lrowOf_inj user i2 j2 i j h2 ho e,
    fun k h0 h1 => lrowOf_surj user hxm k h0 h1, nz, _, _, hnz, hd, ho2, ?_⟩
  · rw [filter_unique _ _ (i, j) (visitedCoords_nodup user hv)
      ((mem_visitedCoords user hv i j).2 ho) (fun x _ => decide_eq_true_iff)]
    rfl
  · simp only [visitIn, visitOut, hone, List.flatMap_cons, List.flatMap_nil, List.append_nil,
      hcols, Option.getD_some]
    have := filter_in_out user.istart user.iend cols
    rw [← hlen]
    omega

/-- The left worker of a 3 by 3 grid split between two workers: the interior
point (1,1) has 5 columns. -/
theorem one_count_per_row_exUser :
    ∃ nz d o, UserDetermineMatrixNonzeros exUser MatType.MATMPIAIJ = Result.ok nz
      ∧ nz.d 3 = some d ∧ nz.o 3 = some o ∧ d + o = 5 := by
  obtain ⟨_, _, _, _, _, _, _, nz, d, o, h, hd, ho, hs⟩ :=
    one_count_per_row exUser (by decide) (by decide) (by decide) (by decide) 1 1 (by decide)
  exact ⟨nz, d, o, h, hd, ho, hs⟩

end Ex12

/-!
# Proofs about the connectivity reader of ex1
-/

namespace Ex1

/-! ## Decimal text and `atoi` -/

end Ex1

namespace Ex1

/-! ## Lines and tokens -/

end Ex1

namespace Ex1

/-! ## The vertices of one line -/

end Ex1

namespace Ex1

/-! ## The whole file -/

end Ex1

namespace Ex1

/-! ## A line that does not fit the buffer -/

end Ex1

namespace Ex1

/-! ## The connectivity reader -/

end Ex1

namespace Ex12

/-! ## The far-field read stops the preallocation -/

end Ex12

namespace Ex12

/-! ## When the reads of the ghosted map are valid -/

theorem ghost_read (u : Atassi) (hlen : (u.ltog.length : Int) = u.Xm * u.Ym) (i j idx : Int)
    (hi0 : u.Xs ≤ i) (hi1 : i < u.Xs + u.Xm) (hj0 : u.Ys ≤ j) (hj1 : j < u.Ys + u.Ym)
    (e : idx = (j - u.Ys) * u.Xm + i - u.Xs) : ∃ c, ltogAt u idx = some c := by
  have hr := lrow_range u.Xs u.Ys u.Xm u.Ym i j hi0 hi1 hj0 hj1
  rw [← e, ← hlen] at hr
  unfold ltogAt
  rw [if_pos hr.1]
  have hlt : idx.toNat < u.ltog.length := by omega
  exact ⟨_, List.getElem?_eq_getElem hlt⟩

theorem ghost_read_below (u : Atassi) (hXm : 0 ≤ u.Xm) (i j idx : Int)
    (hi1 : i < u.Xs + u.Xm) (hj1 : j < u.Ys)
    (e : idx = (j - u.Ys) * u.Xm + i - u.Xs) : ltogAt u idx = none := by
  have h1 : (j - u.Ys) * u.Xm ≤ (-1) * u.Xm := Int.mul_le_mul_of_nonneg_right (by omega) hXm
  unfold ltogAt
  rw [if_neg (by omega)]

theorem ghost_corner_facts (m s w S W lo hi : Int) (hm : 2 ≤ m) (hs : 0 ≤ s) (hw : 1 ≤ w)
    (he : s + w ≤ m) (hS : S = max (s - 1) 0) (hW : W = min (s + w + 1) m - S)
    (hlo : lo = if s = 0 then s + 1 else s) (hhi : hi = if s + w = m then s + w - 1 else s + w) :
    0 ≤ S ∧ S ≤ s ∧ s + w ≤ S + W ∧ S + 1 ≤ lo ∧ hi + 1 ≤ S + W ∧ s ≤ lo ∧ hi ≤ s + w
      ∧ 2 ≤ S + W ∧ (s = 0 → S = 0) := by
  subst hlo hhi
  split_ifs <;> omega

theorem reads_valid_of_rows (u : Atassi) (hv : validDecomposition u)
    (hXs : u.Xs = max (u.xs - 1) 0) (hYs : u.Ys = max (u.ys - 1) 0)
    (hXm : u.Xm = min (u.xs + u.xm + 1) u.m_eta - u.Xs)
    (hYm : u.Ym = min (u.ys + u.ym + 1) u.m_xi - u.Ys)
    (hlen : (u.ltog.length : Int) = u.Xm * u.Ym)
    (hfar : u.ys + u.ym = u.m_xi → xsi u < xei u → 2 ≤ u.ys + u.ym - 1 - u.Ys) :
    ∀ v ∈ visits u, v.cols.isSome = true := by
  obtain ⟨hme, hmx, hxs, hxm, hxe, hys, hym, hye⟩ := hv
  obtain ⟨x0, x1, x2, x3, x4, x5, x6, x7, x8⟩ :=
    ghost_corner_facts u.m_eta u.xs u.xm u.Xs u.Xm (xsi u) (xei u) hme hxs hxm hxe hXs hXm rfl rfl
  obtain ⟨y0, y1, y2, y3, y4, y5, y6, y7, y8⟩ :=
    ghost_corner_facts u.m_xi u.ys u.ym u.Ys u.Ym (ysi u) (yei u) hmx hys hym hye hYs hYm rfl rfl
  clear hXs hYs hXm hYm
  intro v hvm
  simp only [visits, List.mem_append] at hvm
  rcases hvm with (((hvm | hvm) | hvm) | hvm) | hvm
  · obtain ⟨j, hj, hvm⟩ := List.mem_flatMap.1 hvm
    obtain ⟨i, hi, rfl⟩ := List.mem_map.1 hvm
    rw [mem_intRange] at hi hj
    obtain ⟨c0, h0⟩ := ghost_read u hlen i (j - 1)
      ((j - u.Ys) * u.Xm + i - u.Xs - u.Xm) (by omega) (by omega) (by omega) (by omega) (by ring)
    obtain ⟨c1, h1⟩ := ghost_read u hlen (i - 1) j
      ((j - u.Ys) * u.Xm + i - u.Xs - 1) (by omega) (by omega) (by omega) (by omega) (by ring)
    obtain ⟨c2, h2⟩ := ghost_read u hlen i j
      ((j - u.Ys) * u.Xm + i - u.Xs) (by omega) (by omega) (by omega) (by omega) rfl
    obtain ⟨c3, h3⟩ := ghost_read u hlen (i + 1) j
      ((j - u.Ys) * u.Xm + i - u.Xs + 1) (by omega) (by omega) (by omega) (by omega) (by ring)
    obtain ⟨c4, h4⟩ := ghost_read u hlen i (j + 1)
      ((j - u.Ys) * u.Xm + i - u.Xs + u.Xm) (by omega) (by omega) (by omega) (by omega) (by ring)
    simp only [interiorVisit, h0, h1, h2, h3, h4, Option.some_bind, Option.isSome_some]
  · split at hvm
    · obtain ⟨j, hj, rfl⟩ := List.mem_map.1 hvm
      rw [mem_intRange] at hj
      obtain ⟨c0, h0⟩ := ghost_read u hlen 0 j
        ((j - u.Ys) * u.Xm - u.Xs) (by omega) (by omega) (by omega) (by omega) (by ring)
      simp only [downstreamVisit, h0, Option.some_bind, Option.isSome_some]
    · cases hvm
  · split at hvm
    · obtain ⟨j, hj, rfl⟩ := List.mem_map.1 hvm
      rw [mem_intRange] at hj
      obtain ⟨c0, h0⟩ := ghost_read u hlen (u.xs + u.xm - 1) j
        ((j - u.Ys) * u.Xm + (u.xs + u.xm) - 1 - u.Xs) (by omega) (by omega) (by omega)
        (by omega) (by ring)
      simp only [upstreamVisit, h0, Option.some_bind, Option.isSome_some]
    · cases hvm
  · split at hvm
    · obtain ⟨i, hi, rfl⟩ := List.mem_map.1 hvm
      rw [mem_intRange] at hi
      obtain ⟨c0, h0⟩ := ghost_read u hlen i 0
        (-u.Ys * u.Xm + i - u.Xs) (by omega) (by omega) (by omega) (by omega) (by ring)
      obtain ⟨c1, h1⟩ := ghost_read u hlen i 1
        (-u.Ys * u.Xm + i - u.Xs + u.Xm) (by omega) (by omega) (by omega) (by omega) (by ring)
      simp only [slitVisit, h0, h1, Option.some_bind, Option.isSome_some]
    · cases hvm
  · split at hvm
    · rename_i hye2
      obtain ⟨i, hi, rfl⟩ := List.mem_map.1 hvm
      rw [mem_intRange] at hi
      have h2 := hfar hye2 (by omega)
      obtain ⟨c0, h0⟩ := ghost_read u hlen i (u.ys + u.ym - 1 - 2)
        ((u.ys + u.ym - 1 - u.Ys) * u.Xm + i - u.Xs - 2 * u.Xm) (by omega) (by omega) (by omega)
        (by omega) (by ring)
      obtain ⟨c1, h1⟩ := ghost_read u hlen i (u.ys + u.ym - 1 - 1)
        ((u.ys + u.ym - 1 - u.Ys) * u.Xm + i - u.Xs - u.Xm) (by omega) (by omega) (by omega)
        (by omega) (by ring)
      obtain ⟨c2, hc2⟩ := ghost_read u hlen i (u.ys + u.ym - 1)
        ((u.ys + u.ym - 1 - u.Ys) * u.Xm + i - u.Xs) (by omega) (by omega) (by omega)
        (by omega) rfl
      simp only [farfieldVisit, h0, h1, hc2, Option.some_bind, Option.isSome_some]
    · cases hvm

theorem rows_of_reads_valid (u : Atassi) (hv : validDecomposition u)
    (hXs : u.Xs = max (u.xs - 1) 0)
    (hXm : u.Xm = min (u.xs + u.xm + 1) u.m_eta - u.Xs)
    (hall : ∀ v ∈ visits u, v.cols.isSome = true) :
    u.ys + u.ym = u.m_xi → xsi u < xei u → 2 ≤ u.ys + u.ym - 1 - u.Ys := by
  obtain ⟨hme, hmx, hxs, hxm, hxe, hys, hym, hye⟩ := hv
  obtain ⟨x0, x1, x2, x3, x4, x5, x6, x7, x8⟩ :=
    ghost_corner_facts u.m_eta u.xs u.xm u.Xs u.Xm (xsi u) (xei u) hme hxs hxm hxe hXs hXm rfl rfl
  clear hXs hXm
  intro hfar hne
  by_contra hlt
  have hmem : farfieldVisit u (xsi u) ∈ visits u := by
    simp only [visits, List.mem_append]
    right
    rw [if_pos hfar]
    exact List.mem_map_of_mem _ ((mem_intRange _ _ _).2 ⟨le_refl _, hne⟩)
  have hsome := hall _ hmem
  have hnone : ltogAt u ((u.ys + u.ym - 1 - u.Ys) * u.Xm + xsi u - u.Xs - 2 * u.Xm) = none :=
    ghost_read_below u (by omega) (xsi u) (u.ys + u.ym - 1 - 2) _ (by omega) (by omega)
      (by ring)
  simp only [farfieldVisit, hnone, Option.none_bind] at hsome
  cases hsome

/-- Every read of the ghosted map made by the region loops is valid exactly
when the far-field loop, if it has a point to visit, finds two rows of the
ghosted patch below the far-field row: for a worker whose ghost corners are
those of a width-1 distributed array (one point beyond the owned patch, cut
off at the boundary of the grid) and whose map has Xm*Ym entries. -/
theorem reads_valid_iff (u : Atassi) (hv : validDecomposition u)
    (hXs : u.Xs = max (u.xs - 1) 0) (hYs : u.Ys = max (u.ys - 1) 0)
    (hXm : u.Xm = min (u.xs + u.xm + 1) u.m_eta - u.Xs)
    (hYm : u.Ym = min (u.ys + u.ym + 1) u.m_xi - u.Ys)
    (hlen : (u.ltog.length : Int) = u.Xm * u.Ym) :
    (∀ v ∈ visits u, v.cols.isSome = true)
      ↔ (u.ys + u.ym = u.m_xi → xsi u < xei u → 2 ≤ u.ys + u.ym - 1 - u.Ys) :=
  ⟨rows_of_reads_valid u hv hXs hXm, reads_valid_of_rows u hv hXs hYs hXm hYm hlen⟩

end Ex12

namespace Ex12

theorem length_flatMap_const {α β : Type} (l : List α) (f : α → List β) (n : Nat)
    (h : ∀ a ∈ l, (f a).length = n) : (l.flatMap f).length = l.length * n := by
  induction l with
  | nil => simp
  | cons a l ih =>
    simp only [List.flatMap_cons, List.length_append, List.length_cons]
    rw [h a (List.mem_cons_self _ _), ih (fun b hb => h b (List.mem_cons_of_mem _ hb))]
    ring

theorem intRange_length (lo hi : Int) : (intRange lo hi).length = (hi - lo).toNat := by
  simp [intRange]

theorem ghostWidth1_nloc (m_eta m_xi xs ys xm ym : Int) (gidx : Int → Int → Int)
    (istart iend : Int)
    (hv : validDecomposition (ghostWidth1 m_eta m_xi xs ys xm ym gidx istart iend)) :
    (((ghostWidth1 m_eta m_xi xs ys xm ym gidx istart iend).ltog.length : Nat) : Int)
      = (ghostWidth1 m_eta m_xi xs ys xm ym gidx istart iend).Xm
        * (ghostWidth1 m_eta m_xi xs ys xm ym gidx istart iend).Ym := by
  obtain ⟨hme, hmx, hxs, hxm, hxe, hys, hym, hye⟩ := hv
  simp only [ghostWidth1] at hme hmx hxs hxm hxe hys hym hye ⊢
  rw [length_flatMap_const _ _ (min (xs + xm + 1) m_eta - max (xs - 1) 0).toNat
    (fun j _ => by rw [List.length_map, intRange_length]), intRange_length]
  push_cast
  rw [Int.toNat_of_nonneg (by omega), Int.toNat_of_nonneg (by omega)]
  ring

/-- The reads of the two routines on a worker of a width-1 distributed array:
they are all valid exactly when the far-field loop, if the worker owns points
of the far-field row other than the two corner columns, has two rows of the
ghosted patch below that row (the strip has at least two owned rows, or three
when it starts at the slit). -/
theorem ghostWidth1_reads (m_eta m_xi xs ys xm ym : Int) (gidx : Int → Int → Int)
    (istart iend : Int)
    (hv : validDecomposition (ghostWidth1 m_eta m_xi xs ys xm ym gidx istart iend)) :
    (∀ v ∈ visits (ghostWidth1 m_eta m_xi xs ys xm ym gidx istart iend), v.cols.isSome = true)
      ↔ (ys + ym = m_xi →
          xsi (ghostWidth1 m_eta m_xi xs ys xm ym gidx istart iend)
            < xei (ghostWidth1 m_eta m_xi xs ys xm ym gidx istart iend) →
          2 ≤ ys + ym - 1 - max (ys - 1) 0) :=
  reads_valid_iff _ hv rfl rfl rfl rfl (ghostWidth1_nloc m_eta m_xi xs ys xm ym gidx istart iend hv)

end Ex12

namespace Ex12

theorem fillVisits_run (user : Atassi) (vs : List Visit)
    (h : ∀ v ∈ vs, ∃ c, callOf user v = some c) :
    ∀ calls, ∃ calls', forList (fillVisit user) vs calls = some calls' := by
  induction vs with
  | nil => intro calls; exact ⟨calls, rfl⟩
  | cons v vs ih =>
    intro calls
    obtain ⟨c, hc⟩ := h v (List.mem_cons_self _ _)
    obtain ⟨calls', e⟩ := ih (fun w hw => h w (List.mem_cons_of_mem _ hw)) (calls ++ [c])
    refine ⟨calls', ?_⟩
    simp only [forList, fillVisit, hc, Option.some_bind]
    exact e

/-- Where every read of the ghosted map made by the loops is valid and every
owned point has global row istart + lrow, FormSystem1 runs through. -/
theorem FormSystem1_runs (user : Atassi) (hxm : 1 ≤ user.xm) (hym : 1 ≤ user.ym)
    (hrow : ∀ i j : Int, user.xs ≤ i → i < user.xs + user.xm →
      user.ys ≤ j → j < user.ys + user.ym →
      ltogAt user ((j - user.Ys) * user.Xm + i - user.Xs)
        = some (user.istart + ((j - user.ys) * user.xm + i - user.xs)))
    (hreads : ∀ v ∈ visits user, v.cols.isSome = true) :
    ∃ calls, FormSystem1 user = some calls := by
  rw [FormSystem1_eq]
  refine fillVisits_run user (visits user) ?_ []
  intro v hv
  obtain ⟨cols, hcols⟩ := Option.isSome_iff_exists.1 (hreads v hv)
  obtain ⟨i, j, hi0, hi1, hj0, hj1, er, _⟩ := visit_owned user hxm hym v hv
  have hg := hrow i j hi0 hi1 hj0 hj1
  rw [← er] at hg
  refine ⟨⟨user.istart + ((j - user.ys) * user.xm + i - user.xs), cols⟩, ?_⟩
  simp only [callOf, hg, hcols, Option.some_bind]

/-- Preallocation and assembly on a worker of a width-1 distributed array whose
far-field loop, if it has a point to visit, finds two rows of the ghosted patch
below the far-field row: with every owned point (i,j) at global row
istart + lrow, both routines return, and nnz_d[lrow], nnz_o[lrow] are the
numbers of columns (with repetition) that FormSystem1 inserts into row
istart + lrow inside and outside [istart, iend). -/
theorem stencil_preallocation_width1 (m_eta m_xi xs ys xm ym : Int) (gidx : Int → Int → Int)
    (istart iend : Int)
    (hv : validDecomposition (ghostWidth1 m_eta m_xi xs ys xm ym gidx istart iend))
    (hfar : ys + ym = m_xi →
      xsi (ghostWidth1 m_eta m_xi xs ys xm ym gidx istart iend)
        < xei (ghostWidth1 m_eta m_xi xs ys xm ym gidx istart iend) →
      2 ≤ ys + ym - 1 - max (ys - 1) 0)
    (hrow : ∀ i j : Int, xs ≤ i → i < xs + xm → ys ≤ j → j < ys + ym →
      ltogAt (ghostWidth1 m_eta m_xi xs ys xm ym gidx istart iend)
          ((j - max (ys - 1) 0) * (min (xs + xm + 1) m_eta - max (xs - 1) 0) + i - max (xs - 1) 0)
        = some (istart + ((j - ys) * xm + i - xs)))
    (i j : Int) (hi0 : xs ≤ i) (hi1 : i < xs + xm) (hj0 : ys ≤ j) (hj1 : j < ys + ym) :
    ∃ calls nz, FormSystem1 (ghostWidth1 m_eta m_xi xs ys xm ym gidx istart iend) = some calls
      ∧ UserDetermineMatrixNonzeros (ghostWidth1 m_eta m_xi xs ys xm ym gidx istart iend)
          MatType.MATMPIAIJ = Result.ok nz
      ∧ nz.d ((j - ys) * xm + i - xs)
          = some ((insertedIn calls istart iend (istart + ((j - ys) * xm + i - xs)) : Nat) : Int)
      ∧ nz.o ((j - ys) * xm + i - xs)
          = some ((insertedOut calls istart iend (istart + ((j - ys) * xm + i - xs)) : Nat) : Int) := by
  have hreads := (ghostWidth1_reads m_eta m_xi xs ys xm ym gidx istart iend hv).2 hfar
  obtain ⟨calls, hF⟩ := FormSystem1_runs _ hv.2.2.2.1 hv.2.2.2.2.2.2.1 hrow hreads
  obtain ⟨nz, h, hd, ho, _⟩ := stencil_preallocation _ calls rfl hv.2.2.2.1 hv.2.2.2.2.2.2.1 rfl
    hrow hF i j hi0 hi1 hj0 hj1
  exact ⟨calls, nz, hF, h, hd, ho⟩

/-- One count per local row on a worker of a width-1 distributed array whose
far-field loop, if it has a point to visit, finds two rows of the ghosted patch
below the far-field row: the routine returns (MPIAIJ case) and
nnz_d[lrow] + nnz_o[lrow] is the stencil size of the region of the point. -/
theorem one_count_per_row_width1 (m_eta m_xi xs ys xm ym : Int) (gidx : Int → Int → Int)
    (istart iend : Int)
    (hv : validDecomposition (ghostWidth1 m_eta m_xi xs ys xm ym gidx istart iend))
    (hfar : ys + ym = m_xi →
      xsi (ghostWidth1 m_eta m_xi xs ys xm ym gidx istart iend)
        < xei (ghostWidth1 m_eta m_xi xs ys xm ym gidx istart iend) →
      2 ≤ ys + ym - 1 - max (ys - 1) 0)
    (i j : Int) (ho : owned (ghostWidth1 m_eta m_xi xs ys xm ym gidx istart iend) i j) :
    ∃ nz d o, UserDetermineMatrixNonzeros (ghostWidth1 m_eta m_xi xs ys xm ym gidx istart iend)
          MatType.MATMPIAIJ = Result.ok nz
      ∧ nz.d (lrowOf (ghostWidth1 m_eta m_xi xs ys xm ym gidx istart iend) i j) = some d
      ∧ nz.o (lrowOf (ghostWidth1 m_eta m_xi xs ys xm ym gidx istart iend) i j) = some o
      ∧ d + o = (stencilSize (regionOf (ghostWidth1 m_eta m_xi xs ys xm ym gidx istart iend) i j)
          : Int) :=
  (one_count_per_row _ rfl hv rfl
    ((ghostWidth1_reads m_eta m_xi xs ys xm ym gidx istart iend hv).2 hfar) i j ho).2.2.2.2.2.2.2

/-- The sequential case on a worker of a width-1 distributed array whose
far-field loop, if it has a point to visit, finds two rows of the ghosted patch
below the far-field row: with every value of the map in [0, m_ldim) the routine
returns and nnz_o stays null. -/
theorem no_null_write_width1 (m_eta m_xi xs ys xm ym : Int) (gidx : Int → Int → Int)
    (istart iend : Int)
    (hv : validDecomposition (ghostWidth1 m_eta m_xi xs ys xm ym gidx istart iend))
    (hfar : ys + ym = m_xi →
      xsi (ghostWidth1 m_eta m_xi xs ys xm ym gidx istart iend)
        < xei (ghostWidth1 m_eta m_xi xs ys xm ym gidx istart iend) →
      2 ≤ ys + ym - 1 - max (ys - 1) 0)
    (hl : ∀ c ∈ (ghostWidth1 m_eta m_xi xs ys xm ym gidx istart iend).ltog,
      0 ≤ c ∧ c < xm * ym) :
    ∃ nz, UserDetermineMatrixNonzeros (ghostWidth1 m_eta m_xi xs ys xm ym gidx istart iend)
          MatType.MATSEQAIJ = Result.ok nz
      ∧ nz.nnz_o = none :=
  have h := no_null_write_valid_reads _ rfl hv.2.2.2.1 hv.2.2.2.2.2.2.1 rfl hl
    ((ghostWidth1_reads m_eta m_xi xs ys xm ym gidx istart iend hv).2 hfar)
  ⟨h.2.choose, h.2.choose_spec.1, h.2.choose_spec.2.1⟩

end Ex12
